import Mathlib

/-!
# pdk-owb-slave: a 1-Wire slave for Padauk microcontrollers

A shallow embedding of `src/owb.c`, `src/owb.h`, `src/owbll.h` and `src/interrupt.c`.

* All `uint8_t` globals are natural numbers; every operation that can leave the
  8-bit range is reduced modulo 256 at the place where the C code stores it.
* The hardware the interrupt handler talks to (the T16 timer and the bus pin) is
  an explicit list of samples that the handler consumes one read at a time.
-/

namespace OWB

set_option maxRecDepth 100000

/-! ## Build-time configuration -/

/-- Everything the sources take from outside `src/`: the clock rate `F_CPU`
(global.h), the `OWB_SKIP_SHORT_PULSES` switch (owb.h), the interrupt request bit
`OWB_LOW_DETECT_IRQ_FLAG` (`INTRQ_PA0` or `INTRQ_COMP` of the device header) and the
serial number array `OWBROMCode` filled in by `EASY_PDK_SERIAL_NUM`. -/
structure Config where
  F_CPU : Nat
  OWB_SKIP_SHORT_PULSES : Bool
  OWB_LOW_DETECT_IRQ_FLAG : Nat
  OWBROMCode : List Nat
  deriving DecidableEq

/-- An `OWBROMCode` of eight `uint8_t` entries. -/
def Config.ValidROM (cfg : Config) : Prop :=
  cfg.OWBROMCode.length = 8 ∧ ∀ b ∈ cfg.OWBROMCode, b < 256

instance (cfg : Config) : Decidable cfg.ValidROM := by
  unfold Config.ValidROM; exact inferInstance

/-- The array read `OWBROMCode[i]`. -/
def Config.rom (cfg : Config) (i : Nat) : Nat := cfg.OWBROMCode.getD i 0

/-! ## Timing constants (owb.h) -/

def OWB_TIMING_LOW_TO_ISR_LATENCY_TICKS : Nat := 8

def OWB_TIMING_US_TO_TICKS (cfg : Config) (us : Nat) : Nat := us * (cfg.F_CPU / 1000000)

def OWB_TIMING_US_TO_TICKS_WITH_LATENCY (cfg : Config) (us : Nat) : Nat :=
  if OWB_TIMING_US_TO_TICKS cfg us > OWB_TIMING_LOW_TO_ISR_LATENCY_TICKS
  then OWB_TIMING_US_TO_TICKS cfg us - OWB_TIMING_LOW_TO_ISR_LATENCY_TICKS else 0

def OWB_TIMING_W1_0_MIN (cfg : Config) : Nat := OWB_TIMING_US_TO_TICKS_WITH_LATENCY cfg 3
def OWB_TIMING_W0_0_MIN (cfg : Config) : Nat := OWB_TIMING_US_TO_TICKS_WITH_LATENCY cfg 30
def OWB_TIMING_R0_0 (cfg : Config) : Nat := OWB_TIMING_US_TO_TICKS_WITH_LATENCY cfg 30
def OWB_TIMING_RST_0_MIN (cfg : Config) : Nat := OWB_TIMING_US_TO_TICKS_WITH_LATENCY cfg 200
def OWB_TIMING_RST_1 (cfg : Config) : Nat := OWB_TIMING_US_TO_TICKS_WITH_LATENCY cfg 15
def OWB_TIMING_RST_PP (cfg : Config) : Nat := OWB_TIMING_US_TO_TICKS_WITH_LATENCY cfg 150

/-! ## Session state (owb.c, owbll.h) -/

/-- The `enum OWBState` of owb.h. -/
inductive OWBState where
  | OWB_STATE_IDLE
  | OWB_STATE_RESET
  | OWB_STATE_READ_ROM
  | OWB_STATE_SEARCH_ROM
  deriving DecidableEq

open OWBState

@[simp] def OWB_STATE_FLAG_SEARCH_ROM_INVERT : Nat := 0x02
@[simp] def OWB_STATE_FLAG_NEXT_IS_READ : Nat := 0x10
@[simp] def OWB_STATE_FLAG_MIGHT_BE_RST : Nat := 0x20
@[simp] def OWB_STATE_FLAG_TIMER_OVERFLOW : Nat := 0x40
@[simp] def OWB_STATE_FLAG_DELAYED_SWITCH_TO_WRITE : Nat := 0x80

/-- The global variables of owb.c. -/
structure Vars where
  OWBLLStateFlags : Nat
  OWBLLNextRead0INTRQFlag : Nat
  OWBLLCurrentBitValue : Nat
  OWBREADROMByteOffset : Nat
  OWBSEARCHROMCurrentByteIndex : Nat
  CurrentState : OWBState
  CurrentByte : Nat
  CurrentBitValue : Nat
  deriving DecidableEq

/-- The initial values of the globals (those without an initialiser start at zero). -/
def Vars.init : Vars :=
  { OWBLLStateFlags := 0
    OWBLLNextRead0INTRQFlag := 0
    OWBLLCurrentBitValue := 0
    OWBREADROMByteOffset := 0
    OWBSEARCHROMCurrentByteIndex := 0
    CurrentState := OWB_STATE_IDLE
    CurrentByte := 0
    CurrentBitValue := 1 }

/-- Every `uint8_t` global holds an 8-bit value. -/
def Vars.WF (s : Vars) : Prop :=
  s.OWBLLStateFlags < 256 ∧ s.OWBLLNextRead0INTRQFlag < 256 ∧ s.OWBLLCurrentBitValue < 256 ∧
  s.OWBREADROMByteOffset < 256 ∧ s.OWBSEARCHROMCurrentByteIndex < 256 ∧
  s.CurrentByte < 256 ∧ s.CurrentBitValue < 256

instance (s : Vars) : Decidable s.WF := by
  unfold Vars.WF; exact inferInstance

/-- The test `OWBLLStateFlags & flag` of a C condition. -/
def Vars.flag (s : Vars) (m : Nat) : Bool := s.OWBLLStateFlags &&& m != 0

/-- The statement `OWBLLStateFlags |= m`. -/
def Vars.setFlag (s : Vars) (m : Nat) : Vars :=
  { s with OWBLLStateFlags := s.OWBLLStateFlags ||| m }

/-- The statement `OWBLLStateFlags &= ~m` on the 8-bit variable. -/
def Vars.clearFlag (s : Vars) (m : Nat) : Vars :=
  { s with OWBLLStateFlags := s.OWBLLStateFlags &&& (0xFF ^^^ m) }

/-! ## Low-level macros (owbll.h) and the protocol engine (owb.c) -/

/-- The macro `OWBLLSetReadValue(val)`. -/
def OWBLLSetReadValue (val : Nat) (s : Vars) : Vars := { s with OWBLLCurrentBitValue := val }

/-- The macro `OWBLLSwitchToWrite()`: the switch is only requested here. -/
def OWBLLSwitchToWrite (s : Vars) : Vars := s.setFlag OWB_STATE_FLAG_DELAYED_SWITCH_TO_WRITE

/-- The macro `OWBLLSwitchToWriteImmediately()`. -/
def OWBLLSwitchToWriteImmediately (s : Vars) : Vars :=
  (({ s with OWBLLNextRead0INTRQFlag := 0 }).clearFlag
    OWB_STATE_FLAG_DELAYED_SWITCH_TO_WRITE).clearFlag OWB_STATE_FLAG_NEXT_IS_READ

/-- The function `OWBReset`. -/
def OWBReset (s : Vars) : Vars :=
  { s with
    CurrentByte := 0
    CurrentBitValue := 1
    CurrentState := OWB_STATE_RESET
    OWBREADROMByteOffset := 0
    OWBSEARCHROMCurrentByteIndex := 0 }

/-- The function `OWBReadBit`. -/
def OWBReadBit (cfg : Config) (s : Vars) : Vars :=
  match s.CurrentState with
  | OWB_STATE_SEARCH_ROM =>
    let s :=
      if s.flag OWB_STATE_FLAG_SEARCH_ROM_INVERT then
        -- Send inverted bit; next is master bit
        OWBLLSwitchToWrite (OWBLLSetReadValue ((s.CurrentByte ^^^ 0xFF) &&& 0x01) s)
      else
        OWBLLSetReadValue (s.CurrentByte &&& 0x01) s
    { s with OWBLLStateFlags := s.OWBLLStateFlags ^^^ OWB_STATE_FLAG_SEARCH_ROM_INVERT }
  | OWB_STATE_READ_ROM =>
    let s := OWBLLSetReadValue (s.CurrentByte &&& 0x01) s
    let s := { s with CurrentBitValue := (s.CurrentBitValue <<< 1) % 256
                      CurrentByte := s.CurrentByte >>> 1 }
    if s.CurrentBitValue = 0 then
      let s := { s with OWBREADROMByteOffset := (s.OWBREADROMByteOffset + 1) % 256 }
      if s.OWBREADROMByteOffset = 8 then
        { s with CurrentState := OWB_STATE_IDLE }
      else
        { s with CurrentByte := cfg.rom s.OWBREADROMByteOffset
                 CurrentBitValue := (s.CurrentBitValue + 1) % 256 }
    else s
  | _ => OWBLLSetReadValue 1 s

/-- The macro `OWBLLSetupNextRead()`. -/
def OWBLLSetupNextRead (cfg : Config) (s : Vars) : Vars :=
  let s := OWBReadBit cfg s
  if s.OWBLLCurrentBitValue ≠ 0 then
    { s with OWBLLNextRead0INTRQFlag := 0 }
  else
    { s with OWBLLNextRead0INTRQFlag := cfg.OWB_LOW_DETECT_IRQ_FLAG }

/-- The macro `OWBLLSwitchToRead()`. -/
def OWBLLSwitchToRead (cfg : Config) (s : Vars) : Vars :=
  if !s.flag OWB_STATE_FLAG_NEXT_IS_READ then
    OWBLLSetupNextRead cfg (s.setFlag OWB_STATE_FLAG_NEXT_IS_READ)
  else s

/-- The function `OWBWriteBit`; the written bit is `OWBLLGetWriteValue()`, that is
`OWBLLCurrentBitValue`. -/
def OWBWriteBit (cfg : Config) (s : Vars) : Vars :=
  match s.CurrentState with
  | OWB_STATE_SEARCH_ROM =>
    if s.OWBLLCurrentBitValue = s.CurrentByte &&& 0x01 then
      -- Bit match
      let s := { s with CurrentBitValue := (s.CurrentBitValue <<< 1) % 256
                        CurrentByte := s.CurrentByte >>> 1 }
      let s :=
        if s.CurrentBitValue = 0 then
          let s := { s with OWBSEARCHROMCurrentByteIndex :=
                              (s.OWBSEARCHROMCurrentByteIndex + 1) % 256 }
          if s.OWBSEARCHROMCurrentByteIndex = 8 then
            { s with CurrentState := OWB_STATE_IDLE }
          else
            { s with CurrentBitValue := (s.CurrentBitValue + 1) % 256
                     CurrentByte := cfg.rom s.OWBSEARCHROMCurrentByteIndex }
        else s
      OWBLLSwitchToRead cfg s
    else
      -- Bit mismatch -> go inactive
      { s with CurrentState := OWB_STATE_IDLE }
  | OWB_STATE_RESET =>
    let s := if s.OWBLLCurrentBitValue ≠ 0 then
        { s with CurrentByte := s.CurrentByte ||| s.CurrentBitValue } else s
    let s := { s with CurrentBitValue := (s.CurrentBitValue <<< 1) % 256 }
    if s.CurrentBitValue = 0 then
      if s.CurrentByte = 0x33 then
        OWBLLSwitchToRead cfg
          { s with CurrentState := OWB_STATE_READ_ROM
                   CurrentByte := cfg.rom 0
                   CurrentBitValue := (s.CurrentBitValue + 1) % 256 }
      else if s.CurrentByte = 0xF0 then
        OWBLLSwitchToRead cfg
          { s with CurrentState := OWB_STATE_SEARCH_ROM
                   CurrentByte := cfg.rom 0
                   CurrentBitValue := (s.CurrentBitValue + 1) % 256 }
      else
        { s with CurrentState := OWB_STATE_IDLE }
    else s
  | _ => s

/-! ## The interrupt handler (interrupt.c)

The handler reads the T16 counter (`ldt16`) and the bus pin (`OWBLLGetValue`). Each such
read takes the next sample of the list it is given; one pass of a polling loop, which
loads the counter and then tests the pin, takes one sample. When the list is used up
while the handler is still waiting, the run is returned as it stands with `exited`
false. The writes to `T16M` and `T16C` (start, stop and reset of the counter) and the
debug pulse have no counterpart here: what the counter reads is given by the samples. -/

/-- One observation of the hardware: the T16 count and the level of the bus pin. -/
structure Sample where
  tick : Nat
  high : Bool
  deriving DecidableEq

/-- A call from the handler into the protocol engine; `OWBWriteBit` is recorded together
with the `OWBLLCurrentBitValue` it is called with. -/
inductive Call where
  | OWBWriteBit (bit : Nat)
  | OWBReadBit
  | OWBReset
  deriving DecidableEq

/-- The two ways the handler touches the bus pin. -/
inductive BusOp where
  | OWBLLSetLow
  | OWBLLSetInput
  deriving DecidableEq

/-- The handler in progress: the globals, the `INTRQ` register, the engine calls and bus
operations made so far, and the samples not yet read. -/
structure Run where
  vars : Vars
  INTRQ : Nat
  calls : List Call
  bus : List BusOp
  env : List Sample
  exited : Bool
  deriving DecidableEq

/-- The loop `do { OWBLLGetT16Value(); } while (!OWBLLGetValue() && T16Value < thr)`:
the last `T16Value` and the samples left, or `none` when the samples end first. -/
def pollLine (thr : Nat) : List Sample → Option (Nat × List Sample)
  | [] => none
  | x :: xs => if !x.high && decide (x.tick < thr) then pollLine thr xs else some (x.tick, xs)

/-- The macro `OWBLLWaitForT16(minValue)`. -/
def OWBLLWaitForT16 (minValue : Nat) : List Sample → Option (List Sample)
  | [] => none
  | x :: xs => if x.tick < minValue then OWBLLWaitForT16 minValue xs else some xs

/-- The loop `while (!OWBLLGetValue());`. -/
def waitRelease : List Sample → Option (List Sample)
  | [] => none
  | x :: xs => if !x.high then waitRelease xs else some xs

/-- The samples ended inside a wait. -/
def Run.spin (r : Run) : Run := { r with env := [], exited := false }

/-- The block both read branches share: the deferred switch to write mode if one is
requested, otherwise `OWBLLSetupNextRead()`; then `MIGHT_BE_RST` is set. -/
def readSlot (cfg : Config) (r : Run) : Run :=
  let r :=
    if r.vars.flag OWB_STATE_FLAG_DELAYED_SWITCH_TO_WRITE then
      { r with vars := OWBLLSwitchToWriteImmediately r.vars }
    else
      { r with vars := OWBLLSetupNextRead cfg r.vars, calls := r.calls ++ [Call.OWBReadBit] }
  { r with vars := r.vars.setFlag OWB_STATE_FLAG_MIGHT_BE_RST }

/-- The READ0 branch after the glitch test: extend the LOW pulse, wait for the end of
the R0 pulse, release the bus, prepare the next operation. -/
def read0 (cfg : Config) (r : Run) : Run :=
  let r := { r with bus := r.bus ++ [BusOp.OWBLLSetLow] }
  match OWBLLWaitForT16 (OWB_TIMING_R0_0 cfg) r.env with
  | none => r.spin
  | some rest => readSlot cfg { r with bus := r.bus ++ [BusOp.OWBLLSetInput], env := rest }

/-- The write branch: poll until the bus is released or the W0 time is reached, then
report W0, W1 or nothing. -/
def writeSlot (cfg : Config) (r : Run) : Run :=
  match pollLine (OWB_TIMING_W0_0_MIN cfg) r.env with
  | none => r.spin
  | some (T16Value, rest) =>
    let r := { r with env := rest }
    if T16Value ≥ OWB_TIMING_W0_0_MIN cfg then
      { r with
        vars := (OWBWriteBit cfg { r.vars with OWBLLCurrentBitValue := 0 }).setFlag
                  OWB_STATE_FLAG_MIGHT_BE_RST
        calls := r.calls ++ [Call.OWBWriteBit 0] }
    else if !cfg.OWB_SKIP_SHORT_PULSES || decide (T16Value ≥ OWB_TIMING_W1_0_MIN cfg) then
      { r with
        vars := OWBWriteBit cfg { r.vars with OWBLLCurrentBitValue := 1 }
        calls := r.calls ++ [Call.OWBWriteBit 1] }
    else r

/-- The first part of the handler, up to the delayed prolog: the bit-level classification. -/
def classify (cfg : Config) (r : Run) : Run :=
  if r.INTRQ &&& r.vars.OWBLLNextRead0INTRQFlag ≠ 0 then
    -- This is either R0 or RST
    if cfg.OWB_SKIP_SHORT_PULSES then
      -- t0sn.io __pa, #(OWB_PIN); goto 1$
      match r.env with
      | [] => r.spin
      | x :: rest => if x.high then { r with env := rest } else read0 cfg { r with env := rest }
    else read0 cfg r
  else if r.INTRQ &&& cfg.OWB_LOW_DETECT_IRQ_FLAG ≠ 0 then
    if r.vars.flag OWB_STATE_FLAG_NEXT_IS_READ then readSlot cfg r else writeSlot cfg r
  else r

/-- The statement `INTRQ &= ~OWB_LOW_DETECT_IRQ_FLAG` on the 8-bit register. -/
def clearIRQ (cfg : Config) (r : Run) : Run :=
  { r with INTRQ := r.INTRQ &&& (0xFF ^^^ cfg.OWB_LOW_DETECT_IRQ_FLAG) }

/-- The body of `if (T16Value >= OWB_TIMING_RST_0_MIN || ...)`: the reset entry point,
the end of the master's LOW pulse, the idle time, the presence pulse. -/
def resetSequence (cfg : Config) (r : Run) : Run :=
  let r := { r with vars := OWBReset r.vars, calls := r.calls ++ [Call.OWBReset] }
  match waitRelease r.env with
  | none => r.spin
  | some rest =>
    match OWBLLWaitForT16 (OWB_TIMING_RST_1 cfg) rest with
    | none => r.spin
    | some rest =>
      let r := { r with bus := r.bus ++ [BusOp.OWBLLSetLow]
                        vars := OWBLLSwitchToWriteImmediately r.vars }
      match OWBLLWaitForT16 (OWB_TIMING_RST_PP cfg) rest with
      | none => r.spin
      | some rest =>
        clearIRQ cfg { r with bus := r.bus ++ [BusOp.OWBLLSetInput], env := rest }

/-- The second part of the handler: the check whether the pulse becomes a RST. -/
def finalize (cfg : Config) (r : Run) : Run :=
  if r.INTRQ &&& cfg.OWB_LOW_DETECT_IRQ_FLAG ≠ 0 then
    let r := clearIRQ cfg r
    let r :=
      if r.vars.flag OWB_STATE_FLAG_MIGHT_BE_RST then
        match pollLine (OWB_TIMING_RST_0_MIN cfg) r.env with
        | none => r.spin
        | some (T16Value, rest) =>
          let r := { r with env := rest }
          if T16Value ≥ OWB_TIMING_RST_0_MIN cfg ∨ r.vars.flag OWB_STATE_FLAG_TIMER_OVERFLOW
          then resetSequence cfg r else r
      else r
    if r.exited then { r with vars := r.vars.clearFlag OWB_STATE_FLAG_MIGHT_BE_RST } else r
  else r

/-- The handler entered with the globals `s`, the register value `INTRQ` and the
samples `env` ahead of it. -/
def Run.start (s : Vars) (INTRQ : Nat) (env : List Sample) : Run :=
  { vars := s, INTRQ := INTRQ, calls := [], bus := [], env := env, exited := true }

/-- The function `interrupt`. -/
def interrupt (cfg : Config) (s : Vars) (INTRQ : Nat) (env : List Sample) : Run :=
  let r := classify cfg (Run.start s INTRQ env)
  if r.exited then finalize cfg r else r

/-- The states of the globals between two runs of the handler: the initial values, and
the values a completed run of the handler leaves behind, whatever the register and the
samples were. -/
inductive Reachable (cfg : Config) : Vars → Prop where
  | init : Reachable cfg Vars.init
  | step (s : Vars) (INTRQ : Nat) (env : List Sample) :
      Reachable cfg s → (interrupt cfg s INTRQ env).exited = true →
      Reachable cfg (interrupt cfg s INTRQ env).vars

/-! ## Invariants of the handler -/

/-- The READ0 flag agrees with the mode and the prepared bit. -/
def FastOK (cfg : Config) (s : Vars) : Prop :=
  s.OWBLLNextRead0INTRQFlag =
    if s.OWBLLStateFlags.testBit 4 = true ∧ s.OWBLLCurrentBitValue = 0
    then cfg.OWB_LOW_DETECT_IRQ_FLAG else 0

/-- What holds of the globals whenever the handler is entered: the flags are a byte,
`MIGHT_BE_RST` is clear, and the READ0 flag is the request bit exactly when a read of a
0 bit comes next. -/
def EntryInv (cfg : Config) (s : Vars) : Prop :=
  s.OWBLLStateFlags < 256 ∧
  s.flag OWB_STATE_FLAG_MIGHT_BE_RST = false ∧
  s.OWBLLNextRead0INTRQFlag =
    if s.flag OWB_STATE_FLAG_NEXT_IS_READ = true ∧ s.OWBLLCurrentBitValue = 0
    then cfg.OWB_LOW_DETECT_IRQ_FLAG else 0

/-- What the classification leaves behind when it returns: a flag byte, a READ0 flag
that agrees with mode and prepared bit, and `MIGHT_BE_RST` only with the request
pending. -/
def GoodRun (cfg : Config) (c : Run) : Prop :=
  c.vars.OWBLLStateFlags < 256 ∧ FastOK cfg c.vars ∧
  (c.vars.OWBLLStateFlags.testBit 5 = true → c.INTRQ &&& cfg.OWB_LOW_DETECT_IRQ_FLAG ≠ 0)

/-! ## Sequences of events -/

/-- The engine's part of a run of write slots: for each bit the handler stores the bit
in `OWBLLCurrentBitValue` and calls `OWBWriteBit`. -/
def writeBits (cfg : Config) (bits : List Bool) (s : Vars) : Vars :=
  bits.foldl (fun t b => OWBWriteBit cfg { t with OWBLLCurrentBitValue := b.toNat }) s

/-- The byte whose bit `i` is the `i`-th entry of the list, least significant first. -/
def byteOfBits : List Bool → Nat
  | [] => 0
  | b :: bs => b.toNat + 2 * byteOfBits bs

/-- The handler entered once per pulse with the low-detect request pending, each pulse
given as the samples the handler reads during it. -/
def handle (cfg : Config) (s : Vars) : List (List Sample) → Vars
  | [] => s
  | p :: ps => handle cfg (interrupt cfg s cfg.OWB_LOW_DETECT_IRQ_FLAG p).vars ps

/-- A build at 4 MHz without the glitch filter, the request bit being bit 0, with a
serial number whose first byte is the family code 0x28. -/
def demoConfig : Config :=
  { F_CPU := 4000000
    OWB_SKIP_SHORT_PULSES := false
    OWB_LOW_DETECT_IRQ_FLAG := 1
    OWBROMCode := [0x28, 0xAB, 0x12, 0x34, 0x56, 0x78, 0x9A, 0xBC] }

/-- The same build with `OWB_SKIP_SHORT_PULSES` enabled. -/
def demoConfigSkip : Config := { demoConfig with OWB_SKIP_SHORT_PULSES := true }

/-- A reset pulse at 4 MHz: the bus stays LOW past 792 ticks, is released, and the timer
then runs through the idle time and the presence pulse. -/
def resetPulse : List Sample :=
  [⟨5, false⟩, ⟨112, false⟩, ⟨400, false⟩, ⟨792, false⟩, ⟨900, true⟩, ⟨52, true⟩, ⟨592, true⟩]

/-- A short pulse at 4 MHz, as the master sends it for a write-1 and for a read slot:
the bus is found released at tick 5; the later samples are only read when the slave
itself extends the pulse. -/
def shortPulse : List Sample := [⟨5, true⟩, ⟨112, true⟩, ⟨113, true⟩]

/-- A write-0 pulse at 4 MHz: LOW up to the W0 time, released well before the RST time. -/
def longPulse : List Sample := [⟨5, false⟩, ⟨112, false⟩, ⟨240, true⟩]

/-- The command byte 0xF0 (SEARCH ROM) as eight write slots, least significant bit first. -/
def searchRomCommand : List (List Sample) :=
  [longPulse, longPulse, longPulse, longPulse, shortPulse, shortPulse, shortPulse, shortPulse]

/-- The command byte 0x33 (READ ROM) as eight write slots, least significant bit first. -/
def readRomCommand : List (List Sample) :=
  [shortPulse, shortPulse, longPulse, longPulse, shortPulse, shortPulse, longPulse, longPulse]

/-- Every pulse of the list is handled to the end. -/
def allExit (cfg : Config) (s : Vars) : List (List Sample) → Bool
  | [] => true
  | p :: ps =>
    (interrupt cfg s cfg.OWB_LOW_DETECT_IRQ_FLAG p).exited &&
      allExit cfg (interrupt cfg s cfg.OWB_LOW_DETECT_IRQ_FLAG p).vars ps

/-- The globals in the middle of a SEARCH ROM round: after a reset, the command 0xF0 and
the two read slots of identifier bit 0, when the master's write slot comes next. -/
def searchWritePhase : Vars :=
  handle demoConfig Vars.init ([resetPulse] ++ searchRomCommand ++ [shortPulse, shortPulse])

/-- The globals in the middle of a READ ROM transfer with the glitch filter enabled:
after a reset, the command 0x33 and three read slots, when bit 3 of the family code
0x28, a 1, is waiting to be read. -/
def read1Expected : Vars :=
  handle demoConfigSkip Vars.init ([resetPulse] ++ readRomCommand ++ [longPulse, longPulse, longPulse])

/-- The globals at the start of a READ ROM transfer with the glitch filter enabled: after
a reset and the command 0x33, when bit 0 of the family code 0x28, a 0, is waiting to be
read. -/
def read0Expected : Vars :=
  handle demoConfigSkip Vars.init ([resetPulse] ++ readRomCommand)

/-- Bit `k` of `OWBROMCode[i]`. -/
def Config.bit (cfg : Config) (i k : Nat) : Nat := cfg.rom i / 2 ^ k % 2

/-- The SEARCH ROM cursor stands at bit `k` of byte `i`: the mask has bit `k` set and
`CurrentByte` holds the rest of the byte, the current bit lowest. -/
def AtSearchCursor (cfg : Config) (s : Vars) (i k : Nat) : Prop :=
  s.OWBSEARCHROMCurrentByteIndex = i ∧ s.CurrentBitValue = 2 ^ k ∧
  s.CurrentByte = cfg.rom i / 2 ^ k

/-- The READ ROM cursor stands at bit `k` of byte `i`. -/
def AtReadCursor (cfg : Config) (s : Vars) (i k : Nat) : Prop :=
  s.OWBREADROMByteOffset = i ∧ s.CurrentBitValue = 2 ^ k ∧
  s.CurrentByte = cfg.rom i / 2 ^ k

instance (cfg : Config) (s : Vars) (i k : Nat) : Decidable (AtSearchCursor cfg s i k) := by
  unfold AtSearchCursor; exact inferInstance

instance (cfg : Config) (s : Vars) (i k : Nat) : Decidable (AtReadCursor cfg s i k) := by
  unfold AtReadCursor; exact inferInstance

/-! ## Sequences of engine calls -/

/-- One call of the engine's interface: `OWBReset()`, `OWBWriteBit()` with the bit the
low-level driver has stored, `OWBReadBit()`. -/
inductive EngineCall where
  | reset
  | write (bit : Bool)
  | read
  deriving DecidableEq

/-- The globals after one engine call. -/
def EngineCall.run (cfg : Config) (s : Vars) : EngineCall → Vars
  | .reset => OWBReset s
  | .write bit => OWBWriteBit cfg { s with OWBLLCurrentBitValue := bit.toNat }
  | .read => OWBReadBit cfg s

/-- The globals after a sequence of engine calls. -/
def engine (cfg : Config) (calls : List EngineCall) (s : Vars) : Vars :=
  calls.foldl (EngineCall.run cfg) s

/-- The calls of a reset followed by the eight bits of a command byte, least significant
bit first. -/
def commandCalls (bits : List Bool) : List EngineCall :=
  EngineCall.reset :: bits.map EngineCall.write

/-- A run of SEARCH ROM steps: for each entry `r` of the list, `r` calls of `OWBReadBit`
and then one `OWBWriteBit` with the bit the engine compares it against, `CurrentByte & 1`
(the master writing the bit this slave holds). -/
def searchRounds (cfg : Config) : List Nat → Vars → Vars
  | [], s => s
  | r :: rs, s =>
    let t := (OWBReadBit cfg)^[r] s
    searchRounds cfg rs (OWBWriteBit cfg { t with OWBLLCurrentBitValue := t.CurrentByte &&& 0x01 })

/-- What the engine keeps true of the cursor: in RESET the mask is `2 ^ k` after `k`
command bits, which are in `CurrentByte`, and both byte indices are 0; in READ ROM and
in SEARCH ROM the cursor stands at a bit `k < 8` of an identifier byte with index below
8; in IDLE the mask is a single bit or 0. -/
def CursorInv (cfg : Config) (s : Vars) : Prop :=
  match s.CurrentState with
  | OWB_STATE_IDLE => s.CurrentBitValue = 0 ∨ ∃ k < 8, s.CurrentBitValue = 2 ^ k
  | OWB_STATE_RESET =>
    ∃ k < 8, s.CurrentBitValue = 2 ^ k ∧ s.CurrentByte < 2 ^ k ∧
      s.OWBREADROMByteOffset = 0 ∧ s.OWBSEARCHROMCurrentByteIndex = 0
  | OWB_STATE_READ_ROM =>
    ∃ k < 8, s.OWBREADROMByteOffset < 8 ∧ AtReadCursor cfg s s.OWBREADROMByteOffset k
  | OWB_STATE_SEARCH_ROM =>
    ∃ k < 8, s.OWBSEARCHROMCurrentByteIndex < 8 ∧
      AtSearchCursor cfg s s.OWBSEARCHROMCurrentByteIndex k

/-- The globals in a SEARCH ROM round after the first read slot of identifier bit 0,
when the complement is buffered and the switch to write mode is requested. -/
def searchComplementPhase : Vars :=
  handle demoConfig Vars.init ([resetPulse] ++ searchRomCommand ++ [shortPulse])

/-! ## The timing table, the unoptimised fast-path test, the timer -/

/-- The six thresholds in the order W1 minimum, W0 minimum, R0 time, RST minimum, idle
time after a reset, presence pulse. -/
def timingThresholds (cfg : Config) : List Nat :=
  [OWB_TIMING_W1_0_MIN cfg, OWB_TIMING_W0_0_MIN cfg, OWB_TIMING_R0_0 cfg,
   OWB_TIMING_RST_0_MIN cfg, OWB_TIMING_RST_1 cfg, OWB_TIMING_RST_PP cfg]

/-- The test the comment above the fast path gives as the unoptimised version:
`(INTRQ & OWB_LOW_DETECT_IRQ_FLAG) && (OWBLLStateFlags & OWB_STATE_FLAG_NEXT_IS_READ) &&
(OWBLLCurrentBitValue == 0)`. -/
def unoptimisedRead0Test (cfg : Config) (s : Vars) (INTRQ : Nat) : Bool :=
  (INTRQ &&& cfg.OWB_LOW_DETECT_IRQ_FLAG != 0) && s.flag OWB_STATE_FLAG_NEXT_IS_READ &&
    (s.OWBLLCurrentBitValue == 0)

/-- The bit-level classification with the unoptimised test in the place of
`INTRQ & OWBLLNextRead0INTRQFlag`. -/
def classifyUnoptimised (cfg : Config) (r : Run) : Run :=
  if unoptimisedRead0Test cfg r.vars r.INTRQ then
    if cfg.OWB_SKIP_SHORT_PULSES then
      match r.env with
      | [] => r.spin
      | x :: rest => if x.high then { r with env := rest } else read0 cfg { r with env := rest }
    else read0 cfg r
  else if r.INTRQ &&& cfg.OWB_LOW_DETECT_IRQ_FLAG ≠ 0 then
    if r.vars.flag OWB_STATE_FLAG_NEXT_IS_READ then readSlot cfg r else writeSlot cfg r
  else r

/-- A timer that advances while it runs: each later reading of `T16` is larger. -/
def Advancing (env : List Sample) : Prop := env.Pairwise (fun a b => a.tick < b.tick)

instance (env : List Sample) : Decidable (Advancing env) := by
  unfold Advancing; exact inferInstance

/-- A line that stays LOW, read every 8 ticks of a running timer. -/
def lineStuckLow (n : Nat) : List Sample := (List.range n).map (fun i => ⟨8 * i, false⟩)

/-! ## Handler runs and engine calls mixed -/

/-- The states of the globals under any mix of handler runs and engine calls. -/
inductive Operated (cfg : Config) : Vars → Prop where
  | init : Operated cfg Vars.init
  | event (s : Vars) (INTRQ : Nat) (env : List Sample) :
      Operated cfg s → Operated cfg (interrupt cfg s INTRQ env).vars
  | call (s : Vars) (c : EngineCall) : Operated cfg s → Operated cfg (EngineCall.run cfg s c)

/-- What every statement of the handler and of the engine keeps true of the globals, given
that the macros and functions it is made of do. -/
structure Kept (cfg : Config) (P : Vars → Prop) : Prop where
  reset : ∀ s, P s → P (OWBReset s)
  read : ∀ s, P s → P (OWBReadBit cfg s)
  write : ∀ s (b : Bool), P s → P (OWBWriteBit cfg { s with OWBLLCurrentBitValue := b.toNat })
  next : ∀ s, P s → P (OWBLLSetupNextRead cfg s)
  switch : ∀ s, P s → P (OWBLLSwitchToWriteImmediately s)
  set : ∀ s, P s → P (s.setFlag OWB_STATE_FLAG_MIGHT_BE_RST)
  clear : ∀ s, P s → P (s.clearFlag OWB_STATE_FLAG_MIGHT_BE_RST)

/-! ## The engine with its reads of the serial number noted -/

/-- The function `OWBReadBit` together with the indices at which it reads `OWBROMCode`,
in the order of the reads. -/
def OWBReadBitTraced (cfg : Config) (s : Vars) : Vars × List Nat :=
  match s.CurrentState with
  | OWB_STATE_SEARCH_ROM =>
    let s :=
      if s.flag OWB_STATE_FLAG_SEARCH_ROM_INVERT then
        OWBLLSwitchToWrite (OWBLLSetReadValue ((s.CurrentByte ^^^ 0xFF) &&& 0x01) s)
      else
        OWBLLSetReadValue (s.CurrentByte &&& 0x01) s
    ({ s with OWBLLStateFlags := s.OWBLLStateFlags ^^^ OWB_STATE_FLAG_SEARCH_ROM_INVERT }, [])
  | OWB_STATE_READ_ROM =>
    let s := OWBLLSetReadValue (s.CurrentByte &&& 0x01) s
    let s := { s with CurrentBitValue := (s.CurrentBitValue <<< 1) % 256
                      CurrentByte := s.CurrentByte >>> 1 }
    if s.CurrentBitValue = 0 then
      let s := { s with OWBREADROMByteOffset := (s.OWBREADROMByteOffset + 1) % 256 }
      if s.OWBREADROMByteOffset = 8 then
        ({ s with CurrentState := OWB_STATE_IDLE }, [])
      else
        -- CurrentByte = OWBROMCode[OWBREADROMByteOffset];
        ({ s with CurrentByte := cfg.rom s.OWBREADROMByteOffset
                  CurrentBitValue := (s.CurrentBitValue + 1) % 256 },
          [s.OWBREADROMByteOffset])
    else (s, [])
  | _ => (OWBLLSetReadValue 1 s, [])

/-- The macro `OWBLLSetupNextRead()` with the reads of `OWBROMCode`. -/
def OWBLLSetupNextReadTraced (cfg : Config) (s : Vars) : Vars × List Nat :=
  let (s, reads) := OWBReadBitTraced cfg s
  if s.OWBLLCurrentBitValue ≠ 0 then
    ({ s with OWBLLNextRead0INTRQFlag := 0 }, reads)
  else
    ({ s with OWBLLNextRead0INTRQFlag := cfg.OWB_LOW_DETECT_IRQ_FLAG }, reads)

/-- The macro `OWBLLSwitchToRead()` with the reads of `OWBROMCode`. -/
def OWBLLSwitchToReadTraced (cfg : Config) (s : Vars) : Vars × List Nat :=
  if !s.flag OWB_STATE_FLAG_NEXT_IS_READ then
    OWBLLSetupNextReadTraced cfg (s.setFlag OWB_STATE_FLAG_NEXT_IS_READ)
  else (s, [])

/-- The function `OWBWriteBit` with the reads of `OWBROMCode`. -/
def OWBWriteBitTraced (cfg : Config) (s : Vars) : Vars × List Nat :=
  match s.CurrentState with
  | OWB_STATE_SEARCH_ROM =>
    if s.OWBLLCurrentBitValue = s.CurrentByte &&& 0x01 then
      let s := { s with CurrentBitValue := (s.CurrentBitValue <<< 1) % 256
                        CurrentByte := s.CurrentByte >>> 1 }
      let (s, reads) :=
        if s.CurrentBitValue = 0 then
          let s := { s with OWBSEARCHROMCurrentByteIndex :=
                              (s.OWBSEARCHROMCurrentByteIndex + 1) % 256 }
          if s.OWBSEARCHROMCurrentByteIndex = 8 then
            ({ s with CurrentState := OWB_STATE_IDLE }, [])
          else
            -- CurrentByte = OWBROMCode[OWBSEARCHROMCurrentByteIndex];
            ({ s with CurrentBitValue := (s.CurrentBitValue + 1) % 256
                      CurrentByte := cfg.rom s.OWBSEARCHROMCurrentByteIndex },
              [s.OWBSEARCHROMCurrentByteIndex])
        else (s, [])
      let (s, more) := OWBLLSwitchToReadTraced cfg s
      (s, reads ++ more)
    else
      ({ s with CurrentState := OWB_STATE_IDLE }, [])
  | OWB_STATE_RESET =>
    let s := if s.OWBLLCurrentBitValue ≠ 0 then
        { s with CurrentByte := s.CurrentByte ||| s.CurrentBitValue } else s
    let s := { s with CurrentBitValue := (s.CurrentBitValue <<< 1) % 256 }
    if s.CurrentBitValue = 0 then
      if s.CurrentByte = 0x33 then
        -- CurrentByte = OWBROMCode[0];
        let (s, more) := OWBLLSwitchToReadTraced cfg
          { s with CurrentState := OWB_STATE_READ_ROM
                   CurrentByte := cfg.rom 0
                   CurrentBitValue := (s.CurrentBitValue + 1) % 256 }
        (s, 0 :: more)
      else if s.CurrentByte = 0xF0 then
        -- CurrentByte = OWBROMCode[0];
        let (s, more) := OWBLLSwitchToReadTraced cfg
          { s with CurrentState := OWB_STATE_SEARCH_ROM
                   CurrentByte := cfg.rom 0
                   CurrentBitValue := (s.CurrentBitValue + 1) % 256 }
        (s, 0 :: more)
      else
        ({ s with CurrentState := OWB_STATE_IDLE }, [])
    else (s, [])
  | _ => (s, [])

/-- One engine call with the reads of `OWBROMCode`. -/
def EngineCall.runTraced (cfg : Config) (s : Vars) : EngineCall → Vars × List Nat
  | .reset => (OWBReset s, [])
  | .write bit => OWBWriteBitTraced cfg { s with OWBLLCurrentBitValue := bit.toNat }
  | .read => OWBReadBitTraced cfg s

/-- The indices at which a sequence of engine calls reads `OWBROMCode`. -/
def engineReads (cfg : Config) : List EngineCall → Vars → List Nat
  | [], _ => []
  | c :: cs, s =>
    (EngineCall.runTraced cfg s c).2 ++ engineReads cfg cs (EngineCall.runTraced cfg s c).1

/-- The byte indices stay within 0..8, and 8 is held only in IDLE. -/
def IndexInv (s : Vars) : Prop :=
  s.OWBREADROMByteOffset ≤ 8 ∧ s.OWBSEARCHROMCurrentByteIndex ≤ 8 ∧
  (s.CurrentState ≠ OWB_STATE_IDLE →
    s.OWBREADROMByteOffset < 8 ∧ s.OWBSEARCHROMCurrentByteIndex < 8)

/-! ## The flag byte, bit by bit -/

theorem land_two_pow (f i : Nat) : f &&& 2 ^ i = if f.testBit i then 2 ^ i else 0 := by
  apply Nat.eq_of_testBit_eq
  intro j
  rw [Nat.testBit_and, Nat.testBit_two_pow]
  by_cases hij : i = j
  · subst hij
    by_cases hf : f.testBit i <;> simp [hf, Nat.testBit_two_pow_self]
  · by_cases hf : f.testBit i <;> simp [hf, hij, Nat.testBit_two_pow_of_ne hij]

theorem land_two_pow_ne (f i : Nat) : (f &&& 2 ^ i != 0) = f.testBit i := by
  rw [land_two_pow]
  by_cases hf : f.testBit i <;> simp [hf]

@[simp] theorem testBit_2 (j : Nat) : Nat.testBit 2 j = decide (1 = j) :=
  @Nat.testBit_two_pow 1 j
@[simp] theorem testBit_16 (j : Nat) : Nat.testBit 16 j = decide (4 = j) :=
  @Nat.testBit_two_pow 4 j
@[simp] theorem testBit_32 (j : Nat) : Nat.testBit 32 j = decide (5 = j) :=
  @Nat.testBit_two_pow 5 j
@[simp] theorem testBit_64 (j : Nat) : Nat.testBit 64 j = decide (6 = j) :=
  @Nat.testBit_two_pow 6 j
@[simp] theorem testBit_128 (j : Nat) : Nat.testBit 128 j = decide (7 = j) :=
  @Nat.testBit_two_pow 7 j
@[simp] theorem testBit_255 (j : Nat) : Nat.testBit 255 j = decide (j < 8) :=
  Nat.testBit_two_pow_sub_one 8 j
@[simp] theorem testBit_127 (j : Nat) : Nat.testBit 127 j = decide (j < 7) :=
  Nat.testBit_two_pow_sub_one 7 j

@[simp] theorem testBit_239 (j : Nat) :
    Nat.testBit 239 j = (decide (j < 8) && !decide (4 = j)) := by
  rw [show (239 : Nat) = 255 ^^^ 16 from rfl, Nat.testBit_xor, testBit_255, testBit_16]
  by_cases h1 : j < 8 <;> by_cases h2 : 4 = j <;> simp [h1, h2]
  omega

@[simp] theorem testBit_223 (j : Nat) :
    Nat.testBit 223 j = (decide (j < 8) && !decide (5 = j)) := by
  rw [show (223 : Nat) = 255 ^^^ 32 from rfl, Nat.testBit_xor, testBit_255, testBit_32]
  by_cases h1 : j < 8 <;> by_cases h2 : 5 = j <;> simp [h1, h2]
  omega

@[simp] theorem flag_2 (s : Vars) : s.flag 2 = s.OWBLLStateFlags.testBit 1 :=
  land_two_pow_ne _ 1
@[simp] theorem flag_16 (s : Vars) : s.flag 16 = s.OWBLLStateFlags.testBit 4 :=
  land_two_pow_ne _ 4
@[simp] theorem flag_32 (s : Vars) : s.flag 32 = s.OWBLLStateFlags.testBit 5 :=
  land_two_pow_ne _ 5
@[simp] theorem flag_64 (s : Vars) : s.flag 64 = s.OWBLLStateFlags.testBit 6 :=
  land_two_pow_ne _ 6
@[simp] theorem flag_128 (s : Vars) : s.flag 128 = s.OWBLLStateFlags.testBit 7 :=
  land_two_pow_ne _ 7

@[simp] theorem setFlag_flags (s : Vars) (m : Nat) :
    (s.setFlag m).OWBLLStateFlags = s.OWBLLStateFlags ||| m := rfl
@[simp] theorem clearFlag_flags (s : Vars) (m : Nat) :
    (s.clearFlag m).OWBLLStateFlags = s.OWBLLStateFlags &&& (0xFF ^^^ m) := rfl

/-! ## What preparing a read bit leaves alone -/

@[simp] theorem setupNextRead_flags (cfg : Config) (s : Vars) :
    (OWBLLSetupNextRead cfg s).OWBLLStateFlags = (OWBReadBit cfg s).OWBLLStateFlags := by
  by_cases h : (OWBReadBit cfg s).OWBLLCurrentBitValue = 0 <;> simp [OWBLLSetupNextRead, h]
@[simp] theorem setupNextRead_bit (cfg : Config) (s : Vars) :
    (OWBLLSetupNextRead cfg s).OWBLLCurrentBitValue = (OWBReadBit cfg s).OWBLLCurrentBitValue := by
  by_cases h : (OWBReadBit cfg s).OWBLLCurrentBitValue = 0 <;> simp [OWBLLSetupNextRead, h]
@[simp] theorem setupNextRead_offset (cfg : Config) (s : Vars) :
    (OWBLLSetupNextRead cfg s).OWBREADROMByteOffset = (OWBReadBit cfg s).OWBREADROMByteOffset := by
  by_cases h : (OWBReadBit cfg s).OWBLLCurrentBitValue = 0 <;> simp [OWBLLSetupNextRead, h]
@[simp] theorem setupNextRead_index (cfg : Config) (s : Vars) :
    (OWBLLSetupNextRead cfg s).OWBSEARCHROMCurrentByteIndex =
      (OWBReadBit cfg s).OWBSEARCHROMCurrentByteIndex := by
  by_cases h : (OWBReadBit cfg s).OWBLLCurrentBitValue = 0 <;> simp [OWBLLSetupNextRead, h]
@[simp] theorem setupNextRead_state (cfg : Config) (s : Vars) :
    (OWBLLSetupNextRead cfg s).CurrentState = (OWBReadBit cfg s).CurrentState := by
  by_cases h : (OWBReadBit cfg s).OWBLLCurrentBitValue = 0 <;> simp [OWBLLSetupNextRead, h]
@[simp] theorem setupNextRead_byte (cfg : Config) (s : Vars) :
    (OWBLLSetupNextRead cfg s).CurrentByte = (OWBReadBit cfg s).CurrentByte := by
  by_cases h : (OWBReadBit cfg s).OWBLLCurrentBitValue = 0 <;> simp [OWBLLSetupNextRead, h]
@[simp] theorem setupNextRead_mask (cfg : Config) (s : Vars) :
    (OWBLLSetupNextRead cfg s).CurrentBitValue = (OWBReadBit cfg s).CurrentBitValue := by
  by_cases h : (OWBReadBit cfg s).OWBLLCurrentBitValue = 0 <;> simp [OWBLLSetupNextRead, h]
theorem setupNextRead_fast (cfg : Config) (s : Vars) :
    (OWBLLSetupNextRead cfg s).OWBLLNextRead0INTRQFlag =
      if (OWBReadBit cfg s).OWBLLCurrentBitValue = 0 then cfg.OWB_LOW_DETECT_IRQ_FLAG else 0 := by
  by_cases h : (OWBReadBit cfg s).OWBLLCurrentBitValue = 0 <;> simp [OWBLLSetupNextRead, h]


/-- Outside READ ROM, `OWBReadBit` moves neither the state nor the cursor. -/
theorem readBit_frame (cfg : Config) (s : Vars) (h : s.CurrentState ≠ OWB_STATE_READ_ROM) :
    (OWBReadBit cfg s).CurrentState = s.CurrentState ∧
    (OWBReadBit cfg s).CurrentBitValue = s.CurrentBitValue ∧
    (OWBReadBit cfg s).CurrentByte = s.CurrentByte ∧
    (OWBReadBit cfg s).OWBSEARCHROMCurrentByteIndex = s.OWBSEARCHROMCurrentByteIndex ∧
    (OWBReadBit cfg s).OWBREADROMByteOffset = s.OWBREADROMByteOffset := by
  cases hst : s.CurrentState
  · simp [OWBReadBit, hst, OWBLLSetReadValue]
  · simp [OWBReadBit, hst, OWBLLSetReadValue]
  · exact absurd hst h
  · by_cases hinv : s.OWBLLStateFlags.testBit 1 = true <;>
      simp [OWBReadBit, hst, OWBLLSetReadValue, OWBLLSwitchToWrite, Vars.setFlag, hinv]

theorem setupNextRead_frame (cfg : Config) (s : Vars) (h : s.CurrentState ≠ OWB_STATE_READ_ROM) :
    (OWBLLSetupNextRead cfg s).CurrentState = s.CurrentState ∧
    (OWBLLSetupNextRead cfg s).CurrentBitValue = s.CurrentBitValue ∧
    (OWBLLSetupNextRead cfg s).CurrentByte = s.CurrentByte ∧
    (OWBLLSetupNextRead cfg s).OWBSEARCHROMCurrentByteIndex = s.OWBSEARCHROMCurrentByteIndex ∧
    (OWBLLSetupNextRead cfg s).OWBREADROMByteOffset = s.OWBREADROMByteOffset := by
  have := readBit_frame cfg s h
  by_cases hb : (OWBReadBit cfg s).OWBLLCurrentBitValue = 0 <;>
    simpa [OWBLLSetupNextRead, hb] using this

theorem switchToRead_frame (cfg : Config) (s : Vars) (h : s.CurrentState ≠ OWB_STATE_READ_ROM) :
    (OWBLLSwitchToRead cfg s).CurrentState = s.CurrentState ∧
    (OWBLLSwitchToRead cfg s).CurrentBitValue = s.CurrentBitValue ∧
    (OWBLLSwitchToRead cfg s).CurrentByte = s.CurrentByte ∧
    (OWBLLSwitchToRead cfg s).OWBSEARCHROMCurrentByteIndex = s.OWBSEARCHROMCurrentByteIndex ∧
    (OWBLLSwitchToRead cfg s).OWBREADROMByteOffset = s.OWBREADROMByteOffset := by
  by_cases hr : s.OWBLLStateFlags.testBit 4 = true
  · simp [OWBLLSwitchToRead, hr]
  · have := setupNextRead_frame cfg (s.setFlag OWB_STATE_FLAG_NEXT_IS_READ) h
    simpa [OWBLLSwitchToRead, hr, Vars.setFlag] using this

/-! ## SEARCH ROM: preparing a bit and comparing the master's bit -/

/-- C10: in SEARCH ROM, `OWBReadBit` prepares the current identifier bit when
`SEARCH_ROM_INVERT` is clear and its complement when the flag is set, toggles the flag,
requests the deferred switch to write mode exactly when the complement was prepared
(otherwise the request flag keeps its value), and leaves `CurrentState`, the cursor
mask, `CurrentByte` and both byte indices alone; no other flag changes. -/
theorem C10_search_rom_read_bit (cfg : Config) (s : Vars) (i k : Nat)
    (hs : s.CurrentState = OWB_STATE_SEARCH_ROM) (hc : AtSearchCursor cfg s i k) :
    (s.flag OWB_STATE_FLAG_SEARCH_ROM_INVERT = false →
      (OWBReadBit cfg s).OWBLLCurrentBitValue = cfg.bit i k) ∧
    (s.flag OWB_STATE_FLAG_SEARCH_ROM_INVERT = true →
      (OWBReadBit cfg s).OWBLLCurrentBitValue = 1 - cfg.bit i k) ∧
    (OWBReadBit cfg s).flag OWB_STATE_FLAG_SEARCH_ROM_INVERT =
      !s.flag OWB_STATE_FLAG_SEARCH_ROM_INVERT ∧
    (OWBReadBit cfg s).flag OWB_STATE_FLAG_DELAYED_SWITCH_TO_WRITE =
      (s.flag OWB_STATE_FLAG_DELAYED_SWITCH_TO_WRITE ||
        s.flag OWB_STATE_FLAG_SEARCH_ROM_INVERT) ∧
    (OWBReadBit cfg s).flag OWB_STATE_FLAG_NEXT_IS_READ = s.flag OWB_STATE_FLAG_NEXT_IS_READ ∧
    (OWBReadBit cfg s).flag OWB_STATE_FLAG_MIGHT_BE_RST = s.flag OWB_STATE_FLAG_MIGHT_BE_RST ∧
    (OWBReadBit cfg s).flag OWB_STATE_FLAG_TIMER_OVERFLOW =
      s.flag OWB_STATE_FLAG_TIMER_OVERFLOW ∧
    (OWBReadBit cfg s).CurrentState = OWB_STATE_SEARCH_ROM ∧
    AtSearchCursor cfg (OWBReadBit cfg s) i k ∧
    (OWBReadBit cfg s).OWBREADROMByteOffset = s.OWBREADROMByteOffset ∧
    (OWBReadBit cfg s).OWBLLNextRead0INTRQFlag = s.OWBLLNextRead0INTRQFlag := by
  obtain ⟨hi, hm, hb⟩ := hc
  by_cases hinv : s.OWBLLStateFlags.testBit 1 = true <;>
    simp [OWBReadBit, hs, hinv, OWBLLSwitchToWrite, OWBLLSetReadValue, AtSearchCursor,
      Config.bit, hi, hm, hb, Vars.setFlag]
  omega

/-- C9: in SEARCH ROM with the cursor at bit `k` of byte `i`, a written bit that differs
from that identifier bit sets `CurrentState` to IDLE and changes nothing else (mask,
`CurrentByte`, byte indices, flags and the READ0 flag keep their values); a written bit
that equals it moves the cursor on by one bit and keeps SEARCH ROM, except after bit 7
of byte 7, where the state becomes IDLE. -/
theorem C9_search_rom_write_bit (cfg : Config) (s : Vars) (b i k : Nat)
    (hs : s.CurrentState = OWB_STATE_SEARCH_ROM) (hc : AtSearchCursor cfg s i k)
    (hi : i < 8) (hk : k < 8) :
    (b ≠ cfg.bit i k →
      OWBWriteBit cfg { s with OWBLLCurrentBitValue := b } =
        { s with OWBLLCurrentBitValue := b, CurrentState := OWB_STATE_IDLE }) ∧
    (b = cfg.bit i k →
      (k < 7 →
        (OWBWriteBit cfg { s with OWBLLCurrentBitValue := b }).CurrentState =
          OWB_STATE_SEARCH_ROM ∧
        AtSearchCursor cfg (OWBWriteBit cfg { s with OWBLLCurrentBitValue := b }) i (k + 1)) ∧
      (k = 7 → i < 7 →
        (OWBWriteBit cfg { s with OWBLLCurrentBitValue := b }).CurrentState =
          OWB_STATE_SEARCH_ROM ∧
        AtSearchCursor cfg (OWBWriteBit cfg { s with OWBLLCurrentBitValue := b }) (i + 1) 0) ∧
      (k = 7 → i = 7 →
        (OWBWriteBit cfg { s with OWBLLCurrentBitValue := b }).CurrentState =
          OWB_STATE_IDLE)) := by
  obtain ⟨hidx, hm, hby⟩ := hc
  refine ⟨fun hne => ?_, fun heq => ⟨fun hk7 => ?_, fun hk7 hi7 => ?_, fun hk7 hi7 => ?_⟩⟩
  · simp [OWBWriteBit, hs, hby, Config.bit] at hne ⊢
    intro h; exact absurd h hne
  · subst heq
    interval_cases k <;>
      simp [OWBWriteBit, hs, hby, hm, hidx, Config.bit, AtSearchCursor, switchToRead_frame,
        Nat.shiftRight_eq_div_pow] <;>
      omega
  · subst heq; subst hk7
    have h1 : (i + 1) % 256 = i + 1 := by omega
    have h8 : ¬ (i + 1 = 8) := by omega
    simp [OWBWriteBit, hs, hby, hm, hidx, Config.bit, AtSearchCursor, switchToRead_frame,
        Nat.shiftRight_eq_div_pow, h1, h8]
  · subst heq; subst hk7; subst hi7
    simp [OWBWriteBit, hs, hby, hm, hidx, Config.bit, switchToRead_frame]

/-! ## The command byte and READ ROM -/

/-- One `OWBReadBit` in READ ROM with the cursor at bit `k` of byte `i`. -/
theorem readBit_read_rom (cfg : Config) (s : Vars) (i k : Nat)
    (hs : s.CurrentState = OWB_STATE_READ_ROM) (hc : AtReadCursor cfg s i k)
    (hi : i < 8) (hk : k < 8) :
    (OWBReadBit cfg s).OWBLLCurrentBitValue = cfg.bit i k ∧
    (OWBReadBit cfg s).OWBLLStateFlags = s.OWBLLStateFlags ∧
    (k < 7 → (OWBReadBit cfg s).CurrentState = OWB_STATE_READ_ROM ∧
      AtReadCursor cfg (OWBReadBit cfg s) i (k + 1)) ∧
    (k = 7 → i < 7 → (OWBReadBit cfg s).CurrentState = OWB_STATE_READ_ROM ∧
      AtReadCursor cfg (OWBReadBit cfg s) (i + 1) 0) ∧
    (k = 7 → i = 7 → (OWBReadBit cfg s).CurrentState = OWB_STATE_IDLE) := by
  obtain ⟨hidx, hm, hby⟩ := hc
  refine ⟨?_, ?_, fun hk7 => ?_, fun hk7 hi7 => ?_, fun hk7 hi7 => ?_⟩
  · simp [OWBReadBit, hs, hby, Config.bit, OWBLLSetReadValue]
    split <;> (try split) <;> rfl
  · simp [OWBReadBit, hs, OWBLLSetReadValue]
    split <;> (try split) <;> rfl
  · interval_cases k <;>
      simp [OWBReadBit, hs, hby, hm, hidx, AtReadCursor, OWBLLSetReadValue,
        Nat.shiftRight_eq_div_pow] <;>
      omega
  · subst hk7
    have h1 : (i + 1) % 256 = i + 1 := by omega
    have h8 : ¬ (i + 1 = 8) := by omega
    simp [OWBReadBit, hs, hby, hm, hidx, AtReadCursor, OWBLLSetReadValue,
      Nat.shiftRight_eq_div_pow, h1, h8]
  · subst hk7; subst hi7
    simp [OWBReadBit, hs, hby, hm, hidx, OWBLLSetReadValue]


theorem lor_two_pow_of_lt (B k : Nat) (h : B < 2 ^ k) : B ||| 2 ^ k = B + 2 ^ k := by
  have := Nat.mul_add_lt_is_or h 1
  rw [Nat.mul_one] at this
  rw [Nat.or_comm, ← this, Nat.add_comm]

/-- One `OWBWriteBit` in the RESET state below the eighth command bit. -/
theorem writeBit_reset_step (cfg : Config) (s : Vars) (b : Bool) (k : Nat)
    (hs : s.CurrentState = OWB_STATE_RESET) (hm : s.CurrentBitValue = 2 ^ k)
    (hB : s.CurrentByte < 2 ^ k) (hk : k < 7) :
    OWBWriteBit cfg { s with OWBLLCurrentBitValue := b.toNat } =
      { s with OWBLLCurrentBitValue := b.toNat
               CurrentByte := s.CurrentByte + 2 ^ k * b.toNat
               CurrentBitValue := 2 ^ (k + 1) } := by
  have hor := lor_two_pow_of_lt _ _ hB
  have hpow : (2 ^ k <<< 1) % 256 = 2 ^ (k + 1) := by
    interval_cases k <;> rfl
  have hne : (2 : Nat) ^ (k + 1) ≠ 0 := by positivity
  cases b <;> simp [OWBWriteBit, hs, hm, hor, hpow, hne]

theorem byteOfBits_lt (bits : List Bool) : byteOfBits bits < 2 ^ bits.length := by
  induction bits with
  | nil => simp [byteOfBits]
  | cons b bs ih =>
    have : b.toNat ≤ 1 := by cases b <;> simp
    simp only [byteOfBits, List.length_cons, pow_succ]
    omega

theorem byteOfBits_append (pre : List Bool) (b : Bool) :
    byteOfBits (pre ++ [b]) = byteOfBits pre + 2 ^ pre.length * b.toNat := by
  induction pre with
  | nil => simp [byteOfBits]
  | cons a as ih =>
    have : byteOfBits (a :: as ++ [b]) = a.toNat + 2 * byteOfBits (as ++ [b]) := rfl
    rw [this, ih]
    simp only [byteOfBits, List.length_cons, pow_succ]
    ring

/-- Bit `i` of `byteOfBits bits` is the `i`-th entry of `bits`. -/
theorem byteOfBits_bit (bits : List Bool) (i : Nat) :
    byteOfBits bits / 2 ^ i % 2 = (bits.getD i false).toNat := by
  induction bits generalizing i with
  | nil => simp [byteOfBits]
  | cons b bs ih =>
    cases i with
    | zero => cases b <;> simp [byteOfBits]
    | succ j =>
      have hb : b.toNat ≤ 1 := by cases b <;> simp
      have : (b.toNat + 2 * byteOfBits bs) / 2 ^ (j + 1) = byteOfBits bs / 2 ^ j := by
        rw [pow_succ', ← Nat.div_div_eq_div_mul]
        congr 1; omega
      rw [show byteOfBits (b :: bs) = b.toNat + 2 * byteOfBits bs from rfl, this, ih]
      simp

/-- Up to seven command bits after a reset: the bits are collected in `CurrentByte`,
the mask moves up, nothing else changes. -/
theorem writeBits_below_eight (cfg : Config) (bits : List Bool) (s : Vars) (k : Nat)
    (hs : s.CurrentState = OWB_STATE_RESET) (hm : s.CurrentBitValue = 2 ^ k)
    (hB : s.CurrentByte < 2 ^ k) (hk : k + bits.length ≤ 7) :
    (writeBits cfg bits s).CurrentState = OWB_STATE_RESET ∧
    (writeBits cfg bits s).CurrentBitValue = 2 ^ (k + bits.length) ∧
    (writeBits cfg bits s).CurrentByte = s.CurrentByte + 2 ^ k * byteOfBits bits ∧
    (writeBits cfg bits s).OWBLLStateFlags = s.OWBLLStateFlags ∧
    (writeBits cfg bits s).OWBLLNextRead0INTRQFlag = s.OWBLLNextRead0INTRQFlag ∧
    (writeBits cfg bits s).OWBREADROMByteOffset = s.OWBREADROMByteOffset ∧
    (writeBits cfg bits s).OWBSEARCHROMCurrentByteIndex = s.OWBSEARCHROMCurrentByteIndex := by
  induction bits generalizing s k with
  | nil => simp [writeBits, byteOfBits, hs, hm]
  | cons b bs ih =>
    simp only [List.length_cons] at hk
    have hstep := writeBit_reset_step cfg s b k hs hm hB (by omega)
    have hb : b.toNat ≤ 1 := by cases b <;> simp
    have hlt : s.CurrentByte + 2 ^ k * b.toNat < 2 ^ (k + 1) := by
      rw [pow_succ]
      rcases Nat.le_one_iff_eq_zero_or_eq_one.mp hb with h | h <;> rw [h] <;> omega
    have := ih (OWBWriteBit cfg { s with OWBLLCurrentBitValue := b.toNat }) (k + 1)
      (by rw [hstep]; exact hs) (by rw [hstep]) (by rw [hstep]; exact hlt) (by omega)
    simp only [writeBits, List.foldl_cons] at this ⊢
    rw [hstep] at this ⊢
    simp only [byteOfBits, List.length_cons]
    obtain ⟨h1, h2, h3, h4, h5, h6, h7⟩ := this
    refine ⟨h1, ?_, ?_, h4, h5, h6, h7⟩
    · rw [h2]; congr 1; omega
    · rw [h3, pow_succ]; ring

theorem exists_snoc_of_length_eight (bits : List Bool) (hlen : bits.length = 8) :
    ∃ pre b, bits = pre ++ [b] ∧ pre.length = 7 ∧ pre = bits.take 7 := by
  have hne : bits ≠ [] := by intro h; simp [h] at hlen
  refine ⟨bits.dropLast, bits.getLast hne, (List.dropLast_append_getLast hne).symm, ?_, ?_⟩
  · simp [hlen]
  · rw [List.dropLast_eq_take, hlen]

/-- The eighth command bit is written to the state the first seven leave. -/
theorem writeBits_snoc (cfg : Config) (pre : List Bool) (b : Bool) (s : Vars) :
    writeBits cfg (pre ++ [b]) s =
      OWBWriteBit cfg { writeBits cfg pre s with OWBLLCurrentBitValue := b.toNat } := by
  simp [writeBits, List.foldl_append]

theorem command_dispatch (cfg : Config) (s : Vars) (bits : List Bool)
    (hlen : bits.length = 8) (hs : s.CurrentState = OWB_STATE_RESET)
    (hB : s.CurrentByte = 0) (hm : s.CurrentBitValue = 1)
    (ho : s.OWBREADROMByteOffset = 0)
    (hw : s.flag OWB_STATE_FLAG_NEXT_IS_READ = false) :
    (∀ k ≤ 7, (writeBits cfg (bits.take k) s).CurrentState = OWB_STATE_RESET ∧
      (writeBits cfg (bits.take k) s).CurrentByte = byteOfBits (bits.take k) ∧
      (writeBits cfg (bits.take k) s).CurrentBitValue = 2 ^ k) ∧
    (∀ i < 8, byteOfBits bits / 2 ^ i % 2 = (bits.getD i false).toNat) ∧
    (byteOfBits bits ≠ 0x33 → byteOfBits bits ≠ 0xF0 →
      (writeBits cfg bits s).CurrentByte = byteOfBits bits ∧
      (writeBits cfg bits s).CurrentState = OWB_STATE_IDLE) ∧
    (byteOfBits bits = 0x33 →
      (writeBits cfg bits s).CurrentState = OWB_STATE_READ_ROM ∧
      (writeBits cfg bits s).OWBREADROMByteOffset = 0 ∧
      (writeBits cfg bits s).OWBLLCurrentBitValue = cfg.bit 0 0 ∧
      (writeBits cfg bits s).flag OWB_STATE_FLAG_NEXT_IS_READ = true ∧
      (writeBits cfg bits s).OWBLLNextRead0INTRQFlag =
        (if cfg.bit 0 0 = 0 then cfg.OWB_LOW_DETECT_IRQ_FLAG else 0) ∧
      AtReadCursor cfg (writeBits cfg bits s) 0 1) := by
  have hm0 : s.CurrentBitValue = 2 ^ 0 := by simpa using hm
  have hB0 : s.CurrentByte < 2 ^ 0 := by simp [hB]
  refine ⟨fun k hk => ?_, fun i _ => byteOfBits_bit bits i, ?_⟩
  · have hl : (bits.take k).length = k := by simp [hlen]; omega
    have := writeBits_below_eight cfg (bits.take k) s 0 hs hm0 hB0 (by omega)
    simp only [hl, hB, Nat.zero_add, pow_zero, Nat.one_mul] at this
    exact ⟨this.1, this.2.2.1, this.2.1⟩
  · obtain ⟨pre, b, rfl, hpl, -⟩ := exists_snoc_of_length_eight bits hlen
    obtain ⟨h1, h2, h3, h4, h5, h6, h7⟩ :=
      writeBits_below_eight cfg pre s 0 hs hm0 hB0 (by omega)
    simp only [hpl, hB, Nat.zero_add, pow_zero, Nat.one_mul] at h2 h3
    have hlt := byteOfBits_lt pre
    rw [hpl] at hlt
    have hor : byteOfBits pre ||| 128 = byteOfBits pre + 128 := lor_two_pow_of_lt _ 7 hlt
    have hbyte : byteOfBits (pre ++ [b]) = byteOfBits pre + 128 * b.toNat := by
      rw [byteOfBits_append, hpl]; rfl
    simp only [flag_16, OWB_STATE_FLAG_NEXT_IS_READ] at hw
    rw [writeBits_snoc, hbyte]
    cases b
    · simp only [Bool.toNat_false, Nat.mul_zero, Nat.add_zero]
      refine ⟨fun h33 hF0 => ?_, fun h33 => ?_⟩
      · simp [OWBWriteBit, h1, h2, h3, h33, hF0]
      · simp [OWBWriteBit, h1, h2, h3, h33, OWBLLSwitchToRead, h4, hw, Vars.setFlag,
          setupNextRead_fast, OWBReadBit, OWBLLSetReadValue, AtReadCursor, h6, ho, Config.bit,
          Nat.shiftRight_eq_div_pow]
    · simp only [Bool.toNat_true, Nat.mul_one]
      refine ⟨fun h33 hF0 => ?_, fun h33 => ?_⟩
      · simp [OWBWriteBit, h1, h2, h3, h33, hF0, hor]
      · omega

/-- C3: from the state a finalized reset leaves (RESET, empty command byte, mask 1,
write mode), after `k ≤ 7` written bits `CurrentByte` holds exactly these bits, least
significant first, under the mask `2 ^ k`; the eighth bit completes the command byte
`byteOfBits bits`, whose bit `i` is the `i`-th written bit: a byte that is no command
stays in `CurrentByte` with the state IDLE, and the byte 0x33 gives READ ROM at byte
offset 0 with bit 0 of `OWBROMCode[0]` prepared in `OWBLLCurrentBitValue`,
`NEXT_IS_READ` set, the READ0 flag set to match the prepared bit and the cursor on
bit 1 of byte 0. -/
theorem C3_command_read_rom (cfg : Config) (s : Vars) (bits : List Bool)
    (hlen : bits.length = 8) (hs : s.CurrentState = OWB_STATE_RESET)
    (hB : s.CurrentByte = 0) (hm : s.CurrentBitValue = 1)
    (ho : s.OWBREADROMByteOffset = 0)
    (hw : s.flag OWB_STATE_FLAG_NEXT_IS_READ = false) :
    (∀ k ≤ 7, (writeBits cfg (bits.take k) s).CurrentState = OWB_STATE_RESET ∧
      (writeBits cfg (bits.take k) s).CurrentByte = byteOfBits (bits.take k) ∧
      (writeBits cfg (bits.take k) s).CurrentBitValue = 2 ^ k) ∧
    (∀ i < 8, byteOfBits bits / 2 ^ i % 2 = (bits.getD i false).toNat) ∧
    (byteOfBits bits ≠ 0x33 → byteOfBits bits ≠ 0xF0 →
      (writeBits cfg bits s).CurrentByte = byteOfBits bits ∧
      (writeBits cfg bits s).CurrentState = OWB_STATE_IDLE) ∧
    (byteOfBits bits = 0x33 →
      (writeBits cfg bits s).CurrentState = OWB_STATE_READ_ROM ∧
      (writeBits cfg bits s).OWBREADROMByteOffset = 0 ∧
      (writeBits cfg bits s).OWBLLCurrentBitValue = cfg.bit 0 0 ∧
      (writeBits cfg bits s).flag OWB_STATE_FLAG_NEXT_IS_READ = true ∧
      (writeBits cfg bits s).OWBLLNextRead0INTRQFlag =
        (if cfg.bit 0 0 = 0 then cfg.OWB_LOW_DETECT_IRQ_FLAG else 0) ∧
      AtReadCursor cfg (writeBits cfg bits s) 0 1) :=
  command_dispatch cfg s bits hlen hs hB hm ho hw

/-- The READ ROM command after a finalized reset leaves the engine in READ ROM with
bit 0 of byte 0 prepared and the cursor on bit 1. -/
theorem read_rom_dispatch (cfg : Config) (s : Vars) :
    (writeBits cfg [true, true, false, false, true, true, false, false]
      (OWBLLSwitchToWriteImmediately (OWBReset s))).CurrentState = OWB_STATE_READ_ROM ∧
    (writeBits cfg [true, true, false, false, true, true, false, false]
      (OWBLLSwitchToWriteImmediately (OWBReset s))).OWBLLCurrentBitValue = cfg.bit 0 0 ∧
    AtReadCursor cfg (writeBits cfg [true, true, false, false, true, true, false, false]
      (OWBLLSwitchToWriteImmediately (OWBReset s))) 0 1 := by
  have h := (command_dispatch cfg (OWBLLSwitchToWriteImmediately (OWBReset s))
    [true, true, false, false, true, true, false, false] rfl rfl rfl rfl rfl
    (by simp [OWBLLSwitchToWriteImmediately, OWBReset, Vars.clearFlag])).2.2.2 (by decide)
  exact ⟨h.1, h.2.2.1, h.2.2.2.2.2⟩

/-- The state after `n` further `OWBReadBit` calls in READ ROM, for `n < 63`. -/
theorem read_rom_iterate (cfg : Config) (d : Vars)
    (hs : d.CurrentState = OWB_STATE_READ_ROM) (hb : d.OWBLLCurrentBitValue = cfg.bit 0 0)
    (hc : AtReadCursor cfg d 0 1) (n : Nat) (hn : n < 63) :
    ((OWBReadBit cfg)^[n] d).CurrentState = OWB_STATE_READ_ROM ∧
    ((OWBReadBit cfg)^[n] d).OWBLLCurrentBitValue = cfg.bit (n / 8) (n % 8) ∧
    AtReadCursor cfg ((OWBReadBit cfg)^[n] d) ((n + 1) / 8) ((n + 1) % 8) := by
  induction n with
  | zero => exact ⟨hs, hb, hc⟩
  | succ m ih =>
    obtain ⟨h1, -, h3⟩ := ih (by omega)
    rw [Function.iterate_succ_apply']
    obtain ⟨r1, -, r3, r4, -⟩ := readBit_read_rom cfg _ _ _ h1 h3 (by omega) (by omega)
    refine ⟨?_, r1, ?_⟩
    · by_cases hk : (m + 1) % 8 < 7
      · exact (r3 hk).1
      · exact (r4 (by omega) (by omega)).1
    · by_cases hk : (m + 1) % 8 < 7
      · have e1 : (m + 1 + 1) / 8 = (m + 1) / 8 := by omega
        have e2 : (m + 1 + 1) % 8 = (m + 1) % 8 + 1 := by omega
        rw [e1, e2]; exact (r3 hk).2
      · have e1 : (m + 1 + 1) / 8 = (m + 1) / 8 + 1 := by omega
        have e2 : (m + 1 + 1) % 8 = 0 := by omega
        rw [e1, e2]; exact (r4 (by omega) (by omega)).2

/-- C1: after a finalized reset and the command 0x33, the `n`-th further `OWBReadBit`
call (`n = 0` being the bit prepared at dispatch) leaves bit `n % 8` of
`OWBROMCode[n / 8]` in `OWBLLCurrentBitValue`, for every `n < 64`; the state is READ ROM
as long as fewer than 64 bits have been prepared and IDLE once the 64th has been. -/
theorem C1_read_rom_stream (cfg : Config) (s : Vars) (n : Nat) (hn : n < 64) :
    ((OWBReadBit cfg)^[n] (writeBits cfg [true, true, false, false, true, true, false, false]
      (OWBLLSwitchToWriteImmediately (OWBReset s)))).OWBLLCurrentBitValue =
        cfg.bit (n / 8) (n % 8) ∧
    ((OWBReadBit cfg)^[n] (writeBits cfg [true, true, false, false, true, true, false, false]
      (OWBLLSwitchToWriteImmediately (OWBReset s)))).CurrentState =
        (if n < 63 then OWB_STATE_READ_ROM else OWB_STATE_IDLE) := by
  obtain ⟨hs, hb, hc⟩ := read_rom_dispatch cfg s
  by_cases h63 : n < 63
  · obtain ⟨h1, h2, -⟩ := read_rom_iterate cfg _ hs hb hc n h63
    simp [h63, h1, h2]
  · have hn63 : n = 63 := by omega
    subst hn63
    obtain ⟨h1, -, h3⟩ := read_rom_iterate cfg _ hs hb hc 62 (by omega)
    have h7 : (62 + 1) / 8 = 7 := rfl
    have h7' : (62 + 1) % 8 = 7 := rfl
    rw [h7, h7'] at h3
    rw [show (63 : Nat) = 62 + 1 from rfl, Function.iterate_succ_apply']
    generalize (OWBReadBit cfg)^[62] _ = t at h1 h3 ⊢
    obtain ⟨r1, -, -, -, r5⟩ := readBit_read_rom cfg t 7 7 h1 h3 (by omega) (by omega)
    exact ⟨r1, r5 rfl rfl⟩

/-! ## The interrupt handler -/

theorem readBit_testBit_4 (cfg : Config) (s : Vars) :
    (OWBReadBit cfg s).OWBLLStateFlags.testBit 4 = s.OWBLLStateFlags.testBit 4 ∧
    (OWBReadBit cfg s).OWBLLStateFlags.testBit 5 = s.OWBLLStateFlags.testBit 5 ∧
    (OWBReadBit cfg s).OWBLLStateFlags.testBit 6 = s.OWBLLStateFlags.testBit 6 := by
  cases hst : s.CurrentState
  · simp [OWBReadBit, hst, OWBLLSetReadValue]
  · simp [OWBReadBit, hst, OWBLLSetReadValue]
  · simp only [OWBReadBit, hst, OWBLLSetReadValue]
    split <;> (try split) <;> simp
  · by_cases hinv : s.OWBLLStateFlags.testBit 1 = true <;>
      simp [OWBReadBit, hst, OWBLLSetReadValue, OWBLLSwitchToWrite, Vars.setFlag, hinv]

theorem fastOK_switchToWriteImmediately (cfg : Config) (s : Vars) :
    FastOK cfg (OWBLLSwitchToWriteImmediately s) := by
  simp [FastOK, OWBLLSwitchToWriteImmediately, Vars.clearFlag]

theorem fastOK_setupNextRead (cfg : Config) (s : Vars)
    (h : s.OWBLLStateFlags.testBit 4 = true) : FastOK cfg (OWBLLSetupNextRead cfg s) := by
  simp [FastOK, setupNextRead_fast, (readBit_testBit_4 cfg s).1, h]

theorem fastOK_switchToRead (cfg : Config) (s : Vars) (hs : FastOK cfg s) :
    FastOK cfg (OWBLLSwitchToRead cfg s) := by
  by_cases hr : s.OWBLLStateFlags.testBit 4 = true
  · simpa [OWBLLSwitchToRead, hr] using hs
  · simp only [OWBLLSwitchToRead, flag_16, OWB_STATE_FLAG_NEXT_IS_READ, hr]
    exact fastOK_setupNextRead cfg _ (by simp [Vars.setFlag])

theorem fastOK_writeBit (cfg : Config) (s : Vars) (b : Nat) (hs : FastOK cfg s)
    (hw : s.OWBLLStateFlags.testBit 4 = false) :
    FastOK cfg (OWBWriteBit cfg { s with OWBLLCurrentBitValue := b }) := by
  have h0 : s.OWBLLNextRead0INTRQFlag = 0 := by simpa [FastOK, hw] using hs
  have base : ∀ t : Vars, t.OWBLLStateFlags = s.OWBLLStateFlags →
      t.OWBLLNextRead0INTRQFlag = s.OWBLLNextRead0INTRQFlag → FastOK cfg t := by
    intro t h1 h2; simp [FastOK, h1, h2, hw, h0]
  cases hst : s.CurrentState
  · simp only [OWBWriteBit, hst]; exact base _ rfl rfl
  · simp only [OWBWriteBit, hst]
    split <;> split <;> (try split) <;> (try split) <;>
      first
        | exact base _ rfl rfl
        | exact fastOK_switchToRead cfg _ (base _ rfl rfl)
  · simp only [OWBWriteBit, hst]; exact base _ rfl rfl
  · simp only [OWBWriteBit, hst]
    split
    · apply fastOK_switchToRead
      split <;> (try split) <;> exact base _ rfl rfl
    · exact base _ rfl rfl

/-! ### The flags stay a byte -/

theorem flagsLt_readBit (cfg : Config) (s : Vars) (h : s.OWBLLStateFlags < 256) :
    (OWBReadBit cfg s).OWBLLStateFlags < 256 := by
  have h2 : (2 : Nat) < 2 ^ 8 := by decide
  have h128 : (128 : Nat) < 2 ^ 8 := by decide
  have h' : s.OWBLLStateFlags < 2 ^ 8 := h
  cases hst : s.CurrentState
  · simpa [OWBReadBit, hst, OWBLLSetReadValue] using h
  · simpa [OWBReadBit, hst, OWBLLSetReadValue] using h
  · simp only [OWBReadBit, hst, OWBLLSetReadValue]
    split <;> (try split) <;> exact h
  · simp only [OWBReadBit, hst, OWBLLSetReadValue, OWBLLSwitchToWrite, Vars.setFlag,
      OWB_STATE_FLAG_SEARCH_ROM_INVERT, OWB_STATE_FLAG_DELAYED_SWITCH_TO_WRITE]
    split
    · exact Nat.xor_lt_two_pow (Nat.or_lt_two_pow h' h128) h2
    · exact Nat.xor_lt_two_pow h' h2

theorem flagsLt_switchToRead (cfg : Config) (s : Vars) (h : s.OWBLLStateFlags < 256) :
    (OWBLLSwitchToRead cfg s).OWBLLStateFlags < 256 := by
  simp only [OWBLLSwitchToRead]
  split
  · rw [setupNextRead_flags]
    apply flagsLt_readBit
    exact Nat.or_lt_two_pow (n := 8) h (by decide)
  · exact h

theorem flagsLt_writeBit (cfg : Config) (s : Vars) (h : s.OWBLLStateFlags < 256) :
    (OWBWriteBit cfg s).OWBLLStateFlags < 256 := by
  cases hst : s.CurrentState
  · simpa only [OWBWriteBit, hst] using h
  · simp only [OWBWriteBit, hst]
    split <;> split <;> (try split) <;> (try split) <;>
      first
        | exact h
        | exact flagsLt_switchToRead cfg _ h
  · simpa only [OWBWriteBit, hst] using h
  · simp only [OWBWriteBit, hst]
    split
    · apply flagsLt_switchToRead
      split <;> (try split) <;> exact h
    · exact h

theorem clearFlag_32_of_clear (s : Vars) (h : s.OWBLLStateFlags < 256)
    (hm : s.OWBLLStateFlags.testBit 5 = false) :
    s.clearFlag OWB_STATE_FLAG_MIGHT_BE_RST = s := by
  have : s.OWBLLStateFlags &&& (0xFF ^^^ 32) = s.OWBLLStateFlags := by
    apply Nat.eq_of_testBit_eq
    intro j
    rw [Nat.testBit_and]
    by_cases hj : j < 8
    · by_cases h5 : 5 = j
      · subst h5; simp [hm]
      · simp [hj, h5]
    · have : s.OWBLLStateFlags.testBit j = false :=
        Nat.testBit_lt_two_pow (Nat.lt_of_lt_of_le (show s.OWBLLStateFlags < 2 ^ 8 from h)
          (Nat.pow_le_pow_right (show 0 < 2 by decide) (Nat.le_of_not_lt hj)))
      simp [this]
  cases s
  simp only [Vars.clearFlag, OWB_STATE_FLAG_MIGHT_BE_RST] at this ⊢
  simp only [this]

theorem writeBit_testBit_5 (cfg : Config) (s : Vars) :
    (OWBWriteBit cfg s).OWBLLStateFlags.testBit 5 = s.OWBLLStateFlags.testBit 5 := by
  have sw : ∀ t : Vars, (OWBLLSwitchToRead cfg t).OWBLLStateFlags.testBit 5 =
      t.OWBLLStateFlags.testBit 5 := by
    intro t
    simp only [OWBLLSwitchToRead]
    split
    · rw [setupNextRead_flags, (readBit_testBit_4 cfg _).2.1]; simp [Vars.setFlag]
    · rfl
  cases hst : s.CurrentState
  · simp only [OWBWriteBit, hst]
  · simp only [OWBWriteBit, hst]
    split <;> split <;> (try split) <;> (try split) <;>
      first
        | rfl
        | exact sw _
  · simp only [OWBWriteBit, hst]
  · simp only [OWBWriteBit, hst]
    split
    · rw [sw]
      split <;> (try split) <;> rfl
    · rfl

theorem fastOK_setFlag_32 (cfg : Config) (s : Vars) (h : FastOK cfg s) :
    FastOK cfg (s.setFlag OWB_STATE_FLAG_MIGHT_BE_RST) := by
  simpa [FastOK, Vars.setFlag] using h

theorem fastOK_clearFlag_32 (cfg : Config) (s : Vars) (h : FastOK cfg s) :
    FastOK cfg (s.clearFlag OWB_STATE_FLAG_MIGHT_BE_RST) := by
  by_cases h4 : s.OWBLLStateFlags.testBit 4 = true <;>
    simpa [FastOK, Vars.clearFlag, h4] using h

theorem flagsLt_setFlag_32 (s : Vars) (h : s.OWBLLStateFlags < 256) :
    (s.setFlag OWB_STATE_FLAG_MIGHT_BE_RST).OWBLLStateFlags < 256 :=
  Nat.or_lt_two_pow (n := 8) h (by decide)

theorem flagsLt_clearFlag (s : Vars) (m : Nat) (h : s.OWBLLStateFlags < 256) :
    (s.clearFlag m).OWBLLStateFlags < 256 :=
  Nat.lt_of_le_of_lt Nat.and_le_left h

theorem flagsLt_switchToWriteImmediately (s : Vars) (h : s.OWBLLStateFlags < 256) :
    (OWBLLSwitchToWriteImmediately s).OWBLLStateFlags < 256 := by
  simp only [OWBLLSwitchToWriteImmediately]
  exact flagsLt_clearFlag _ _ (flagsLt_clearFlag _ _ h)

theorem readSlot_good (cfg : Config) (r : Run) (hlt : r.vars.OWBLLStateFlags < 256)
    (h4 : r.vars.OWBLLStateFlags.testBit 4 = true)
    (hq : r.INTRQ &&& cfg.OWB_LOW_DETECT_IRQ_FLAG ≠ 0) : GoodRun cfg (readSlot cfg r) := by
  simp only [readSlot, flag_128, OWB_STATE_FLAG_DELAYED_SWITCH_TO_WRITE]
  split
  · exact ⟨flagsLt_setFlag_32 _ (flagsLt_switchToWriteImmediately _ hlt),
      fastOK_setFlag_32 _ _ (fastOK_switchToWriteImmediately cfg _), fun _ => hq⟩
  · refine ⟨flagsLt_setFlag_32 _ ?_, fastOK_setFlag_32 _ _ (fastOK_setupNextRead cfg _ h4),
      fun _ => hq⟩
    rw [setupNextRead_flags]; exact flagsLt_readBit cfg _ hlt

theorem read0_good (cfg : Config) (r : Run) (hlt : r.vars.OWBLLStateFlags < 256)
    (h4 : r.vars.OWBLLStateFlags.testBit 4 = true)
    (hq : r.INTRQ &&& cfg.OWB_LOW_DETECT_IRQ_FLAG ≠ 0)
    (hex : (read0 cfg r).exited = true) : GoodRun cfg (read0 cfg r) := by
  cases h : OWBLLWaitForT16 (OWB_TIMING_R0_0 cfg) r.env with
  | none => simp [read0, h, Run.spin] at hex
  | some rest =>
    simp only [read0, h]
    exact readSlot_good cfg _ hlt h4 hq

theorem writeSlot_good (cfg : Config) (r : Run) (hlt : r.vars.OWBLLStateFlags < 256)
    (hf : FastOK cfg r.vars)
    (h4 : r.vars.OWBLLStateFlags.testBit 4 = false)
    (hq : r.INTRQ &&& cfg.OWB_LOW_DETECT_IRQ_FLAG ≠ 0)
    (hex : (writeSlot cfg r).exited = true) : GoodRun cfg (writeSlot cfg r) := by
  cases h : pollLine (OWB_TIMING_W0_0_MIN cfg) r.env with
  | none => simp [writeSlot, h, Run.spin] at hex
  | some p =>
    obtain ⟨t, rest⟩ := p
    simp only [writeSlot, h]
    split
    · exact ⟨flagsLt_setFlag_32 _ (flagsLt_writeBit cfg _ hlt),
        fastOK_setFlag_32 _ _ (fastOK_writeBit cfg _ 0 hf h4), fun _ => hq⟩
    · split
      · exact ⟨flagsLt_writeBit cfg _ hlt, fastOK_writeBit cfg _ 1 hf h4, fun _ => hq⟩
      · exact ⟨hlt, hf, fun _ => hq⟩

theorem classify_good (cfg : Config) (s : Vars) (q : Nat) (env : List Sample)
    (h : EntryInv cfg s) (hex : (classify cfg (Run.start s q env)).exited = true) :
    GoodRun cfg (classify cfg (Run.start s q env)) := by
  obtain ⟨hlt, h5, hf⟩ := h
  simp only [flag_32, flag_16, OWB_STATE_FLAG_MIGHT_BE_RST, OWB_STATE_FLAG_NEXT_IS_READ] at h5 hf
  have hf' : FastOK cfg s := hf
  have base : GoodRun cfg (Run.start s q env) := ⟨hlt, hf', fun h => by simp [Run.start, h5] at h⟩
  have fast : q &&& s.OWBLLNextRead0INTRQFlag ≠ 0 →
      s.OWBLLStateFlags.testBit 4 = true ∧ q &&& cfg.OWB_LOW_DETECT_IRQ_FLAG ≠ 0 := by
    intro hne
    by_cases hc : s.OWBLLStateFlags.testBit 4 = true ∧ s.OWBLLCurrentBitValue = 0
    · rw [hf, if_pos hc] at hne; exact ⟨hc.1, hne⟩
    · rw [hf, if_neg hc] at hne; simp at hne
  unfold classify at hex ⊢
  simp only [Run.start] at hex ⊢
  split at hex <;> rename_i hfast
  · obtain ⟨f4, fq⟩ := fast hfast
    simp only [hfast, ne_eq, not_false_eq_true, if_true]
    split at hex <;> rename_i hskip
    · simp only [hskip, if_true]
      cases env with
      | nil => simp [Run.spin] at hex
      | cons x rest =>
        simp only [] at hex ⊢
        split at hex <;> rename_i hx
        · simp only [hx, if_true]; exact ⟨hlt, hf', fun h => by simp [h5] at h⟩
        · simp only [hx]
          exact read0_good cfg _ hlt f4 fq hex
    · simp only [hskip]
      exact read0_good cfg _ hlt f4 fq hex
  · simp only [hfast, if_false]
    split at hex <;> rename_i hq
    · simp only [hq, ne_eq, not_false_eq_true, if_true]
      split at hex <;> rename_i hr
      · simp only [hr, if_true]
        exact readSlot_good cfg _ hlt (by simpa using hr) hq
      · simp only [hr]
        exact writeSlot_good cfg _ hlt hf' (by simpa using hr) hq hex
    · simp only [hq, if_false]
      exact base


theorem readSlot_run (cfg : Config) (r : Run) :
    (readSlot cfg r).INTRQ = r.INTRQ ∧ (readSlot cfg r).exited = r.exited ∧
    (readSlot cfg r).env = r.env ∧ (readSlot cfg r).bus = r.bus ∧
    (Call.OWBReset ∈ (readSlot cfg r).calls ↔ Call.OWBReset ∈ r.calls) := by
  by_cases h : r.vars.OWBLLStateFlags.testBit 7 = true <;> simp [readSlot, h]

theorem read0_run (cfg : Config) (r : Run) (hr : r.exited = true) :
    (read0 cfg r).INTRQ = r.INTRQ ∧
    ((read0 cfg r).exited = false → (read0 cfg r).env = []) ∧
    (Call.OWBReset ∈ (read0 cfg r).calls ↔ Call.OWBReset ∈ r.calls) := by
  cases h : OWBLLWaitForT16 (OWB_TIMING_R0_0 cfg) r.env with
  | none => simp [read0, h, Run.spin]
  | some rest =>
    simp only [read0, h]
    obtain ⟨h1, h2, -, -, h5⟩ := readSlot_run cfg
      { r with bus := r.bus ++ [BusOp.OWBLLSetLow] ++ [BusOp.OWBLLSetInput], env := rest }
    refine ⟨h1, ?_, h5⟩
    intro hf
    rw [h2] at hf
    simp [hr] at hf

theorem writeSlot_run (cfg : Config) (r : Run) (hr : r.exited = true) :
    (writeSlot cfg r).INTRQ = r.INTRQ ∧
    ((writeSlot cfg r).exited = false → (writeSlot cfg r).env = []) ∧
    (Call.OWBReset ∈ (writeSlot cfg r).calls ↔ Call.OWBReset ∈ r.calls) := by
  cases h : pollLine (OWB_TIMING_W0_0_MIN cfg) r.env with
  | none => simp [writeSlot, h, Run.spin]
  | some p =>
    obtain ⟨t, rest⟩ := p
    simp only [writeSlot, h]
    split
    · simp [hr]
    · split <;> simp [hr]

theorem classify_run (cfg : Config) (r : Run) (hr : r.exited = true) :
    (classify cfg r).INTRQ = r.INTRQ ∧
    ((classify cfg r).exited = false → (classify cfg r).env = []) ∧
    (Call.OWBReset ∈ (classify cfg r).calls ↔ Call.OWBReset ∈ r.calls) := by
  unfold classify
  split
  · split
    · split
      · simp [Run.spin]
      · split
        · simp [hr]
        · exact read0_run cfg _ hr
    · exact read0_run cfg _ hr
  · split
    · split
      · obtain ⟨h1, h2, -, -, h5⟩ := readSlot_run cfg r
        refine ⟨h1, fun hf => ?_, h5⟩
        rw [h2, hr] at hf; cases hf
      · exact writeSlot_run cfg r hr
    · simp [hr]

theorem resetSequence_run (cfg : Config) (r : Run) :
    Call.OWBReset ∈ (resetSequence cfg r).calls ∧
    ((resetSequence cfg r).exited = true →
      (resetSequence cfg r).vars = OWBLLSwitchToWriteImmediately (OWBReset r.vars)) := by
  simp only [resetSequence]
  cases h1 : waitRelease r.env with
  | none => simp [Run.spin]
  | some rest1 =>
    simp only []
    cases h2 : OWBLLWaitForT16 (OWB_TIMING_RST_1 cfg) rest1 with
    | none => simp [Run.spin]
    | some rest2 =>
      simp only []
      cases h3 : OWBLLWaitForT16 (OWB_TIMING_RST_PP cfg) rest2 with
      | none => simp [Run.spin]
      | some rest3 => simp [clearIRQ]

theorem resetSequence_calls (cfg : Config) (r : Run) :
    (resetSequence cfg r).calls = r.calls ++ [Call.OWBReset] := by
  simp only [resetSequence]
  cases h1 : waitRelease r.env with
  | none => simp [Run.spin]
  | some rest1 =>
    simp only []
    cases h2 : OWBLLWaitForT16 (OWB_TIMING_RST_1 cfg) rest1 with
    | none => simp [Run.spin]
    | some rest2 =>
      simp only []
      cases h3 : OWBLLWaitForT16 (OWB_TIMING_RST_PP cfg) rest2 with
      | none => simp [Run.spin]
      | some rest3 => simp [clearIRQ]

/-- The second part of the handler adds no engine call but, possibly, `OWBReset`. -/
theorem finalize_calls (cfg : Config) (c : Run) :
    (finalize cfg c).calls = c.calls ∨ (finalize cfg c).calls = c.calls ++ [Call.OWBReset] := by
  by_cases hirq : c.INTRQ &&& cfg.OWB_LOW_DETECT_IRQ_FLAG ≠ 0
  · simp only [finalize, hirq, ne_eq, not_false_eq_true, if_true]
    by_cases hm : c.vars.OWBLLStateFlags.testBit 5 = true
    · cases hp : pollLine (OWB_TIMING_RST_0_MIN cfg) c.env with
      | none => simp [clearIRQ, hm, hp, Run.spin]
      | some p =>
        obtain ⟨t, rest⟩ := p
        simp only [clearIRQ, flag_32, OWB_STATE_FLAG_MIGHT_BE_RST, hm, hp, if_true]
        split
        · right
          split <;> simp [resetSequence_calls]
        · left
          split <;> rfl
    · left
      simp only [clearIRQ, flag_32, OWB_STATE_FLAG_MIGHT_BE_RST, hm, if_false,
        Bool.false_eq_true]
      split <;> rfl
  · left
    simp [finalize, hirq]

/-- The second part of the handler calls `OWBReset` exactly when `MIGHT_BE_RST` is set
and the polling ends at or above the RST time (or with `TIMER_OVERFLOW` set); a run
that does so and returns leaves the globals of a finalized reset. -/
theorem finalize_reset (cfg : Config) (c : Run)
    (hirq : c.INTRQ &&& cfg.OWB_LOW_DETECT_IRQ_FLAG ≠ 0) (hc : Call.OWBReset ∉ c.calls) :
    (Call.OWBReset ∈ (finalize cfg c).calls ↔
      c.vars.flag OWB_STATE_FLAG_MIGHT_BE_RST = true ∧
      ∃ t rest, pollLine (OWB_TIMING_RST_0_MIN cfg) c.env = some (t, rest) ∧
        (OWB_TIMING_RST_0_MIN cfg ≤ t ∨ c.vars.flag OWB_STATE_FLAG_TIMER_OVERFLOW = true)) ∧
    (Call.OWBReset ∈ (finalize cfg c).calls → (finalize cfg c).exited = true →
      (finalize cfg c).vars =
        (OWBLLSwitchToWriteImmediately (OWBReset c.vars)).clearFlag
          OWB_STATE_FLAG_MIGHT_BE_RST) := by
  simp only [finalize, hirq, ne_eq, not_false_eq_true, if_true]
  by_cases hm : c.vars.OWBLLStateFlags.testBit 5 = true
  · cases hp : pollLine (OWB_TIMING_RST_0_MIN cfg) c.env with
    | none => simp [clearIRQ, hm, hp, Run.spin, hc]
    | some p =>
      obtain ⟨t, rest⟩ := p
      by_cases ht : OWB_TIMING_RST_0_MIN cfg ≤ t ∨ c.vars.OWBLLStateFlags.testBit 6 = true
      · obtain ⟨r1, r2⟩ := resetSequence_run cfg { clearIRQ cfg c with env := rest }
        simp only [clearIRQ] at r1 r2
        simp only [clearIRQ, flag_32, flag_64, OWB_STATE_FLAG_MIGHT_BE_RST,
          OWB_STATE_FLAG_TIMER_OVERFLOW, hm, hp, if_true, ge_iff_le, ht]
        split
        · rename_i hex
          refine ⟨by simp [r1, ht], fun _ _ => ?_⟩
          simp only [r2 hex]
        · rename_i hex
          refine ⟨by simp [r1, ht], fun _ hx => absurd hx hex⟩
      · have ht' := ht
        rw [not_or] at ht'
        simp only [clearIRQ, flag_32, flag_64, OWB_STATE_FLAG_MIGHT_BE_RST,
          OWB_STATE_FLAG_TIMER_OVERFLOW, hm, hp, if_true, ge_iff_le, ht, if_false]
        by_cases hex : c.exited = true <;> simp [hex, hc, ht'.1, ht'.2]
  · simp only [clearIRQ, flag_32, OWB_STATE_FLAG_MIGHT_BE_RST, hm, if_false]
    by_cases hex : c.exited = true <;> simp [hex, hc, hm]

theorem entryInv_of_clear (cfg : Config) (v : Vars) (hlt : v.OWBLLStateFlags < 256)
    (hf : FastOK cfg v) : EntryInv cfg (v.clearFlag OWB_STATE_FLAG_MIGHT_BE_RST) := by
  refine ⟨flagsLt_clearFlag _ _ hlt, by simp [Vars.clearFlag], ?_⟩
  have := fastOK_clearFlag_32 cfg v hf
  simpa [FastOK] using this

theorem finalize_entryInv (cfg : Config) (c : Run) (hg : GoodRun cfg c)
    (hex : (finalize cfg c).exited = true) : EntryInv cfg (finalize cfg c).vars := by
  obtain ⟨hlt, hf, hq⟩ := hg
  by_cases hirq : c.INTRQ &&& cfg.OWB_LOW_DETECT_IRQ_FLAG ≠ 0
  · simp only [finalize, hirq, ne_eq, not_false_eq_true, if_true] at hex ⊢
    by_cases hm : c.vars.OWBLLStateFlags.testBit 5 = true
    · cases hp : pollLine (OWB_TIMING_RST_0_MIN cfg) c.env with
      | none => simp [clearIRQ, hm, hp, Run.spin] at hex
      | some p =>
        obtain ⟨t, rest⟩ := p
        simp only [clearIRQ, flag_32, flag_64, OWB_STATE_FLAG_MIGHT_BE_RST,
          OWB_STATE_FLAG_TIMER_OVERFLOW, hm, hp, if_true, ge_iff_le] at hex ⊢
        split at hex <;> rename_i ht
        · obtain ⟨-, r2⟩ := resetSequence_run cfg
            { vars := c.vars, INTRQ := c.INTRQ &&& (255 ^^^ cfg.OWB_LOW_DETECT_IRQ_FLAG),
              calls := c.calls, bus := c.bus, env := rest, exited := c.exited }
          simp only [ht, if_true] at hex ⊢
          split at hex <;> rename_i hx
          · simp only [hx, if_true, r2 hx]
            exact entryInv_of_clear cfg _
              (flagsLt_switchToWriteImmediately _ (by simpa [OWBReset] using hlt))
              (fastOK_switchToWriteImmediately cfg _)
          · exact absurd hex hx
        · simp only [ht, if_false] at hex ⊢
          split at hex <;> rename_i hx
          · simp only [hx, if_true]
            exact entryInv_of_clear cfg _ hlt hf
          · exact absurd hex hx
    · simp only [clearIRQ, flag_32, OWB_STATE_FLAG_MIGHT_BE_RST, hm, if_false,
        Bool.false_eq_true] at hex ⊢
      split at hex <;> rename_i hx
      · simp only [hx, if_true]
        exact entryInv_of_clear cfg _ hlt hf
      · exact absurd hex hx
  · simp only [finalize, hirq, if_false]
    have hm : c.vars.OWBLLStateFlags.testBit 5 = false := by
      by_cases hm : c.vars.OWBLLStateFlags.testBit 5 = true
      · exact absurd (hq hm) hirq
      · simpa using hm
    exact ⟨hlt, by simpa using hm, by simpa [FastOK] using hf⟩

theorem interrupt_entryInv (cfg : Config) (s : Vars) (q : Nat) (env : List Sample)
    (h : EntryInv cfg s) (hex : (interrupt cfg s q env).exited = true) :
    EntryInv cfg (interrupt cfg s q env).vars := by
  simp only [interrupt] at hex ⊢
  split at hex <;> rename_i hc
  · simp only [hc, if_true]
    exact finalize_entryInv cfg _ (classify_good cfg s q env h hc) hex
  · exact absurd hex hc

theorem reachable_entryInv (cfg : Config) (s : Vars) (h : Reachable cfg s) : EntryInv cfg s := by
  induction h with
  | init => simp [EntryInv, Vars.init]
  | step s q env _ hex ih => exact interrupt_entryInv cfg s q env ih hex

/-- A run whose classification left `MIGHT_BE_RST` clear: the second part of the handler
only clears the request. -/
theorem finalize_idle (cfg : Config) (c : Run)
    (hlt : c.vars.OWBLLStateFlags < 256) (h5 : c.vars.OWBLLStateFlags.testBit 5 = false)
    (hirq : c.INTRQ &&& cfg.OWB_LOW_DETECT_IRQ_FLAG ≠ 0) (hex : c.exited = true) :
    finalize cfg c =
      { c with INTRQ := c.INTRQ &&& (0xFF ^^^ cfg.OWB_LOW_DETECT_IRQ_FLAG) } := by
  have hc := clearFlag_32_of_clear c.vars hlt h5
  simp only [OWB_STATE_FLAG_MIGHT_BE_RST] at hc
  simp [finalize, hirq, clearIRQ, h5, hc, hex]

/-- The polling loop runs through the samples that read LOW below the threshold and
stops at the first sample that does not. -/
theorem pollLine_append (thr : Nat) (pre : List Sample) (last : Sample) (rest : List Sample)
    (hpre : ∀ x ∈ pre, x.high = false ∧ x.tick < thr)
    (hlast : last.high = true ∨ thr ≤ last.tick) :
    pollLine thr (pre ++ last :: rest) = some (last.tick, rest) := by
  induction pre with
  | nil =>
    rcases hlast with h | h
    · simp [pollLine, h]
    · simp [pollLine, Nat.not_lt.mpr h]
  | cons x xs ih =>
    have hx := hpre x (List.mem_cons_self _ _)
    have := ih (fun y hy => hpre y (List.mem_cons_of_mem _ hy))
    simp [pollLine, hx.1, hx.2, this]

/-- C7: in write mode (`NEXT_IS_READ` clear, in a state the handler can be entered in,
request pending), whatever samples the polling loop reads: when the last sampled tick
count is at or above the W0 time, the classification makes exactly one call,
`OWBWriteBit` with bit 0, and sets `MIGHT_BE_RST`, and the whole handler makes no other
call but, possibly, `OWBReset` after it; when the loop ends below the W0 time the bus
was released, and (without `OWB_SKIP_SHORT_PULSES`, or with the tick count at or above
the W1 time) the classification makes exactly one call, `OWBWriteBit` with bit 1, and
leaves `MIGHT_BE_RST` clear, and the handler returns with this one call made; with
`OWB_SKIP_SHORT_PULSES` and a tick count below the W1 time no call is made. -/
theorem C7_write_slot_classification (cfg : Config) (s : Vars) (q : Nat)
    (pre : List Sample) (last : Sample) (rest : List Sample)
    (hreach : Reachable cfg s)
    (hw : s.flag OWB_STATE_FLAG_NEXT_IS_READ = false)
    (hirq : q &&& cfg.OWB_LOW_DETECT_IRQ_FLAG ≠ 0)
    (hpre : ∀ x ∈ pre, x.high = false ∧ x.tick < OWB_TIMING_W0_0_MIN cfg)
    (hlast : last.high = true ∨ OWB_TIMING_W0_0_MIN cfg ≤ last.tick) :
    (OWB_TIMING_W0_0_MIN cfg ≤ last.tick →
      classify cfg (Run.start s q (pre ++ last :: rest)) =
        { vars := (OWBWriteBit cfg { s with OWBLLCurrentBitValue := 0 }).setFlag
                    OWB_STATE_FLAG_MIGHT_BE_RST
          INTRQ := q, calls := [Call.OWBWriteBit 0], bus := [], env := rest, exited := true } ∧
      (classify cfg (Run.start s q (pre ++ last :: rest))).vars.flag
        OWB_STATE_FLAG_MIGHT_BE_RST = true ∧
      ((interrupt cfg s q (pre ++ last :: rest)).calls = [Call.OWBWriteBit 0] ∨
        (interrupt cfg s q (pre ++ last :: rest)).calls =
          [Call.OWBWriteBit 0, Call.OWBReset])) ∧
    (last.tick < OWB_TIMING_W0_0_MIN cfg →
      (cfg.OWB_SKIP_SHORT_PULSES = false ∨ OWB_TIMING_W1_0_MIN cfg ≤ last.tick) →
      last.high = true ∧
      classify cfg (Run.start s q (pre ++ last :: rest)) =
        { vars := OWBWriteBit cfg { s with OWBLLCurrentBitValue := 1 }
          INTRQ := q, calls := [Call.OWBWriteBit 1], bus := [], env := rest, exited := true } ∧
      (classify cfg (Run.start s q (pre ++ last :: rest))).vars.flag
        OWB_STATE_FLAG_MIGHT_BE_RST = false ∧
      interrupt cfg s q (pre ++ last :: rest) =
        { vars := OWBWriteBit cfg { s with OWBLLCurrentBitValue := 1 }
          INTRQ := q &&& (0xFF ^^^ cfg.OWB_LOW_DETECT_IRQ_FLAG)
          calls := [Call.OWBWriteBit 1], bus := [], env := rest, exited := true }) ∧
    (last.tick < OWB_TIMING_W0_0_MIN cfg →
      cfg.OWB_SKIP_SHORT_PULSES = true → last.tick < OWB_TIMING_W1_0_MIN cfg →
      classify cfg (Run.start s q (pre ++ last :: rest)) =
        { vars := s, INTRQ := q, calls := [], bus := [], env := rest, exited := true }) := by
  obtain ⟨hlt, h5, hf⟩ := reachable_entryInv cfg s hreach
  simp only [flag_32, flag_16, OWB_STATE_FLAG_MIGHT_BE_RST, OWB_STATE_FLAG_NEXT_IS_READ] at h5 hf hw
  have h0 : s.OWBLLNextRead0INTRQFlag = 0 := by simpa [hw] using hf
  have hp := pollLine_append _ pre last rest hpre hlast
  have hcl : classify cfg (Run.start s q (pre ++ last :: rest)) =
      writeSlot cfg (Run.start s q (pre ++ last :: rest)) := by
    simp [classify, Run.start, h0, hirq, hw]
  refine ⟨fun h0 => ?_, fun hlt' hsk => ?_, fun hlt' hsk h1 => ?_⟩
  · have hc0 : classify cfg (Run.start s q (pre ++ last :: rest)) =
        { vars := (OWBWriteBit cfg { s with OWBLLCurrentBitValue := 0 }).setFlag
                    OWB_STATE_FLAG_MIGHT_BE_RST
          INTRQ := q, calls := [Call.OWBWriteBit 0], bus := [], env := rest,
          exited := true } := by
      rw [hcl]; simp [writeSlot, Run.start, hp, h0]
    refine ⟨hc0, by rw [hc0]; simp [Vars.setFlag], ?_⟩
    simp only [interrupt, hc0, if_true]
    exact finalize_calls cfg _
  · have hn : ¬ OWB_TIMING_W0_0_MIN cfg ≤ last.tick := Nat.not_le.mpr hlt'
    have h5' := writeBit_testBit_5 cfg { s with OWBLLCurrentBitValue := 1 }
    have hc1 : classify cfg (Run.start s q (pre ++ last :: rest)) =
        { vars := OWBWriteBit cfg { s with OWBLLCurrentBitValue := 1 }
          INTRQ := q, calls := [Call.OWBWriteBit 1], bus := [], env := rest,
          exited := true } := by
      rw [hcl]
      rcases hsk with hsk | hsk <;> simp [writeSlot, Run.start, hp, hn, hsk]
    refine ⟨by simpa [hn] using hlast, hc1, by rw [hc1]; simpa [h5'] using h5, ?_⟩
    simp only [interrupt, hc1, if_true]
    exact finalize_idle cfg _ (flagsLt_writeBit cfg _ hlt) (by rw [h5']; exact h5) hirq rfl
  · have hn : ¬ OWB_TIMING_W0_0_MIN cfg ≤ last.tick := Nat.not_le.mpr hlt'
    have hn1 : ¬ OWB_TIMING_W1_0_MIN cfg ≤ last.tick := Nat.not_le.mpr h1
    rw [hcl]
    simp [writeSlot, Run.start, hp, hn, hsk, hn1]

theorem ticks_with_latency_mono (cfg : Config) (a b : Nat) (h : a ≤ b) :
    OWB_TIMING_US_TO_TICKS_WITH_LATENCY cfg a ≤ OWB_TIMING_US_TO_TICKS_WITH_LATENCY cfg b := by
  have hm : a * (cfg.F_CPU / 1000000) ≤ b * (cfg.F_CPU / 1000000) := Nat.mul_le_mul_right _ h
  simp only [OWB_TIMING_US_TO_TICKS_WITH_LATENCY, OWB_TIMING_US_TO_TICKS,
    OWB_TIMING_LOW_TO_ISR_LATENCY_TICKS]
  split <;> split <;> omega

theorem read0_bus (cfg : Config) (r : Run) : BusOp.OWBLLSetLow ∈ (read0 cfg r).bus := by
  cases h : OWBLLWaitForT16 (OWB_TIMING_R0_0 cfg) r.env with
  | none => simp [read0, h, Run.spin]
  | some rest =>
    simp only [read0, h, (readSlot_run cfg _).2.2.2.1]
    simp

/-- The paths of the handler with `OWB_SKIP_SHORT_PULSES`, in a state the handler can be
entered in and with the request pending: when a write is expected, a pulse found released below
the W1 time makes no engine call, no bus operation and leaves every global as it was;
when a READ0 is expected, the event is dropped in the same way if the bus is already
released at the handler's first test, and if the bus is still LOW there the slave
extends the pulse and handles the read slot, however short the pulse; when a READ1 is
expected no test is made: the read slot is handled and `OWBReadBit` is called (unless a
deferred switch to write mode is pending). -/
theorem skip_short_pulses_paths (cfg : Config) (s : Vars) (q : Nat)
    (hskip : cfg.OWB_SKIP_SHORT_PULSES = true) (hreach : Reachable cfg s)
    (hirq : q &&& cfg.OWB_LOW_DETECT_IRQ_FLAG ≠ 0) :
    (s.flag OWB_STATE_FLAG_NEXT_IS_READ = false →
      ∀ (pre : List Sample) (last : Sample) (rest : List Sample),
        (∀ x ∈ pre, x.high = false ∧ x.tick < OWB_TIMING_W0_0_MIN cfg) →
        last.high = true → last.tick < OWB_TIMING_W1_0_MIN cfg →
        interrupt cfg s q (pre ++ last :: rest) =
          { vars := s, INTRQ := q &&& (0xFF ^^^ cfg.OWB_LOW_DETECT_IRQ_FLAG), calls := [],
            bus := [], env := rest, exited := true }) ∧
    (s.flag OWB_STATE_FLAG_NEXT_IS_READ = true → s.OWBLLCurrentBitValue = 0 →
      ∀ (x : Sample) (rest : List Sample), x.high = true →
        interrupt cfg s q (x :: rest) =
          { vars := s, INTRQ := q &&& (0xFF ^^^ cfg.OWB_LOW_DETECT_IRQ_FLAG), calls := [],
            bus := [], env := rest, exited := true }) ∧
    (s.flag OWB_STATE_FLAG_NEXT_IS_READ = true → s.OWBLLCurrentBitValue = 0 →
      ∀ (x : Sample) (rest : List Sample), x.high = false →
        classify cfg (Run.start s q (x :: rest)) = read0 cfg (Run.start s q rest) ∧
        BusOp.OWBLLSetLow ∈ (classify cfg (Run.start s q (x :: rest))).bus) ∧
    (s.flag OWB_STATE_FLAG_NEXT_IS_READ = true → s.OWBLLCurrentBitValue ≠ 0 →
      ∀ env : List Sample,
        classify cfg (Run.start s q env) = readSlot cfg (Run.start s q env) ∧
        (s.flag OWB_STATE_FLAG_DELAYED_SWITCH_TO_WRITE = false →
          (classify cfg (Run.start s q env)).calls = [Call.OWBReadBit])) := by
  obtain ⟨hlt, h5, hf⟩ := reachable_entryInv cfg s hreach
  simp only [flag_32, flag_16, OWB_STATE_FLAG_MIGHT_BE_RST, OWB_STATE_FLAG_NEXT_IS_READ] at h5 hf
  refine ⟨fun hw pre last rest hpre hhigh htick => ?_, fun hr hb x rest hx => ?_,
    fun hr hb x rest hx => ?_, fun hr hb env => ?_⟩
  · simp only [flag_16, OWB_STATE_FLAG_NEXT_IS_READ] at hw
    have h0 : s.OWBLLNextRead0INTRQFlag = 0 := by simpa [hw] using hf
    have hle : OWB_TIMING_W1_0_MIN cfg ≤ OWB_TIMING_W0_0_MIN cfg :=
      ticks_with_latency_mono cfg 3 30 (by decide)
    have hp := pollLine_append _ pre last rest hpre (Or.inl hhigh)
    have hn : ¬ OWB_TIMING_W0_0_MIN cfg ≤ last.tick := by omega
    have hn1 : ¬ OWB_TIMING_W1_0_MIN cfg ≤ last.tick := by omega
    have hcl : classify cfg (Run.start s q (pre ++ last :: rest)) =
        { vars := s, INTRQ := q, calls := [], bus := [], env := rest, exited := true } := by
      simp [classify, Run.start, h0, hirq, hw, writeSlot, hp, hn, hn1, hskip]
    simp only [interrupt, hcl, if_true]
    exact finalize_idle cfg _ hlt h5 hirq rfl
  · simp only [flag_16, OWB_STATE_FLAG_NEXT_IS_READ] at hr
    have h1 : s.OWBLLNextRead0INTRQFlag = cfg.OWB_LOW_DETECT_IRQ_FLAG := by
      simpa [hr, hb] using hf
    have hcl : classify cfg (Run.start s q (x :: rest)) =
        { vars := s, INTRQ := q, calls := [], bus := [], env := rest, exited := true } := by
      simp [classify, Run.start, h1, hirq, hskip, hx]
    simp only [interrupt, hcl, if_true]
    exact finalize_idle cfg _ hlt h5 hirq rfl
  · simp only [flag_16, OWB_STATE_FLAG_NEXT_IS_READ] at hr
    have h1 : s.OWBLLNextRead0INTRQFlag = cfg.OWB_LOW_DETECT_IRQ_FLAG := by
      simpa [hr, hb] using hf
    have hcl : classify cfg (Run.start s q (x :: rest)) = read0 cfg (Run.start s q rest) := by
      simp [classify, Run.start, h1, hirq, hskip, hx]
    exact ⟨hcl, hcl ▸ read0_bus cfg _⟩
  · simp only [flag_16, OWB_STATE_FLAG_NEXT_IS_READ] at hr
    have h0 : s.OWBLLNextRead0INTRQFlag = 0 := by simpa [hr, hb] using hf
    have hcl : classify cfg (Run.start s q env) = readSlot cfg (Run.start s q env) := by
      simp [classify, Run.start, h0, hirq, hr]
    refine ⟨hcl, fun hd => ?_⟩
    simp only [flag_128, OWB_STATE_FLAG_DELAYED_SWITCH_TO_WRITE] at hd
    rw [hcl]
    simp [readSlot, Run.start, hd]


/-! ## A reset in the middle of a SEARCH ROM round -/

/-- Pulses handled to the end lead from reachable globals to reachable globals. -/
theorem reachable_handle (cfg : Config) (s : Vars) (ps : List (List Sample))
    (h : Reachable cfg s) (hex : allExit cfg s ps = true) : Reachable cfg (handle cfg s ps) := by
  induction ps generalizing s with
  | nil => exact h
  | cons p ps ih =>
    simp only [allExit, Bool.and_eq_true] at hex
    exact ih _ (Reachable.step s _ p h hex.1) hex.2

theorem searchWritePhase_reachable : Reachable demoConfig searchWritePhase :=
  reachable_handle demoConfig Vars.init _ Reachable.init (by decide)

theorem read1Expected_reachable : Reachable demoConfigSkip read1Expected :=
  reachable_handle demoConfigSkip Vars.init _ Reachable.init (by decide)

/-- C6, at the failing input: `searchWritePhase` is a state the handler can be entered
in, in SEARCH ROM before the master's write slot, with `SEARCH_ROM_INVERT` clear and the
current identifier bit 0. A reset pulse is first reported as a W0, which matches, and
then finalized as a reset: the handler returns with `SEARCH_ROM_INVERT` set, while the
reset finalization applied to `searchWritePhase` itself leaves the flag clear. -/
theorem C6_reset_keeps_toggled_invert :
    Reachable demoConfig searchWritePhase ∧
    searchWritePhase.CurrentState = OWB_STATE_SEARCH_ROM ∧
    searchWritePhase.flag OWB_STATE_FLAG_SEARCH_ROM_INVERT = false ∧
    (interrupt demoConfig searchWritePhase 1 resetPulse).exited = true ∧
    (interrupt demoConfig searchWritePhase 1 resetPulse).calls =
      [Call.OWBWriteBit 0, Call.OWBReset] ∧
    (interrupt demoConfig searchWritePhase 1 resetPulse).vars.OWBLLStateFlags = 2 ∧
    ((OWBLLSwitchToWriteImmediately (OWBReset searchWritePhase)).clearFlag
      OWB_STATE_FLAG_MIGHT_BE_RST).OWBLLStateFlags = 0 :=
  ⟨searchWritePhase_reachable, by decide, by decide, by decide, by decide, by decide,
    by decide⟩

/-- C4, at the failing input: after a reset pulse handled in `searchWritePhase` the
state is RESET with `SEARCH_ROM_INVERT` set. The command 0xF0 then gives SEARCH ROM at
byte 0 in read mode, but the flag is not reset at dispatch: the bit prepared first is 1,
the complement of bit 0 of `OWBROMCode[0]`, and a deferred switch to write mode is
pending. -/
theorem C4_search_dispatch_with_stale_invert :
    Reachable demoConfig searchWritePhase ∧
    (handle demoConfig searchWritePhase [resetPulse]).CurrentState = OWB_STATE_RESET ∧
    (handle demoConfig searchWritePhase [resetPulse]).flag
      OWB_STATE_FLAG_SEARCH_ROM_INVERT = true ∧
    (handle demoConfig searchWritePhase ([resetPulse] ++ searchRomCommand)).CurrentState =
      OWB_STATE_SEARCH_ROM ∧
    AtSearchCursor demoConfig
      (handle demoConfig searchWritePhase ([resetPulse] ++ searchRomCommand)) 0 0 ∧
    (handle demoConfig searchWritePhase ([resetPulse] ++ searchRomCommand)).flag
      OWB_STATE_FLAG_NEXT_IS_READ = true ∧
    demoConfig.bit 0 0 = 0 ∧
    (handle demoConfig searchWritePhase
      ([resetPulse] ++ searchRomCommand)).OWBLLCurrentBitValue = 1 ∧
    (handle demoConfig searchWritePhase ([resetPulse] ++ searchRomCommand)).flag
      OWB_STATE_FLAG_DELAYED_SWITCH_TO_WRITE = true :=
  ⟨searchWritePhase_reachable, by decide, by decide, by decide, by decide, by decide,
    by decide, by decide, by decide⟩

/-- C2, at the failing input: from `searchWritePhase` the master starts a new round with
a reset and the command 0xF0 and serves identifier bit 0 as two read slots and a write
slot with the true bit 0. The slave takes the second read slot for a write of 1, finds
a mismatch and is IDLE before the write slot and after it. -/
theorem C2_round_after_aborted_round :
    Reachable demoConfig searchWritePhase ∧
    allExit demoConfig searchWritePhase
      ([resetPulse] ++ searchRomCommand ++ [shortPulse, shortPulse, longPulse]) = true ∧
    demoConfig.bit 0 0 = 0 ∧
    (handle demoConfig searchWritePhase
      ([resetPulse] ++ searchRomCommand ++ [shortPulse])).CurrentState =
        OWB_STATE_SEARCH_ROM ∧
    (interrupt demoConfig (handle demoConfig searchWritePhase
      ([resetPulse] ++ searchRomCommand ++ [shortPulse])) 1 shortPulse).calls =
        [Call.OWBWriteBit 1] ∧
    (handle demoConfig searchWritePhase
      ([resetPulse] ++ searchRomCommand ++ [shortPulse, shortPulse])).CurrentState =
        OWB_STATE_IDLE ∧
    (handle demoConfig searchWritePhase
      ([resetPulse] ++ searchRomCommand ++ [shortPulse, shortPulse, longPulse])).CurrentState =
        OWB_STATE_IDLE :=
  ⟨searchWritePhase_reachable, by decide, by decide, by decide, by decide, by decide,
    by decide⟩

theorem read0Expected_reachable : Reachable demoConfigSkip read0Expected :=
  reachable_handle demoConfigSkip Vars.init _ Reachable.init (by decide)

/-- C8, at the failing input: with `OWB_SKIP_SHORT_PULSES`, in the reachable state
`read1Expected` (READ ROM, a 1 waiting to be read), a pulse found released at tick 1,
below the W1 time of 4 ticks, is handled as a read slot: `OWBReadBit` is called and the
cursor moves on. The same pulse is dropped, with no call and every global unchanged, when
a write is expected (initial globals) and when a READ0 is expected (`read0Expected`). -/
theorem C8_glitch_while_read1_expected :
    demoConfigSkip.OWB_SKIP_SHORT_PULSES = true ∧
    Reachable demoConfigSkip read1Expected ∧
    read1Expected.flag OWB_STATE_FLAG_NEXT_IS_READ = true ∧
    read1Expected.OWBLLCurrentBitValue = 1 ∧
    1 < OWB_TIMING_W1_0_MIN demoConfigSkip ∧
    (interrupt demoConfigSkip read1Expected 1 [⟨1, true⟩]).exited = true ∧
    (interrupt demoConfigSkip read1Expected 1 [⟨1, true⟩]).calls = [Call.OWBReadBit] ∧
    (interrupt demoConfigSkip read1Expected 1 [⟨1, true⟩]).vars.CurrentBitValue ≠
      read1Expected.CurrentBitValue ∧
    (interrupt demoConfigSkip read1Expected 1 [⟨1, true⟩]).vars ≠ read1Expected ∧
    (interrupt demoConfigSkip Vars.init 1 [⟨1, true⟩]).exited = true ∧
    (interrupt demoConfigSkip Vars.init 1 [⟨1, true⟩]).calls = [] ∧
    (interrupt demoConfigSkip Vars.init 1 [⟨1, true⟩]).vars = Vars.init ∧
    Reachable demoConfigSkip read0Expected ∧
    read0Expected.flag OWB_STATE_FLAG_NEXT_IS_READ = true ∧
    read0Expected.OWBLLCurrentBitValue = 0 ∧
    (interrupt demoConfigSkip read0Expected 1 [⟨1, true⟩]).exited = true ∧
    (interrupt demoConfigSkip read0Expected 1 [⟨1, true⟩]).calls = [] ∧
    (interrupt demoConfigSkip read0Expected 1 [⟨1, true⟩]).vars = read0Expected :=
  ⟨rfl, read1Expected_reachable, by decide, by decide, by decide, by decide, by decide,
    by decide, by decide, by decide, by decide, by decide, read0Expected_reachable,
    by decide, by decide, by decide, by decide, by decide⟩

/-! ## The cursor under sequences of engine calls -/

theorem cursorInv_reset (cfg : Config) (s : Vars) : CursorInv cfg (OWBReset s) := by
  simp [CursorInv, OWBReset]
  exact ⟨0, by simp⟩

theorem cursorInv_readBit (cfg : Config) (s : Vars) (h : CursorInv cfg s) :
    CursorInv cfg (OWBReadBit cfg s) := by
  cases hst : s.CurrentState
  · simpa [CursorInv, OWBReadBit, hst, OWBLLSetReadValue] using h
  · simpa [CursorInv, OWBReadBit, hst, OWBLLSetReadValue] using h
  · simp only [CursorInv, hst] at h
    obtain ⟨k, hk, hi, hc⟩ := h
    obtain ⟨-, hm, hb⟩ := hc
    by_cases hk7 : k = 7
    · subst hk7
      by_cases hi7 : s.OWBREADROMByteOffset = 7
      · simp [CursorInv, OWBReadBit, hst, hm, hi7, OWBLLSetReadValue]
      · have h1 : (s.OWBREADROMByteOffset + 1) % 256 = s.OWBREADROMByteOffset + 1 := by omega
        have h8 : ¬ (s.OWBREADROMByteOffset + 1 = 8) := by omega
        simp [CursorInv, OWBReadBit, hst, hm, h1, h8, OWBLLSetReadValue, AtReadCursor]
        exact ⟨0, by omega, by omega, by simp, by simp⟩
    · have hk6 : k < 7 := by omega
      have hpow : (2 ^ k <<< 1) % 256 = 2 ^ (k + 1) := by
        interval_cases k <;> rfl
      have hne : (2 : Nat) ^ (k + 1) ≠ 0 := by positivity
      simp [CursorInv, OWBReadBit, hst, hm, hb, hpow, hne, OWBLLSetReadValue, AtReadCursor,
        Nat.shiftRight_eq_div_pow]
      refine ⟨k + 1, by omega, hi, rfl, ?_⟩
      rw [Nat.div_div_eq_div_mul, pow_succ]
  · have hf := readBit_frame cfg s (by simp [hst])
    simp only [CursorInv, hst, AtSearchCursor] at h ⊢
    simp only [hf.1, hf.2.1, hf.2.2.1, hf.2.2.2.1, hst]
    exact h

theorem cursorInv_congr (cfg : Config) (s t : Vars)
    (h1 : t.CurrentState = s.CurrentState) (h2 : t.CurrentBitValue = s.CurrentBitValue)
    (h3 : t.CurrentByte = s.CurrentByte)
    (h4 : t.OWBREADROMByteOffset = s.OWBREADROMByteOffset)
    (h5 : t.OWBSEARCHROMCurrentByteIndex = s.OWBSEARCHROMCurrentByteIndex)
    (h : CursorInv cfg s) : CursorInv cfg t := by
  simp only [CursorInv, AtReadCursor, AtSearchCursor, h1, h2, h3, h4, h5] at h ⊢
  exact h

theorem cursorInv_switchToRead (cfg : Config) (s : Vars) (h : CursorInv cfg s) :
    CursorInv cfg (OWBLLSwitchToRead cfg s) := by
  by_cases hr : s.OWBLLStateFlags.testBit 4 = true
  · simpa [OWBLLSwitchToRead, hr] using h
  · have h2 : CursorInv cfg (s.setFlag OWB_STATE_FLAG_NEXT_IS_READ) := h
    have h3 := cursorInv_readBit cfg _ h2
    have he : OWBLLSwitchToRead cfg s =
        OWBLLSetupNextRead cfg (s.setFlag OWB_STATE_FLAG_NEXT_IS_READ) := by
      simp [OWBLLSwitchToRead, hr]
    rw [he]
    exact cursorInv_congr cfg _ _ (by simp) (by simp) (by simp) (by simp) (by simp) h3

theorem state_cases (s : Vars) :
    s.CurrentState = OWB_STATE_IDLE ∨ s.CurrentState = OWB_STATE_RESET ∨
    s.CurrentState = OWB_STATE_READ_ROM ∨ s.CurrentState = OWB_STATE_SEARCH_ROM := by
  cases s.CurrentState <;> simp

theorem writeBit_idle (cfg : Config) (s : Vars)
    (h : s.CurrentState = OWB_STATE_IDLE ∨ s.CurrentState = OWB_STATE_READ_ROM) :
    OWBWriteBit cfg s = s := by
  rcases h with h | h <;> simp [OWBWriteBit, h]

theorem cursorInv_writeBit (cfg : Config) (s : Vars) (b : Bool) (h : CursorInv cfg s) :
    CursorInv cfg (OWBWriteBit cfg { s with OWBLLCurrentBitValue := b.toNat }) := by
  rcases state_cases s with hst | hst | hst | hst
  · rw [writeBit_idle cfg { s with OWBLLCurrentBitValue := b.toNat } (Or.inl hst)]; exact h
  · simp only [CursorInv, hst] at h
    obtain ⟨k, hk, hm, hB, ho, hi⟩ := h
    by_cases hk7 : k = 7
    · subst hk7
      have h0 : (2 ^ 7 <<< 1) % 256 = 0 := by decide
      have hrd : CursorInv cfg (OWBLLSwitchToRead cfg
          { s with OWBLLCurrentBitValue := b.toNat, CurrentState := OWB_STATE_READ_ROM,
                   CurrentByte := cfg.rom 0, CurrentBitValue := 1 }) := by
        apply cursorInv_switchToRead
        simp only [CursorInv, AtReadCursor, ho]
        exact ⟨0, by omega, by omega, trivial, by simp, by simp⟩
      have hsr : CursorInv cfg (OWBLLSwitchToRead cfg
          { s with OWBLLCurrentBitValue := b.toNat, CurrentState := OWB_STATE_SEARCH_ROM,
                   CurrentByte := cfg.rom 0, CurrentBitValue := 1 }) := by
        apply cursorInv_switchToRead
        simp only [CursorInv, AtSearchCursor, hi]
        exact ⟨0, by omega, by omega, trivial, by simp, by simp⟩
      cases b <;> simp only [OWBWriteBit, hst, hm, h0] <;> simp <;> split_ifs <;>
        first | exact hrd | exact hsr | simp [CursorInv]
    · have hstep := writeBit_reset_step cfg s b k hst hm hB (by omega)
      rw [hstep]
      have hb : b.toNat ≤ 1 := by cases b <;> simp
      simp only [CursorInv, hst, ho, hi]
      refine ⟨k + 1, by omega, rfl, ?_, trivial, trivial⟩
      rw [pow_succ]
      rcases Nat.le_one_iff_eq_zero_or_eq_one.mp hb with h | h <;> rw [h] <;> omega
  · rw [writeBit_idle cfg { s with OWBLLCurrentBitValue := b.toNat } (Or.inr hst)]; exact h
  · simp only [CursorInv, hst, AtSearchCursor] at h
    obtain ⟨k, hk, hi, -, hm, hB⟩ := h
    simp only [OWBWriteBit, hst]
    by_cases hbit : b.toNat = s.CurrentByte &&& 1
    · rw [if_pos hbit]
      apply cursorInv_switchToRead
      by_cases hk7 : k = 7
      · subst hk7
        by_cases hi7 : s.OWBSEARCHROMCurrentByteIndex = 7
        · simp [CursorInv, hst, hm, hi7]
        · have h1 : (s.OWBSEARCHROMCurrentByteIndex + 1) % 256 =
              s.OWBSEARCHROMCurrentByteIndex + 1 := by omega
          have h8 : ¬ (s.OWBSEARCHROMCurrentByteIndex + 1 = 8) := by omega
          simp [CursorInv, hst, hm, h1, h8, AtSearchCursor]
          exact ⟨0, by omega, by omega, by simp, by simp⟩
      · have hpow : (2 ^ k <<< 1) % 256 = 2 ^ (k + 1) := by
          have : k < 7 := by omega
          interval_cases k <;> rfl
        have hne : (2 : Nat) ^ (k + 1) ≠ 0 := by positivity
        simp [CursorInv, hst, hm, hB, hpow, hne, AtSearchCursor, Nat.shiftRight_eq_div_pow]
        refine ⟨k + 1, by omega, hi, rfl, ?_⟩
        rw [Nat.div_div_eq_div_mul, pow_succ]
    · rw [if_neg hbit]
      simp only [CursorInv]
      exact Or.inr ⟨k, hk, hm⟩

theorem engine_cursorInv (cfg : Config) (calls : List EngineCall) (s : Vars)
    (h : CursorInv cfg s) : CursorInv cfg (engine cfg calls s) := by
  induction calls generalizing s with
  | nil => exact h
  | cons c cs ih =>
    apply ih
    cases c with
    | reset => exact cursorInv_reset cfg s
    | write bit => exact cursorInv_writeBit cfg s bit h
    | read => exact cursorInv_readBit cfg s h

theorem cursorInv_init (cfg : Config) : CursorInv cfg Vars.init := by
  simp only [CursorInv, Vars.init]
  exact Or.inr ⟨0, by omega, rfl⟩

/-- In READ ROM, `n` further `OWBReadBit` calls move the cursor on by `n` bits. -/
theorem read_rom_advance (cfg : Config) (d : Vars) (p : Nat)
    (hs : d.CurrentState = OWB_STATE_READ_ROM) (hc : AtReadCursor cfg d (p / 8) (p % 8))
    (n : Nat) (hn : p + n < 64) :
    ((OWBReadBit cfg)^[n] d).CurrentState = OWB_STATE_READ_ROM ∧
    AtReadCursor cfg ((OWBReadBit cfg)^[n] d) ((p + n) / 8) ((p + n) % 8) := by
  induction n with
  | zero => exact ⟨hs, hc⟩
  | succ m ih =>
    obtain ⟨h1, h3⟩ := ih (by omega)
    rw [Function.iterate_succ_apply']
    obtain ⟨-, -, r3, r4, -⟩ := readBit_read_rom cfg _ _ _ h1 h3 (by omega) (by omega)
    by_cases hk : (p + m) % 8 < 7
    · have e1 : (p + (m + 1)) / 8 = (p + m) / 8 := by omega
      have e2 : (p + (m + 1)) % 8 = (p + m) % 8 + 1 := by omega
      rw [e1, e2]; exact r3 hk
    · have e1 : (p + (m + 1)) / 8 = (p + m) / 8 + 1 := by omega
      have e2 : (p + (m + 1)) % 8 = 0 := by omega
      rw [e1, e2]; exact r4 (by omega) (by omega)

/-- In SEARCH ROM any number of `OWBReadBit` calls leaves the state and the cursor alone. -/
theorem readBit_iterate_search (cfg : Config) (s : Vars) (r : Nat)
    (hs : s.CurrentState = OWB_STATE_SEARCH_ROM) :
    ((OWBReadBit cfg)^[r] s).CurrentState = OWB_STATE_SEARCH_ROM ∧
    ((OWBReadBit cfg)^[r] s).CurrentBitValue = s.CurrentBitValue ∧
    ((OWBReadBit cfg)^[r] s).CurrentByte = s.CurrentByte ∧
    ((OWBReadBit cfg)^[r] s).OWBSEARCHROMCurrentByteIndex = s.OWBSEARCHROMCurrentByteIndex := by
  induction r with
  | zero => exact ⟨hs, rfl, rfl, rfl⟩
  | succ m ih =>
    obtain ⟨h1, h2, h3, h4⟩ := ih
    rw [Function.iterate_succ_apply']
    obtain ⟨f1, f2, f3, f4, -⟩ := readBit_frame cfg ((OWBReadBit cfg)^[m] s) (by simp [h1])
    exact ⟨by rw [f1, h1], by rw [f2, h2], by rw [f3, h3], by rw [f4, h4]⟩

/-- In SEARCH ROM a written bit equal to `CurrentByte & 1` moves the cursor on by one bit,
to bit 0 of the next byte after bit 7. -/
theorem writeBit_search_match (cfg : Config) (s : Vars) (i k : Nat)
    (hs : s.CurrentState = OWB_STATE_SEARCH_ROM) (hc : AtSearchCursor cfg s i k)
    (hi : i < 8) (hk : k < 8) :
    (k < 7 →
      (OWBWriteBit cfg { s with OWBLLCurrentBitValue := s.CurrentByte &&& 0x01 }).CurrentState =
        OWB_STATE_SEARCH_ROM ∧
      AtSearchCursor cfg
        (OWBWriteBit cfg { s with OWBLLCurrentBitValue := s.CurrentByte &&& 0x01 }) i (k + 1)) ∧
    (k = 7 → i < 7 →
      (OWBWriteBit cfg { s with OWBLLCurrentBitValue := s.CurrentByte &&& 0x01 }).CurrentState =
        OWB_STATE_SEARCH_ROM ∧
      AtSearchCursor cfg
        (OWBWriteBit cfg { s with OWBLLCurrentBitValue := s.CurrentByte &&& 0x01 }) (i + 1) 0) := by
  obtain ⟨hidx, hm, hby⟩ := hc
  refine ⟨fun hk7 => ?_, fun hk7 hi7 => ?_⟩
  · interval_cases k <;>
      simp [OWBWriteBit, hs, hby, hm, hidx, AtSearchCursor, switchToRead_frame,
        Nat.shiftRight_eq_div_pow] <;>
      omega
  · subst hk7
    have h1 : (i + 1) % 256 = i + 1 := by omega
    have h8 : ¬ (i + 1 = 8) := by omega
    simp [OWBWriteBit, hs, hby, hm, hidx, AtSearchCursor, switchToRead_frame,
        Nat.shiftRight_eq_div_pow, h1, h8]

/-- In SEARCH ROM, `n` matched bits, with any number of `OWBReadBit` calls before each, move
the cursor on by `n` bits. -/
theorem search_rom_advance (cfg : Config) (rounds : List Nat) (d : Vars) (p : Nat)
    (hs : d.CurrentState = OWB_STATE_SEARCH_ROM) (hc : AtSearchCursor cfg d (p / 8) (p % 8))
    (hn : p + rounds.length < 64) :
    (searchRounds cfg rounds d).CurrentState = OWB_STATE_SEARCH_ROM ∧
    AtSearchCursor cfg (searchRounds cfg rounds d)
      ((p + rounds.length) / 8) ((p + rounds.length) % 8) := by
  induction rounds generalizing d p with
  | nil => exact ⟨hs, hc⟩
  | cons r rs ih =>
    simp only [List.length_cons] at hn
    obtain ⟨q1, q2, q3, q4⟩ := readBit_iterate_search cfg d r hs
    have hc2 : AtSearchCursor cfg ((OWBReadBit cfg)^[r] d) (p / 8) (p % 8) := by
      obtain ⟨c1, c2, c3⟩ := hc
      exact ⟨by rw [q4, c1], by rw [q2, c2], by rw [q3, c3]⟩
    obtain ⟨w1, w2⟩ := writeBit_search_match cfg _ _ _ q1 hc2 (by omega) (by omega)
    have key : (OWBWriteBit cfg { (OWBReadBit cfg)^[r] d with
          OWBLLCurrentBitValue := ((OWBReadBit cfg)^[r] d).CurrentByte &&& 0x01 }).CurrentState =
          OWB_STATE_SEARCH_ROM ∧
        AtSearchCursor cfg (OWBWriteBit cfg { (OWBReadBit cfg)^[r] d with
          OWBLLCurrentBitValue := ((OWBReadBit cfg)^[r] d).CurrentByte &&& 0x01 })
          ((p + 1) / 8) ((p + 1) % 8) := by
      by_cases hk : p % 8 < 7
      · have e1 : (p + 1) / 8 = p / 8 := by omega
        have e2 : (p + 1) % 8 = p % 8 + 1 := by omega
        rw [e1, e2]; exact w1 hk
      · have e1 : (p + 1) / 8 = p / 8 + 1 := by omega
        have e2 : (p + 1) % 8 = 0 := by omega
        rw [e1, e2]; exact w2 (by omega) (by omega)
    have := ih _ (p + 1) key.1 key.2 (by omega)
    simp only [searchRounds, List.length_cons]
    have e : p + (rs.length + 1) = p + 1 + rs.length := by omega
    rw [e]
    exact this

/-- The eighth command bit completing 0x33 or 0xF0: the identifier starts at byte 0 with
the mask at the lowest bit; for READ ROM the switch to read mode prepares bit 0 at once,
unless the driver is in read mode already. -/
theorem writeBit_reset_dispatch (cfg : Config) (s : Vars) (b : Bool)
    (hs : s.CurrentState = OWB_STATE_RESET) (hm : s.CurrentBitValue = 128)
    (hB : s.CurrentByte < 128) (ho : s.OWBREADROMByteOffset = 0)
    (hi : s.OWBSEARCHROMCurrentByteIndex = 0) :
    (s.CurrentByte + 128 * b.toNat = 0xF0 →
      (OWBWriteBit cfg { s with OWBLLCurrentBitValue := b.toNat }).CurrentState =
        OWB_STATE_SEARCH_ROM ∧
      AtSearchCursor cfg (OWBWriteBit cfg { s with OWBLLCurrentBitValue := b.toNat }) 0 0) ∧
    (s.CurrentByte + 128 * b.toNat = 0x33 →
      (OWBWriteBit cfg { s with OWBLLCurrentBitValue := b.toNat }).CurrentState =
        OWB_STATE_READ_ROM ∧
      (s.flag OWB_STATE_FLAG_NEXT_IS_READ = true →
        AtReadCursor cfg (OWBWriteBit cfg { s with OWBLLCurrentBitValue := b.toNat }) 0 0) ∧
      (s.flag OWB_STATE_FLAG_NEXT_IS_READ = false →
        AtReadCursor cfg (OWBWriteBit cfg { s with OWBLLCurrentBitValue := b.toNat }) 0 1 ∧
        (OWBWriteBit cfg { s with OWBLLCurrentBitValue := b.toNat }).OWBLLCurrentBitValue =
          cfg.bit 0 0)) := by
  have hor : s.CurrentByte ||| 128 = s.CurrentByte + 128 := lor_two_pow_of_lt _ 7 hB
  refine ⟨fun hF0 => ?_, fun h33 => ?_⟩
  · have he : OWBWriteBit cfg { s with OWBLLCurrentBitValue := b.toNat } =
        OWBLLSwitchToRead cfg
          { s with OWBLLCurrentBitValue := b.toNat, CurrentState := OWB_STATE_SEARCH_ROM,
                   CurrentByte := cfg.rom 0, CurrentBitValue := 1 } := by
      cases b
      · have h2 : s.CurrentByte = 240 := by simpa using hF0
        simp [OWBWriteBit, hs, hm, h2]
      · have h2 : s.CurrentByte + 128 = 240 := by simpa using hF0
        simp [OWBWriteBit, hs, hm, hor, h2]
    rw [he]
    obtain ⟨f1, f2, f3, f4, -⟩ := switchToRead_frame cfg
      { s with OWBLLCurrentBitValue := b.toNat, CurrentState := OWB_STATE_SEARCH_ROM,
               CurrentByte := cfg.rom 0, CurrentBitValue := 1 } (by simp)
    exact ⟨f1, by rw [f4]; exact hi, by rw [f2]; rfl, by rw [f3]; simp⟩
  · have he : OWBWriteBit cfg { s with OWBLLCurrentBitValue := b.toNat } =
        OWBLLSwitchToRead cfg
          { s with OWBLLCurrentBitValue := b.toNat, CurrentState := OWB_STATE_READ_ROM,
                   CurrentByte := cfg.rom 0, CurrentBitValue := 1 } := by
      cases b
      · have h2 : s.CurrentByte = 51 := by simpa using h33
        simp [OWBWriteBit, hs, hm, h2]
      · simp at h33
    rw [he]
    have hc0 : AtReadCursor cfg
        ({ s with OWBLLCurrentBitValue := b.toNat, CurrentState := OWB_STATE_READ_ROM,
                  CurrentByte := cfg.rom 0, CurrentBitValue := 1 } : Vars) 0 0 :=
      ⟨ho, rfl, by simp⟩
    by_cases hr : s.OWBLLStateFlags.testBit 4 = true
    · have e2 : OWBLLSwitchToRead cfg
          { s with OWBLLCurrentBitValue := b.toNat, CurrentState := OWB_STATE_READ_ROM,
                   CurrentByte := cfg.rom 0, CurrentBitValue := 1 } =
          { s with OWBLLCurrentBitValue := b.toNat, CurrentState := OWB_STATE_READ_ROM,
                   CurrentByte := cfg.rom 0, CurrentBitValue := 1 } := by
        simp [OWBLLSwitchToRead, hr]
      rw [e2]
      exact ⟨rfl, fun _ => hc0, fun hf => by simp [hr] at hf⟩
    · have e2 : OWBLLSwitchToRead cfg
          { s with OWBLLCurrentBitValue := b.toNat, CurrentState := OWB_STATE_READ_ROM,
                   CurrentByte := cfg.rom 0, CurrentBitValue := 1 } =
          OWBLLSetupNextRead cfg
            (({ s with OWBLLCurrentBitValue := b.toNat, CurrentState := OWB_STATE_READ_ROM,
                       CurrentByte := cfg.rom 0, CurrentBitValue := 1 } : Vars).setFlag
              OWB_STATE_FLAG_NEXT_IS_READ) := by
        simp [OWBLLSwitchToRead, hr]
      rw [e2]
      obtain ⟨r1, -, r3, -, -⟩ := readBit_read_rom cfg
        (({ s with OWBLLCurrentBitValue := b.toNat, CurrentState := OWB_STATE_READ_ROM,
                   CurrentByte := cfg.rom 0, CurrentBitValue := 1 } : Vars).setFlag
          OWB_STATE_FLAG_NEXT_IS_READ) 0 0 rfl hc0 (by decide) (by decide)
      obtain ⟨r4, r5⟩ := r3 (by decide)
      simp only [AtReadCursor, setupNextRead_state, setupNextRead_offset, setupNextRead_mask,
        setupNextRead_byte, setupNextRead_bit]
      exact ⟨r4, fun hf => by simp [hr] at hf, fun _ => ⟨r5, r1⟩⟩

/-- C13, as amended: `OWBReset` puts the cursor mask at the lowest bit; and in every state
reached from the initial globals by `OWBReset`, `OWBWriteBit` (bit 0 or 1) and
`OWBReadBit` calls: in IDLE the mask is 0 or a single bit; in RESET, READ ROM and SEARCH
ROM the mask is `2 ^ k` with `k < 8`, and `k` counts the bits of the current byte handled
so far: each further command bit, each further `OWBReadBit` in READ ROM and each further
matched bit in SEARCH ROM moves the mask up by one position, and after bit 7 the next
identifier byte starts with the mask at the lowest bit again; the eighth command bit
starts the identifier at byte 0 with the mask at the lowest bit (READ ROM prepares bit 0
at once unless the driver is in read mode already). So the mask is 1 exactly when the
number of bits handled is a multiple of 8. -/
theorem C13_cursor_mask (cfg : Config) (calls : List EngineCall) :
    (∀ t : Vars, (OWBReset t).CurrentBitValue = 1) ∧
    ∀ s, s = engine cfg calls Vars.init →
      (s.CurrentState = OWB_STATE_IDLE →
        s.CurrentBitValue = 0 ∨ ∃ k < 8, s.CurrentBitValue = 2 ^ k) ∧
      (s.CurrentState = OWB_STATE_RESET →
        ∃ k < 8, s.CurrentBitValue = 2 ^ k ∧ s.CurrentByte < 2 ^ k ∧
          (∀ bits : List Bool, k + bits.length ≤ 7 →
            (writeBits cfg bits s).CurrentState = OWB_STATE_RESET ∧
            (writeBits cfg bits s).CurrentBitValue = 2 ^ (k + bits.length)) ∧
          (k = 7 → ∀ b : Bool,
            (s.CurrentByte + 128 * b.toNat = 0xF0 →
              (OWBWriteBit cfg { s with OWBLLCurrentBitValue := b.toNat }).CurrentState =
                OWB_STATE_SEARCH_ROM ∧
              AtSearchCursor cfg
                (OWBWriteBit cfg { s with OWBLLCurrentBitValue := b.toNat }) 0 0) ∧
            (s.CurrentByte + 128 * b.toNat = 0x33 →
              (OWBWriteBit cfg { s with OWBLLCurrentBitValue := b.toNat }).CurrentState =
                OWB_STATE_READ_ROM ∧
              (s.flag OWB_STATE_FLAG_NEXT_IS_READ = true →
                AtReadCursor cfg
                  (OWBWriteBit cfg { s with OWBLLCurrentBitValue := b.toNat }) 0 0) ∧
              (s.flag OWB_STATE_FLAG_NEXT_IS_READ = false →
                AtReadCursor cfg
                  (OWBWriteBit cfg { s with OWBLLCurrentBitValue := b.toNat }) 0 1 ∧
                (OWBWriteBit cfg { s with OWBLLCurrentBitValue := b.toNat }).OWBLLCurrentBitValue =
                  cfg.bit 0 0)))) ∧
      (s.CurrentState = OWB_STATE_READ_ROM →
        ∃ k < 8, s.OWBREADROMByteOffset < 8 ∧
          AtReadCursor cfg s s.OWBREADROMByteOffset k ∧
          ∀ n, 8 * s.OWBREADROMByteOffset + k + n < 64 →
            ((OWBReadBit cfg)^[n] s).CurrentState = OWB_STATE_READ_ROM ∧
            AtReadCursor cfg ((OWBReadBit cfg)^[n] s)
              ((8 * s.OWBREADROMByteOffset + k + n) / 8)
              ((8 * s.OWBREADROMByteOffset + k + n) % 8) ∧
            (((OWBReadBit cfg)^[n] s).CurrentBitValue = 1 ↔
              (8 * s.OWBREADROMByteOffset + k + n) % 8 = 0)) ∧
      (s.CurrentState = OWB_STATE_SEARCH_ROM →
        ∃ k < 8, s.OWBSEARCHROMCurrentByteIndex < 8 ∧
          AtSearchCursor cfg s s.OWBSEARCHROMCurrentByteIndex k ∧
          ∀ rounds : List Nat, 8 * s.OWBSEARCHROMCurrentByteIndex + k + rounds.length < 64 →
            (searchRounds cfg rounds s).CurrentState = OWB_STATE_SEARCH_ROM ∧
            AtSearchCursor cfg (searchRounds cfg rounds s)
              ((8 * s.OWBSEARCHROMCurrentByteIndex + k + rounds.length) / 8)
              ((8 * s.OWBSEARCHROMCurrentByteIndex + k + rounds.length) % 8) ∧
            ((searchRounds cfg rounds s).CurrentBitValue = 1 ↔
              (8 * s.OWBSEARCHROMCurrentByteIndex + k + rounds.length) % 8 = 0)) := by
  refine ⟨fun _ => rfl, fun s hs => ?_⟩
  have h := engine_cursorInv cfg calls Vars.init (cursorInv_init cfg)
  rw [← hs] at h
  clear hs
  have hpow : ∀ k : Nat, (2 ^ k = 1 ↔ k = 0) := fun k => by
    constructor
    · intro h2
      by_contra hk
      have : 2 ∣ 2 ^ k := dvd_pow_self 2 hk
      omega
    · rintro rfl; rfl
  refine ⟨fun hst => ?_, fun hst => ?_, fun hst => ?_, fun hst => ?_⟩ <;>
    simp only [CursorInv, hst] at h
  · exact h
  · obtain ⟨k, hk, hm, hB, ho, hi⟩ := h
    refine ⟨k, hk, hm, hB, fun bits hl => ?_, fun hk7 b => ?_⟩
    · obtain ⟨w1, w2, -⟩ := writeBits_below_eight cfg bits s k hst hm hB hl
      exact ⟨w1, w2⟩
    · subst hk7
      exact writeBit_reset_dispatch cfg s b hst hm hB ho hi
  · obtain ⟨k, hk, hi, hc⟩ := h
    refine ⟨k, hk, hi, hc, fun n hn => ?_⟩
    have e1 : (8 * s.OWBREADROMByteOffset + k) / 8 = s.OWBREADROMByteOffset := by omega
    have e2 : (8 * s.OWBREADROMByteOffset + k) % 8 = k := by omega
    obtain ⟨a1, a2⟩ := read_rom_advance cfg s (8 * s.OWBREADROMByteOffset + k) hst
      (by rw [e1, e2]; exact hc) n hn
    exact ⟨a1, a2, by rw [a2.2.1]; exact hpow _⟩
  · obtain ⟨k, hk, hi, hc⟩ := h
    refine ⟨k, hk, hi, hc, fun rounds hn => ?_⟩
    have e1 : (8 * s.OWBSEARCHROMCurrentByteIndex + k) / 8 = s.OWBSEARCHROMCurrentByteIndex := by
      omega
    have e2 : (8 * s.OWBSEARCHROMCurrentByteIndex + k) % 8 = k := by omega
    obtain ⟨a1, a2⟩ := search_rom_advance cfg rounds s (8 * s.OWBSEARCHROMCurrentByteIndex + k)
      hst (by rw [e1, e2]; exact hc) hn
    exact ⟨a1, a2, by rw [a2.2.1]; exact hpow _⟩

/-- C13 as stated fails: after a reset and the eight bits of the unknown command
byte 0x00, and likewise after a complete READ ROM (command 0x33, the first bit prepared
by the dispatch, 63 further `OWBReadBit` calls), the state is IDLE and the cursor mask
is 0, which has no bit set. -/
theorem C13_mask_without_bit :
    (engine demoConfig (commandCalls (List.replicate 8 false)) Vars.init).CurrentState =
      OWB_STATE_IDLE ∧
    (engine demoConfig (commandCalls (List.replicate 8 false)) Vars.init).CurrentBitValue = 0 ∧
    (∀ k, (engine demoConfig (commandCalls (List.replicate 8 false)) Vars.init).CurrentBitValue ≠
      2 ^ k) ∧
    (engine demoConfig
      (commandCalls [true, true, false, false, true, true, false, false] ++
        List.replicate 63 EngineCall.read) Vars.init).CurrentState = OWB_STATE_IDLE ∧
    (engine demoConfig
      (commandCalls [true, true, false, false, true, true, false, false] ++
        List.replicate 63 EngineCall.read) Vars.init).CurrentBitValue = 0 := by
  refine ⟨by decide, by decide, fun k => ?_, by decide, by decide⟩
  rw [show (engine demoConfig (commandCalls (List.replicate 8 false)) Vars.init).CurrentBitValue
    = 0 from by decide]
  exact (Nat.pos_pow_of_pos k (by decide)).ne

/-! ## Calls the engine ignores -/

/-- C12: whatever the state before, `OWBReset` leaves `CurrentState` at RESET, `CurrentByte`
at 0, the cursor mask `CurrentBitValue` at 1 and both byte indices at 0; the flags, the
READ0 flag and the pending bit value are not touched. -/
theorem C12_reset_state (s : Vars) :
    (OWBReset s).CurrentState = OWB_STATE_RESET ∧
    (OWBReset s).CurrentByte = 0 ∧
    (OWBReset s).CurrentBitValue = 1 ∧
    (OWBReset s).OWBREADROMByteOffset = 0 ∧
    (OWBReset s).OWBSEARCHROMCurrentByteIndex = 0 ∧
    (OWBReset s).OWBLLStateFlags = s.OWBLLStateFlags ∧
    (OWBReset s).OWBLLNextRead0INTRQFlag = s.OWBLLNextRead0INTRQFlag ∧
    (OWBReset s).OWBLLCurrentBitValue = s.OWBLLCurrentBitValue :=
  ⟨rfl, rfl, rfl, rfl, rfl, rfl, rfl, rfl⟩

/-- C14: in IDLE and in READ ROM `OWBWriteBit` returns the state it was given, whatever
the written bit: `CurrentState`, `CurrentByte`, the cursor mask, both byte indices, the
flags, the READ0 flag and the pending bit value all keep their values. -/
theorem C14_write_bit_ignored (cfg : Config) (s : Vars)
    (h : s.CurrentState = OWB_STATE_IDLE ∨ s.CurrentState = OWB_STATE_READ_ROM) :
    ∀ b : Nat, OWBWriteBit cfg { s with OWBLLCurrentBitValue := b } =
      { s with OWBLLCurrentBitValue := b } := by
  intro b
  exact writeBit_idle cfg { s with OWBLLCurrentBitValue := b } h

theorem writeSlot_bus (cfg : Config) (r : Run) : (writeSlot cfg r).bus = r.bus := by
  cases h : pollLine (OWB_TIMING_W0_0_MIN cfg) r.env with
  | none => simp [writeSlot, h, Run.spin]
  | some p =>
    obtain ⟨t, rest⟩ := p
    simp only [writeSlot, h]
    split
    · rfl
    · split <;> rfl

theorem classify_bus_of_no_read0 (cfg : Config) (s : Vars) (q : Nat) (env : List Sample)
    (h : s.OWBLLNextRead0INTRQFlag = 0) :
    (classify cfg (Run.start s q env)).bus = [] := by
  simp only [classify, Run.start, h, Nat.and_zero, ne_eq, not_true_eq_false, ite_false]
  split
  · split
    · exact (readSlot_run cfg _).2.2.2.1
    · exact writeSlot_bus cfg _
  · rfl

/-- C15: in IDLE and in RESET `OWBReadBit` sets the pending bit value to 1 and changes
nothing else, so `OWBLLSetupNextRead` leaves the READ0 flag at 0 and the handler entered
with the state so prepared does not touch the bus while it classifies the event. -/
theorem C15_read_bit_idle (cfg : Config) (s : Vars)
    (h : s.CurrentState = OWB_STATE_IDLE ∨ s.CurrentState = OWB_STATE_RESET) :
    OWBReadBit cfg s = { s with OWBLLCurrentBitValue := 1 } ∧
    OWBLLSetupNextRead cfg s =
      { s with OWBLLCurrentBitValue := 1, OWBLLNextRead0INTRQFlag := 0 } ∧
    ∀ q env, (classify cfg (Run.start (OWBLLSetupNextRead cfg s) q env)).bus = [] := by
  have h1 : OWBReadBit cfg s = { s with OWBLLCurrentBitValue := 1 } := by
    rcases h with h | h <;> simp [OWBReadBit, h, OWBLLSetReadValue]
  have h2 : OWBLLSetupNextRead cfg s =
      { s with OWBLLCurrentBitValue := 1, OWBLLNextRead0INTRQFlag := 0 } := by
    simp [OWBLLSetupNextRead, h1]
  refine ⟨h1, h2, fun q env => classify_bus_of_no_read0 cfg _ q env ?_⟩
  rw [h2]

/-! ## The timing table -/

theorem ticks_with_latency_clock (cfg : Config) (us m : Nat) :
    OWB_TIMING_US_TO_TICKS_WITH_LATENCY { cfg with F_CPU := m * 1000000 } us = us * m - 8 := by
  simp only [OWB_TIMING_US_TO_TICKS_WITH_LATENCY, OWB_TIMING_US_TO_TICKS,
    OWB_TIMING_LOW_TO_ISR_LATENCY_TICKS]
  rw [Nat.mul_div_cancel _ (by norm_num)]
  split_ifs <;> omega

theorem timingThresholds_clock (cfg : Config) (m : Nat) :
    timingThresholds { cfg with F_CPU := m * 1000000 } =
      [3 * m - 8, 30 * m - 8, 30 * m - 8, 200 * m - 8, 15 * m - 8, 150 * m - 8] := by
  simp only [timingThresholds, OWB_TIMING_W1_0_MIN, OWB_TIMING_W0_0_MIN, OWB_TIMING_R0_0,
    OWB_TIMING_RST_0_MIN, OWB_TIMING_RST_1, OWB_TIMING_RST_PP, ticks_with_latency_clock]

/-- C16: each threshold is its microsecond value (3, 30, 30, 200, 15, 150) times
`F_CPU / 1000000`, less the latency of 8 ticks, and 0 when the product is at most 8;
for the four supported clock rates this gives 0, 22, 22, 192, 7, 142 ticks at 1 MHz,
0, 52, 52, 392, 22, 292 at 2 MHz, 4, 112, 112, 792, 52, 592 at 4 MHz and
16, 232, 232, 1592, 112, 1192 at 8 MHz. -/
theorem C16_timing_thresholds (cfg : Config) :
    (∀ us, (us * (cfg.F_CPU / 1000000) ≤ 8 → OWB_TIMING_US_TO_TICKS_WITH_LATENCY cfg us = 0) ∧
      (8 < us * (cfg.F_CPU / 1000000) →
        OWB_TIMING_US_TO_TICKS_WITH_LATENCY cfg us + 8 = us * (cfg.F_CPU / 1000000))) ∧
    timingThresholds cfg =
      [3, 30, 30, 200, 15, 150].map (OWB_TIMING_US_TO_TICKS_WITH_LATENCY cfg) ∧
    timingThresholds { cfg with F_CPU := 1000000 } = [0, 22, 22, 192, 7, 142] ∧
    timingThresholds { cfg with F_CPU := 2000000 } = [0, 52, 52, 392, 22, 292] ∧
    timingThresholds { cfg with F_CPU := 4000000 } = [4, 112, 112, 792, 52, 592] ∧
    timingThresholds { cfg with F_CPU := 8000000 } = [16, 232, 232, 1592, 112, 1192] := by
  refine ⟨fun us => ⟨fun h => ?_, fun h => ?_⟩, rfl, timingThresholds_clock cfg 1,
    timingThresholds_clock cfg 2, timingThresholds_clock cfg 4, timingThresholds_clock cfg 8⟩
  · simp only [OWB_TIMING_US_TO_TICKS_WITH_LATENCY, OWB_TIMING_US_TO_TICKS,
      OWB_TIMING_LOW_TO_ISR_LATENCY_TICKS]
    rw [if_neg (by omega)]
  · simp only [OWB_TIMING_US_TO_TICKS_WITH_LATENCY, OWB_TIMING_US_TO_TICKS,
      OWB_TIMING_LOW_TO_ISR_LATENCY_TICKS]
    rw [if_pos (by omega)]; omega

/-! ## The lifetime of the state RESET and of IDLE -/

theorem readBit_state_reset (cfg : Config) (s : Vars) :
    (OWBReadBit cfg s).CurrentState = OWB_STATE_RESET ↔ s.CurrentState = OWB_STATE_RESET := by
  rcases state_cases s with h | h | h | h
  · simp [OWBReadBit, h, OWBLLSetReadValue]
  · simp [OWBReadBit, h, OWBLLSetReadValue]
  · simp only [OWBReadBit, h, OWBLLSetReadValue]
    split_ifs <;> simp
  · rw [(readBit_frame cfg s (by simp [h])).1]

theorem switchToRead_state_reset (cfg : Config) (s : Vars) :
    (OWBLLSwitchToRead cfg s).CurrentState = OWB_STATE_RESET ↔
      s.CurrentState = OWB_STATE_RESET := by
  by_cases hr : s.OWBLLStateFlags.testBit 4 = true
  · simp [OWBLLSwitchToRead, hr]
  · have := readBit_state_reset cfg (s.setFlag OWB_STATE_FLAG_NEXT_IS_READ)
    simpa [OWBLLSwitchToRead, hr, Vars.setFlag] using this

theorem writeBit_state_reset (cfg : Config) (s : Vars)
    (h : (OWBWriteBit cfg s).CurrentState = OWB_STATE_RESET) :
    s.CurrentState = OWB_STATE_RESET := by
  rcases state_cases s with hs | hs | hs | hs
  · rw [writeBit_idle cfg s (Or.inl hs)] at h; exact h
  · exact hs
  · rw [writeBit_idle cfg s (Or.inr hs)] at h; exact h
  · exfalso
    simp only [OWBWriteBit, hs] at h
    split_ifs at h <;> simp [switchToRead_state_reset] at h

theorem writeBit_reset_last (cfg : Config) (s : Vars)
    (hs : s.CurrentState = OWB_STATE_RESET) (hm : s.CurrentBitValue = 2 ^ 7) :
    (OWBWriteBit cfg s).CurrentState ≠ OWB_STATE_RESET := by
  have h0 : (2 ^ 7 <<< 1) % 256 = 0 := by decide
  simp only [OWBWriteBit, hs]
  split_ifs <;> simp_all [switchToRead_state_reset]

theorem readSlot_state_reset (cfg : Config) (r : Run)
    (h : (readSlot cfg r).vars.CurrentState = OWB_STATE_RESET) :
    r.vars.CurrentState = OWB_STATE_RESET := by
  by_cases hd : r.vars.OWBLLStateFlags.testBit 7 = true
  · simpa [readSlot, hd, OWBLLSwitchToWriteImmediately, Vars.setFlag, Vars.clearFlag] using h
  · have h2 : (OWBLLSetupNextRead cfg r.vars).CurrentState = OWB_STATE_RESET := by
      simpa [readSlot, hd, Vars.setFlag] using h
    rw [setupNextRead_state] at h2
    exact (readBit_state_reset cfg r.vars).mp h2

theorem read0_state_reset (cfg : Config) (r : Run)
    (h : (read0 cfg r).vars.CurrentState = OWB_STATE_RESET) :
    r.vars.CurrentState = OWB_STATE_RESET := by
  cases hw : OWBLLWaitForT16 (OWB_TIMING_R0_0 cfg) r.env with
  | none => simpa [read0, hw, Run.spin] using h
  | some rest =>
    simp only [read0, hw] at h
    exact readSlot_state_reset cfg
      { r with bus := r.bus ++ [BusOp.OWBLLSetLow] ++ [BusOp.OWBLLSetInput], env := rest } h

theorem writeSlot_state_reset (cfg : Config) (r : Run)
    (h : (writeSlot cfg r).vars.CurrentState = OWB_STATE_RESET) :
    r.vars.CurrentState = OWB_STATE_RESET := by
  cases hp : pollLine (OWB_TIMING_W0_0_MIN cfg) r.env with
  | none => simpa [writeSlot, hp, Run.spin] using h
  | some p =>
    obtain ⟨t, rest⟩ := p
    simp only [writeSlot, hp] at h
    split at h
    · exact writeBit_state_reset cfg { r.vars with OWBLLCurrentBitValue := 0 } h
    · split at h
      · exact writeBit_state_reset cfg { r.vars with OWBLLCurrentBitValue := 1 } h
      · exact h

theorem classify_state_reset (cfg : Config) (r : Run)
    (h : (classify cfg r).vars.CurrentState = OWB_STATE_RESET) :
    r.vars.CurrentState = OWB_STATE_RESET := by
  unfold classify at h
  split at h
  · split at h
    · split at h
      · exact h
      · split at h
        · exact h
        · rename_i x rest _ _
          exact read0_state_reset cfg { r with env := rest } h
    · exact read0_state_reset cfg r h
  · split at h
    · split at h
      · exact readSlot_state_reset cfg r h
      · exact writeSlot_state_reset cfg r h
    · exact h

/-- The second part of the handler moves `CurrentState` only by calling `OWBReset`. -/
theorem finalize_state (cfg : Config) (c : Run) :
    (finalize cfg c).vars.CurrentState = c.vars.CurrentState ∨
    Call.OWBReset ∈ (finalize cfg c).calls := by
  by_cases hirq : c.INTRQ &&& cfg.OWB_LOW_DETECT_IRQ_FLAG ≠ 0
  · simp only [finalize, hirq, ne_eq, not_false_eq_true, if_true]
    by_cases hm : c.vars.OWBLLStateFlags.testBit 5 = true
    · cases hp : pollLine (OWB_TIMING_RST_0_MIN cfg) c.env with
      | none => simp [clearIRQ, hm, hp, Run.spin]
      | some p =>
        obtain ⟨t, rest⟩ := p
        simp only [clearIRQ, flag_32, OWB_STATE_FLAG_MIGHT_BE_RST, hm, hp, if_true]
        split
        · right
          split <;> simp [resetSequence_calls]
        · left
          split <;> rfl
    · left
      simp only [clearIRQ, flag_32, OWB_STATE_FLAG_MIGHT_BE_RST, hm, if_false,
        Bool.false_eq_true]
      split <;> rfl
  · left
    simp [finalize, hirq]

theorem interrupt_state_reset (cfg : Config) (s : Vars) (q : Nat) (env : List Sample)
    (h : (interrupt cfg s q env).vars.CurrentState = OWB_STATE_RESET) :
    s.CurrentState = OWB_STATE_RESET ∨ Call.OWBReset ∈ (interrupt cfg s q env).calls := by
  simp only [interrupt] at h ⊢
  split at h
  · rename_i hex
    simp only [hex, if_true]
    rcases finalize_state cfg (classify cfg (Run.start s q env)) with hf | hf
    · left
      rw [hf] at h
      exact classify_state_reset cfg _ h
    · exact Or.inr hf
  · left
    exact classify_state_reset cfg _ h

/-- C17: neither `OWBWriteBit` nor `OWBReadBit` takes a state other than RESET into RESET,
and the handler leaves a state other than RESET in RESET only in a run that calls
`OWBReset`; `OWBReadBit` keeps RESET; after `OWBReset` the state is still RESET after
each of the first seven written bits and no longer RESET after the eighth. -/
theorem C17_reset_state_lifetime (cfg : Config) (s : Vars) :
    (s.CurrentState ≠ OWB_STATE_RESET →
      (∀ b : Nat, (OWBWriteBit cfg { s with OWBLLCurrentBitValue := b }).CurrentState ≠
        OWB_STATE_RESET) ∧
      (OWBReadBit cfg s).CurrentState ≠ OWB_STATE_RESET ∧
      ∀ q env, (interrupt cfg s q env).vars.CurrentState = OWB_STATE_RESET →
        Call.OWBReset ∈ (interrupt cfg s q env).calls) ∧
    (s.CurrentState = OWB_STATE_RESET → (OWBReadBit cfg s).CurrentState = OWB_STATE_RESET) ∧
    (∀ bits : List Bool, bits.length = 8 →
      (∀ k ≤ 7, (writeBits cfg (bits.take k) (OWBReset s)).CurrentState = OWB_STATE_RESET) ∧
      (writeBits cfg bits (OWBReset s)).CurrentState ≠ OWB_STATE_RESET) := by
  refine ⟨fun hs => ⟨fun b hb => ?_, fun hr => ?_, fun q env h => ?_⟩, fun hs => ?_,
    fun bits hlen => ⟨fun k hk => ?_, ?_⟩⟩
  · exact hs (writeBit_state_reset cfg { s with OWBLLCurrentBitValue := b } hb)
  · exact hs ((readBit_state_reset cfg s).mp hr)
  · rcases interrupt_state_reset cfg s q env h with h1 | h1
    · exact absurd h1 hs
    · exact h1
  · exact (readBit_state_reset cfg s).mpr hs
  · have hl : (bits.take k).length = k := by simp [hlen]; omega
    exact (writeBits_below_eight cfg (bits.take k) (OWBReset s) 0 rfl rfl
      (by simp [OWBReset]) (by omega)).1
  · obtain ⟨pre, b, rfl, hpl, -⟩ := exists_snoc_of_length_eight bits hlen
    obtain ⟨h1, h2, -⟩ := writeBits_below_eight cfg pre (OWBReset s) 0 rfl rfl
      (by simp [OWBReset]) (by omega)
    rw [writeBits_snoc]
    apply writeBit_reset_last
    · exact h1
    · simpa [hpl] using h2

theorem readBit_state_idle (cfg : Config) (s : Vars) (h : s.CurrentState = OWB_STATE_IDLE) :
    (OWBReadBit cfg s).CurrentState = OWB_STATE_IDLE := by
  rw [(readBit_frame cfg s (by simp [h])).1, h]

theorem engine_state_idle (cfg : Config) (calls : List EngineCall) (s : Vars)
    (h : s.CurrentState = OWB_STATE_IDLE) (hc : EngineCall.reset ∉ calls) :
    (engine cfg calls s).CurrentState = OWB_STATE_IDLE := by
  induction calls generalizing s with
  | nil => exact h
  | cons c cs ih =>
    simp only [List.mem_cons, not_or] at hc
    apply ih _ _ hc.2
    cases c with
    | reset => exact absurd rfl hc.1
    | write bit =>
      simp only [EngineCall.run]
      rw [writeBit_idle cfg { s with OWBLLCurrentBitValue := bit.toNat } (Or.inl h)]
      exact h
    | read => exact readBit_state_idle cfg s h

theorem readSlot_state_idle (cfg : Config) (r : Run)
    (h : r.vars.CurrentState = OWB_STATE_IDLE) :
    (readSlot cfg r).vars.CurrentState = OWB_STATE_IDLE := by
  by_cases hd : r.vars.OWBLLStateFlags.testBit 7 = true
  · simpa [readSlot, hd, OWBLLSwitchToWriteImmediately, Vars.setFlag, Vars.clearFlag] using h
  · have h2 : (OWBLLSetupNextRead cfg r.vars).CurrentState = OWB_STATE_IDLE := by
      rw [setupNextRead_state]; exact readBit_state_idle cfg r.vars h
    simpa [readSlot, hd, Vars.setFlag] using h2

theorem read0_state_idle (cfg : Config) (r : Run)
    (h : r.vars.CurrentState = OWB_STATE_IDLE) :
    (read0 cfg r).vars.CurrentState = OWB_STATE_IDLE := by
  cases hw : OWBLLWaitForT16 (OWB_TIMING_R0_0 cfg) r.env with
  | none => simpa [read0, hw, Run.spin] using h
  | some rest =>
    simp only [read0, hw]
    exact readSlot_state_idle cfg
      { r with bus := r.bus ++ [BusOp.OWBLLSetLow] ++ [BusOp.OWBLLSetInput], env := rest } h

theorem writeSlot_state_idle (cfg : Config) (r : Run)
    (h : r.vars.CurrentState = OWB_STATE_IDLE) :
    (writeSlot cfg r).vars.CurrentState = OWB_STATE_IDLE := by
  cases hp : pollLine (OWB_TIMING_W0_0_MIN cfg) r.env with
  | none => simpa [writeSlot, hp, Run.spin] using h
  | some p =>
    obtain ⟨t, rest⟩ := p
    simp only [writeSlot, hp]
    split
    · simp only [Vars.setFlag]
      rw [writeBit_idle cfg { r.vars with OWBLLCurrentBitValue := 0 } (Or.inl h)]
      exact h
    · split
      · simp only []
        rw [writeBit_idle cfg { r.vars with OWBLLCurrentBitValue := 1 } (Or.inl h)]
        exact h
      · exact h

theorem classify_state_idle (cfg : Config) (r : Run)
    (h : r.vars.CurrentState = OWB_STATE_IDLE) :
    (classify cfg r).vars.CurrentState = OWB_STATE_IDLE := by
  unfold classify
  split
  · split
    · split
      · exact h
      · split
        · exact h
        · rename_i x rest _ _
          exact read0_state_idle cfg { r with env := rest } h
    · exact read0_state_idle cfg r h
  · split
    · split
      · exact readSlot_state_idle cfg r h
      · exact writeSlot_state_idle cfg r h
    · exact h

theorem interrupt_state_idle (cfg : Config) (s : Vars) (q : Nat) (env : List Sample)
    (h : s.CurrentState = OWB_STATE_IDLE) :
    (interrupt cfg s q env).vars.CurrentState = OWB_STATE_IDLE ∨
    Call.OWBReset ∈ (interrupt cfg s q env).calls := by
  have hc := classify_state_idle cfg (Run.start s q env) h
  simp only [interrupt]
  split
  · rcases finalize_state cfg (classify cfg (Run.start s q env)) with hf | hf
    · left; rw [hf]; exact hc
    · exact Or.inr hf
  · exact Or.inl hc

theorem writeBit_reset_unknown (cfg : Config) (s : Vars) (b : Bool)
    (hs : s.CurrentState = OWB_STATE_RESET) (hm : s.CurrentBitValue = 128)
    (hB : s.CurrentByte < 128)
    (h33 : s.CurrentByte + 128 * b.toNat ≠ 0x33)
    (hF0 : s.CurrentByte + 128 * b.toNat ≠ 0xF0) :
    OWBWriteBit cfg { s with OWBLLCurrentBitValue := b.toNat } =
      { s with OWBLLCurrentBitValue := b.toNat
               CurrentByte := s.CurrentByte + 128 * b.toNat
               CurrentBitValue := 0
               CurrentState := OWB_STATE_IDLE } := by
  have hor : s.CurrentByte ||| 128 = s.CurrentByte + 128 := lor_two_pow_of_lt _ 7 hB
  cases b
  · have h1 : ¬ s.CurrentByte = 51 := by simpa using h33
    have h2 : ¬ s.CurrentByte = 240 := by simpa using hF0
    simp [OWBWriteBit, hs, hm, h1, h2]
  · have h1 : ¬ s.CurrentByte + 128 = 51 := by omega
    have h2 : ¬ s.CurrentByte + 128 = 240 := by simpa using hF0
    simp [OWBWriteBit, hs, hm, hor, h1, h2]

/-- C11: after a reset, eight written bits whose value is neither 0x33 nor 0xF0 leave the
state RESET up to the seventh bit and IDLE after the eighth; the eighth bit changes
neither the flags nor the READ0 flag (no switch to read mode) and the pending bit value
is the bit just written (no bit is prepared); from then on every sequence of
`OWBWriteBit` and `OWBReadBit` calls without `OWBReset`, and every run of the handler
that does not call `OWBReset`, keeps the state IDLE. -/
theorem C11_unknown_command (cfg : Config) (s : Vars) (bits : List Bool)
    (hlen : bits.length = 8) (hs : s.CurrentState = OWB_STATE_RESET)
    (hB : s.CurrentByte = 0) (hm : s.CurrentBitValue = 1)
    (h33 : byteOfBits bits ≠ 0x33) (hF0 : byteOfBits bits ≠ 0xF0) :
    (writeBits cfg (bits.take 7) s).CurrentState = OWB_STATE_RESET ∧
    writeBits cfg bits s =
      { s with OWBLLCurrentBitValue := (bits.getD 7 false).toNat
               CurrentByte := byteOfBits bits
               CurrentBitValue := 0
               CurrentState := OWB_STATE_IDLE } ∧
    (∀ calls, EngineCall.reset ∉ calls →
      (engine cfg calls (writeBits cfg bits s)).CurrentState = OWB_STATE_IDLE) ∧
    (∀ q env, Call.OWBReset ∉ (interrupt cfg (writeBits cfg bits s) q env).calls →
      (interrupt cfg (writeBits cfg bits s) q env).vars.CurrentState = OWB_STATE_IDLE) := by
  have hm0 : s.CurrentBitValue = 2 ^ 0 := by simp [hm]
  have hB0 : s.CurrentByte < 2 ^ 0 := by simp [hB]
  obtain ⟨pre, b, rfl, hpl, htake⟩ := exists_snoc_of_length_eight bits hlen
  obtain ⟨h1, h2, h3, h4, h5, h6, h7⟩ :=
    writeBits_below_eight cfg pre s 0 hs hm0 hB0 (by omega)
  simp only [hpl, hB, Nat.zero_add, pow_zero, Nat.one_mul] at h2 h3
  have hlt := byteOfBits_lt pre
  rw [hpl] at hlt
  have hbyte : byteOfBits (pre ++ [b]) = byteOfBits pre + 128 * b.toNat := by
    rw [byteOfBits_append, hpl]; rfl
  have hget : (pre ++ [b]).getD 7 false = b := by
    rw [List.getD_eq_getElem?_getD, List.getElem?_append_right (by omega)]
    simp [hpl]
  have hfin : writeBits cfg (pre ++ [b]) s =
      { s with OWBLLCurrentBitValue := b.toNat
               CurrentByte := byteOfBits (pre ++ [b])
               CurrentBitValue := 0
               CurrentState := OWB_STATE_IDLE } := by
    rw [writeBits_snoc, writeBit_reset_unknown cfg (writeBits cfg pre s) b h1
      (by rw [h2]; rfl) (by rw [h3]; exact hlt) (by rw [h3, ← hbyte]; exact h33)
      (by rw [h3, ← hbyte]; exact hF0), h3, ← hbyte, h4, h5, h6, h7]
  have hidle : (writeBits cfg (pre ++ [b]) s).CurrentState = OWB_STATE_IDLE := by rw [hfin]
  refine ⟨?_, ?_, fun calls hc => engine_state_idle cfg calls _ hidle hc, fun q env hc => ?_⟩
  · rw [← htake]; exact h1
  · rw [hget]; exact hfin
  · rcases interrupt_state_idle cfg _ q env hidle with h | h
    · exact h
    · exact absurd h hc

/-! ## The fast-path test and the deferred switch to write mode -/

theorem entryInv_test (cfg : Config) (s : Vars) (q : Nat) (h : EntryInv cfg s) :
    (q &&& s.OWBLLNextRead0INTRQFlag ≠ 0) ↔ unoptimisedRead0Test cfg s q = true := by
  obtain ⟨-, -, hf⟩ := h
  rw [hf]
  by_cases hc : s.flag OWB_STATE_FLAG_NEXT_IS_READ = true ∧ s.OWBLLCurrentBitValue = 0
  · rw [if_pos hc]
    simp only [unoptimisedRead0Test, hc.1, hc.2, Bool.and_true, beq_self_eq_true, ne_eq,
      bne_iff_ne]
  · rw [if_neg hc]
    simp only [unoptimisedRead0Test, Nat.and_zero, ne_eq, not_true_eq_false, false_iff,
      Bool.and_eq_true, bne_iff_ne, beq_iff_eq, not_and]
    intro h1 h2
    exact hc ⟨h1.2, h2⟩

/-- C19: between two runs of the handler `OWBLLNextRead0INTRQFlag` is
`OWB_LOW_DETECT_IRQ_FLAG` if and only if `NEXT_IS_READ` is set and the pending bit value
is 0, and it is 0 otherwise; so the test `INTRQ & OWBLLNextRead0INTRQFlag` holds exactly
when the unoptimised test holds, and the classification takes the same branch with
either test. The flag constant is a non-zero mask. -/
theorem C19_fast_path_test (cfg : Config) (s : Vars) (h : Reachable cfg s)
    (hflag : cfg.OWB_LOW_DETECT_IRQ_FLAG ≠ 0) :
    (s.OWBLLNextRead0INTRQFlag = cfg.OWB_LOW_DETECT_IRQ_FLAG ↔
      s.flag OWB_STATE_FLAG_NEXT_IS_READ = true ∧ s.OWBLLCurrentBitValue = 0) ∧
    (¬ (s.flag OWB_STATE_FLAG_NEXT_IS_READ = true ∧ s.OWBLLCurrentBitValue = 0) →
      s.OWBLLNextRead0INTRQFlag = 0) ∧
    ∀ q env,
      ((q &&& s.OWBLLNextRead0INTRQFlag ≠ 0) ↔ unoptimisedRead0Test cfg s q = true) ∧
      classify cfg (Run.start s q env) = classifyUnoptimised cfg (Run.start s q env) := by
  have hinv := reachable_entryInv cfg s h
  have hf := hinv.2.2
  refine ⟨?_, ?_, fun q env => ?_⟩
  · by_cases hc : s.flag OWB_STATE_FLAG_NEXT_IS_READ = true ∧ s.OWBLLCurrentBitValue = 0
    · rw [hf, if_pos hc]
      exact ⟨fun _ => hc, fun _ => rfl⟩
    · rw [hf, if_neg hc]
      exact ⟨fun h0 => absurd h0.symm hflag, fun h1 => absurd h1 hc⟩
  · intro hc
    rw [hf, if_neg hc]
  · have ht := entryInv_test cfg s q hinv
    refine ⟨ht, ?_⟩
    by_cases hq : q &&& s.OWBLLNextRead0INTRQFlag ≠ 0
    · have hu := ht.mp hq
      simp only [classify, classifyUnoptimised, Run.start]
      rw [if_pos hq, if_pos hu]
    · have hu : unoptimisedRead0Test cfg s q = false := by
        rw [← Bool.not_eq_true]; exact fun h1 => hq (ht.mpr h1)
      simp only [classify, classifyUnoptimised, Run.start]
      rw [if_neg hq, hu]
      rfl

theorem setFlag_clearFlag_32 (s : Vars) (h : s.OWBLLStateFlags < 256)
    (hm : s.OWBLLStateFlags.testBit 5 = false) :
    (s.setFlag OWB_STATE_FLAG_MIGHT_BE_RST).clearFlag OWB_STATE_FLAG_MIGHT_BE_RST = s := by
  have : (s.OWBLLStateFlags ||| 32) &&& (0xFF ^^^ 32) = s.OWBLLStateFlags := by
    apply Nat.eq_of_testBit_eq
    intro j
    rw [Nat.testBit_and, Nat.testBit_or]
    by_cases hj : j < 8
    · by_cases h5 : 5 = j
      · subst h5; simp [hm]
      · simp [hj, h5]
    · have : s.OWBLLStateFlags.testBit j = false :=
        Nat.testBit_lt_two_pow (Nat.lt_of_lt_of_le (show s.OWBLLStateFlags < 2 ^ 8 from h)
          (Nat.pow_le_pow_right (show 0 < 2 by decide) (Nat.le_of_not_lt hj)))
      simp [this, hj]
  cases s
  simp only [Vars.clearFlag, Vars.setFlag, OWB_STATE_FLAG_MIGHT_BE_RST] at this ⊢
  simp only [this]

/-- A run of the second part of the handler that returns without calling `OWBReset`
clears `MIGHT_BE_RST` and leaves the other globals and the calls alone. -/
theorem finalize_no_reset (cfg : Config) (c : Run)
    (hirq : c.INTRQ &&& cfg.OWB_LOW_DETECT_IRQ_FLAG ≠ 0)
    (hx : (finalize cfg c).exited = true) (hc : Call.OWBReset ∉ (finalize cfg c).calls) :
    (finalize cfg c).vars = c.vars.clearFlag OWB_STATE_FLAG_MIGHT_BE_RST ∧
    (finalize cfg c).calls = c.calls ∧ (finalize cfg c).bus = c.bus := by
  simp only [finalize, hirq, ne_eq, not_false_eq_true, if_true] at hx hc ⊢
  by_cases hm : c.vars.OWBLLStateFlags.testBit 5 = true
  · cases hp : pollLine (OWB_TIMING_RST_0_MIN cfg) c.env with
    | none => simp [clearIRQ, hm, hp, Run.spin] at hx
    | some p =>
      obtain ⟨t, rest⟩ := p
      simp only [clearIRQ, flag_32, OWB_STATE_FLAG_MIGHT_BE_RST, hm, hp, if_true] at hx hc ⊢
      split at hc
      · exfalso
        apply hc
        split <;> simp [resetSequence_calls]
      · rename_i hno
        simp only [hno, if_false] at hx ⊢
        by_cases hex : c.exited = true
        · simp [hex]
        · simp [hex] at hx
  · simp only [clearIRQ, flag_32, OWB_STATE_FLAG_MIGHT_BE_RST, hm, if_false,
      Bool.false_eq_true] at hx hc ⊢
    by_cases hex : c.exited = true
    · simp [hex]
    · simp [hex] at hx

theorem switchToWriteImmediately_flags (s : Vars) :
    (OWBLLSwitchToWriteImmediately s).OWBLLStateFlags.testBit 4 = false ∧
    (OWBLLSwitchToWriteImmediately s).OWBLLStateFlags.testBit 7 = false ∧
    (OWBLLSwitchToWriteImmediately s).OWBLLStateFlags.testBit 1 = s.OWBLLStateFlags.testBit 1 ∧
    (OWBLLSwitchToWriteImmediately s).OWBLLStateFlags.testBit 5 = s.OWBLLStateFlags.testBit 5 ∧
    (OWBLLSwitchToWriteImmediately s).OWBLLStateFlags.testBit 6 =
      s.OWBLLStateFlags.testBit 6 := by
  simp [OWBLLSwitchToWriteImmediately, Vars.clearFlag]

/-- C20: entered between two runs with `NEXT_IS_READ` and `DELAYED_SWITCH_TO_WRITE` set and
the request pending, the handler takes the fast path exactly when the pending bit value
is 0; a READ1, and a READ0 whose LOW pulse is not dropped by the glitch test and is
extended to the R0 time, is classified without any engine call, the only change being
`OWBLLSwitchToWriteImmediately()` and `MIGHT_BE_RST`; a run that returns without
`OWBReset` and did not drop the pulse leaves exactly the globals of
`OWBLLSwitchToWriteImmediately()`: state, cursor, byte indices, pending bit value and
`SEARCH_ROM_INVERT` as before, `NEXT_IS_READ`, `DELAYED_SWITCH_TO_WRITE` and the READ0
flag clear; the next event with the request pending goes to the write branch. -/
theorem C20_deferred_switch (cfg : Config) (s : Vars) (q : Nat) (env : List Sample)
    (hreach : Reachable cfg s) (hirq : q &&& cfg.OWB_LOW_DETECT_IRQ_FLAG ≠ 0)
    (hr : s.flag OWB_STATE_FLAG_NEXT_IS_READ = true)
    (hd : s.flag OWB_STATE_FLAG_DELAYED_SWITCH_TO_WRITE = true) :
    ((q &&& s.OWBLLNextRead0INTRQFlag ≠ 0) ↔ s.OWBLLCurrentBitValue = 0) ∧
    (s.OWBLLCurrentBitValue ≠ 0 →
      classify cfg (Run.start s q env) =
        { Run.start s q env with
          vars := (OWBLLSwitchToWriteImmediately s).setFlag OWB_STATE_FLAG_MIGHT_BE_RST }) ∧
    (s.OWBLLCurrentBitValue = 0 → cfg.OWB_SKIP_SHORT_PULSES = false →
      ∀ rest, OWBLLWaitForT16 (OWB_TIMING_R0_0 cfg) env = some rest →
        classify cfg (Run.start s q env) =
          { vars := (OWBLLSwitchToWriteImmediately s).setFlag OWB_STATE_FLAG_MIGHT_BE_RST
            INTRQ := q
            calls := []
            bus := [BusOp.OWBLLSetLow, BusOp.OWBLLSetInput]
            env := rest
            exited := true }) ∧
    (s.OWBLLCurrentBitValue = 0 → cfg.OWB_SKIP_SHORT_PULSES = true →
      ∀ x xs rest, env = x :: xs → x.high = false →
        OWBLLWaitForT16 (OWB_TIMING_R0_0 cfg) xs = some rest →
        classify cfg (Run.start s q env) =
          { vars := (OWBLLSwitchToWriteImmediately s).setFlag OWB_STATE_FLAG_MIGHT_BE_RST
            INTRQ := q
            calls := []
            bus := [BusOp.OWBLLSetLow, BusOp.OWBLLSetInput]
            env := rest
            exited := true }) ∧
    ((interrupt cfg s q env).exited = true →
      Call.OWBReset ∉ (interrupt cfg s q env).calls →
      ¬ (cfg.OWB_SKIP_SHORT_PULSES = true ∧ s.OWBLLCurrentBitValue = 0 ∧
          ∃ x xs, env = x :: xs ∧ x.high = true) →
      (interrupt cfg s q env).vars = OWBLLSwitchToWriteImmediately s ∧
      (interrupt cfg s q env).calls = [] ∧
      (BusOp.OWBLLSetLow ∈ (interrupt cfg s q env).bus ↔ s.OWBLLCurrentBitValue = 0)) ∧
    ((OWBLLSwitchToWriteImmediately s).CurrentState = s.CurrentState ∧
      (OWBLLSwitchToWriteImmediately s).CurrentByte = s.CurrentByte ∧
      (OWBLLSwitchToWriteImmediately s).CurrentBitValue = s.CurrentBitValue ∧
      (OWBLLSwitchToWriteImmediately s).OWBREADROMByteOffset = s.OWBREADROMByteOffset ∧
      (OWBLLSwitchToWriteImmediately s).OWBSEARCHROMCurrentByteIndex =
        s.OWBSEARCHROMCurrentByteIndex ∧
      (OWBLLSwitchToWriteImmediately s).OWBLLCurrentBitValue = s.OWBLLCurrentBitValue ∧
      (OWBLLSwitchToWriteImmediately s).flag OWB_STATE_FLAG_SEARCH_ROM_INVERT =
        s.flag OWB_STATE_FLAG_SEARCH_ROM_INVERT ∧
      (OWBLLSwitchToWriteImmediately s).flag OWB_STATE_FLAG_NEXT_IS_READ = false ∧
      (OWBLLSwitchToWriteImmediately s).flag OWB_STATE_FLAG_DELAYED_SWITCH_TO_WRITE = false ∧
      (OWBLLSwitchToWriteImmediately s).OWBLLNextRead0INTRQFlag = 0) ∧
    (∀ q2 env2, q2 &&& cfg.OWB_LOW_DETECT_IRQ_FLAG ≠ 0 →
      classify cfg (Run.start (OWBLLSwitchToWriteImmediately s) q2 env2) =
        writeSlot cfg (Run.start (OWBLLSwitchToWriteImmediately s) q2 env2)) := by
  obtain ⟨hlt, hmbr, hf⟩ := reachable_entryInv cfg s hreach
  have hr4 : s.OWBLLStateFlags.testBit 4 = true := by simpa using hr
  have hd7 : s.OWBLLStateFlags.testBit 7 = true := by simpa using hd
  have hfast : (q &&& s.OWBLLNextRead0INTRQFlag ≠ 0) ↔ s.OWBLLCurrentBitValue = 0 := by
    rw [hf]
    by_cases hb : s.OWBLLCurrentBitValue = 0
    · simpa [hr4, hb] using hirq
    · simp [hb]
  have hrs : ∀ r : Run, r.vars = s → readSlot cfg r =
      { r with vars := (OWBLLSwitchToWriteImmediately s).setFlag OWB_STATE_FLAG_MIGHT_BE_RST } := by
    intro r hrv
    simp [readSlot, hrv, hd7]
  have c1 : s.OWBLLCurrentBitValue ≠ 0 →
      classify cfg (Run.start s q env) =
        { Run.start s q env with
          vars := (OWBLLSwitchToWriteImmediately s).setFlag OWB_STATE_FLAG_MIGHT_BE_RST } := by
    intro hb
    have hq : ¬ (q &&& s.OWBLLNextRead0INTRQFlag ≠ 0) := fun h => hb (hfast.mp h)
    simp only [classify, Run.start]
    rw [if_neg hq, if_pos hirq, if_pos hr]
    exact hrs _ rfl
  have c2 : s.OWBLLCurrentBitValue = 0 → cfg.OWB_SKIP_SHORT_PULSES = false →
      ∀ rest, OWBLLWaitForT16 (OWB_TIMING_R0_0 cfg) env = some rest →
        classify cfg (Run.start s q env) =
          { vars := (OWBLLSwitchToWriteImmediately s).setFlag OWB_STATE_FLAG_MIGHT_BE_RST
            INTRQ := q
            calls := []
            bus := [BusOp.OWBLLSetLow, BusOp.OWBLLSetInput]
            env := rest
            exited := true } := by
    intro hb hskip rest hw
    simp only [classify, Run.start]
    rw [if_pos (hfast.mpr hb)]
    simp only [hskip, Bool.false_eq_true, if_false, read0, hw]
    exact hrs _ rfl
  have c3 : s.OWBLLCurrentBitValue = 0 → cfg.OWB_SKIP_SHORT_PULSES = true →
      ∀ x xs rest, env = x :: xs → x.high = false →
        OWBLLWaitForT16 (OWB_TIMING_R0_0 cfg) xs = some rest →
        classify cfg (Run.start s q env) =
          { vars := (OWBLLSwitchToWriteImmediately s).setFlag OWB_STATE_FLAG_MIGHT_BE_RST
            INTRQ := q
            calls := []
            bus := [BusOp.OWBLLSetLow, BusOp.OWBLLSetInput]
            env := rest
            exited := true } := by
    intro hb hskip x xs rest he hx hw
    subst he
    simp only [classify, Run.start]
    rw [if_pos (hfast.mpr hb)]
    simp only [hskip, if_true, hx, Bool.false_eq_true, if_false, read0, hw]
    exact hrs _ rfl
  have hswi := switchToWriteImmediately_flags s
  have hback : ((OWBLLSwitchToWriteImmediately s).setFlag
      OWB_STATE_FLAG_MIGHT_BE_RST).clearFlag OWB_STATE_FLAG_MIGHT_BE_RST =
      OWBLLSwitchToWriteImmediately s :=
    setFlag_clearFlag_32 _ (flagsLt_switchToWriteImmediately s hlt)
      (by rw [hswi.2.2.2.1]; simpa using hmbr)
  have key : ∀ c : Run, classify cfg (Run.start s q env) = c →
      c.vars = (OWBLLSwitchToWriteImmediately s).setFlag OWB_STATE_FLAG_MIGHT_BE_RST →
      c.calls = [] → c.INTRQ = q → c.exited = true →
      (interrupt cfg s q env).exited = true →
      Call.OWBReset ∉ (interrupt cfg s q env).calls →
      (interrupt cfg s q env).vars = OWBLLSwitchToWriteImmediately s ∧
      (interrupt cfg s q env).calls = [] ∧
      (interrupt cfg s q env).bus = c.bus := by
    intro c hcl hv hcalls hq hex hx hc
    simp only [interrupt, hcl, hex, if_true] at hx hc ⊢
    obtain ⟨f1, f2, f3⟩ := finalize_no_reset cfg c (by rw [hq]; exact hirq) hx hc
    exact ⟨by rw [f1, hv, hback], by rw [f2, hcalls], f3⟩
  have hspin : ∀ r : Run, classify cfg (Run.start s q env) = r.spin →
      (interrupt cfg s q env).exited = true → False := by
    intro r hcl hx
    simp [interrupt, hcl, Run.spin] at hx
  refine ⟨hfast, c1, c2, c3, fun hx hc hnd => ?_, ?_, fun q2 env2 hq2 => ?_⟩
  · by_cases hb : s.OWBLLCurrentBitValue = 0
    · by_cases hskip : cfg.OWB_SKIP_SHORT_PULSES = true
      · cases env with
        | nil =>
          exfalso
          refine hspin (Run.start s q []) ?_ hx
          simp only [classify, Run.start]
          rw [if_pos (hfast.mpr hb)]
          simp [hskip]
        | cons x xs =>
          by_cases hh : x.high = true
          · exact absurd ⟨hskip, hb, x, xs, rfl, hh⟩ hnd
          · have hh2 : x.high = false := by simpa using hh
            cases hw : OWBLLWaitForT16 (OWB_TIMING_R0_0 cfg) xs with
            | none =>
              exfalso
              refine hspin { Run.start s q xs with bus := [BusOp.OWBLLSetLow] } ?_ hx
              simp only [classify, Run.start]
              rw [if_pos (hfast.mpr hb)]
              simp [hskip, hh2, read0, hw]
            | some rest =>
              obtain ⟨k1, k2, k3⟩ := key _ (c3 hb hskip x xs rest rfl hh2 hw) rfl rfl rfl rfl hx hc
              exact ⟨k1, k2, by rw [k3]; simp [hb]⟩
      · have hskip2 : cfg.OWB_SKIP_SHORT_PULSES = false := by simpa using hskip
        cases hw : OWBLLWaitForT16 (OWB_TIMING_R0_0 cfg) env with
        | none =>
          exfalso
          refine hspin { Run.start s q env with bus := [BusOp.OWBLLSetLow] } ?_ hx
          simp only [classify, Run.start]
          rw [if_pos (hfast.mpr hb)]
          simp [hskip2, read0, hw]
        | some rest =>
          obtain ⟨k1, k2, k3⟩ := key _ (c2 hb hskip2 rest hw) rfl rfl rfl rfl hx hc
          exact ⟨k1, k2, by rw [k3]; simp [hb]⟩
    · obtain ⟨k1, k2, k3⟩ := key _ (c1 hb) rfl rfl rfl rfl hx hc
      exact ⟨k1, k2, by rw [k3]; simp [hb, Run.start]⟩
  · simp [OWBLLSwitchToWriteImmediately, Vars.clearFlag]
  · simp only [classify, Run.start]
    have h0 : (OWBLLSwitchToWriteImmediately s).OWBLLNextRead0INTRQFlag = 0 := rfl
    have h4 : (OWBLLSwitchToWriteImmediately s).flag OWB_STATE_FLAG_NEXT_IS_READ = false := by
      simpa using hswi.1
    simp only [h0, Nat.and_zero, ne_eq, not_true_eq_false, if_false, h4, Bool.false_eq_true]
    rw [if_pos hq2]

theorem searchComplementPhase_reachable : Reachable demoConfig searchComplementPhase :=
  reachable_handle demoConfig Vars.init _ Reachable.init (by decide)

/-! ## The busy-waits -/

theorem advancing_length_le (env : List Sample) (lo thr : Nat) (h : Advancing env)
    (hlo : ∀ x ∈ env, lo ≤ x.tick) (hhi : ∀ x ∈ env, x.tick < thr) :
    env.length ≤ thr - lo := by
  induction env generalizing lo with
  | nil => simp
  | cons x xs ih =>
    simp only [Advancing, List.pairwise_cons] at h
    have := ih (x.tick + 1) h.2 (fun y hy => h.1 y hy) (fun y hy => hhi y (List.mem_cons_of_mem _ hy))
    have := hlo x (List.mem_cons_self _ _)
    have := hhi x (List.mem_cons_self _ _)
    simp only [List.length_cons]
    omega

/-- An advancing timer read more than `thr` times shows a value of at least `thr`. -/
theorem advancing_reaches (env : List Sample) (thr : Nat) (h : Advancing env)
    (hlen : thr < env.length) : ∃ x ∈ env, thr ≤ x.tick := by
  by_contra hno
  push_neg at hno
  have := advancing_length_le env 0 thr h (fun _ _ => Nat.zero_le _) hno
  omega

/-- The polling loop stops at the first sample that reads HIGH or at least `thr`. -/
theorem pollLine_stops (thr : Nat) (env : List Sample)
    (h : ∃ x ∈ env, thr ≤ x.tick ∨ x.high = true) :
    ∃ pre last rest, env = pre ++ last :: rest ∧ pollLine thr env = some (last.tick, rest) ∧
      (∀ y ∈ pre, y.tick < thr ∧ y.high = false) ∧ (thr ≤ last.tick ∨ last.high = true) := by
  induction env with
  | nil => simp at h
  | cons x xs ih =>
    by_cases hx : thr ≤ x.tick ∨ x.high = true
    · refine ⟨[], x, xs, rfl, ?_, by simp, hx⟩
      rcases hx with hx | hx
      · simp [pollLine, Nat.not_lt.mpr hx]
      · simp [pollLine, hx]
    · rw [not_or] at hx
      obtain ⟨y, hy, hy2⟩ := h
      have hyx : y ∈ xs := by
        rcases List.mem_cons.mp hy with rfl | h1
        · exact absurd hy2 (not_or.mpr hx)
        · exact h1
      obtain ⟨pre, last, rest, he, hp, hpre, hlast⟩ := ih ⟨y, hyx, hy2⟩
      have hlow : x.high = false := by simpa using hx.2
      refine ⟨x :: pre, last, rest, by rw [he]; rfl, ?_, ?_, hlast⟩
      · simp only [pollLine, hlow, Bool.not_false, Bool.true_and, decide_eq_true_eq]
        rw [if_pos (by omega)]
        exact hp
      · intro z hz
        rcases List.mem_cons.mp hz with rfl | h1
        · exact ⟨by omega, hlow⟩
        · exact hpre z h1

/-- The macro `OWBLLWaitForT16` stops at the first sample that reads at least
`minValue`. -/
theorem waitForT16_stops (minValue : Nat) (env : List Sample)
    (h : ∃ x ∈ env, minValue ≤ x.tick) :
    ∃ pre last rest, env = pre ++ last :: rest ∧ OWBLLWaitForT16 minValue env = some rest ∧
      (∀ y ∈ pre, y.tick < minValue) ∧ minValue ≤ last.tick := by
  induction env with
  | nil => simp at h
  | cons x xs ih =>
    by_cases hx : minValue ≤ x.tick
    · exact ⟨[], x, xs, rfl, by simp [OWBLLWaitForT16, Nat.not_lt.mpr hx], by simp, hx⟩
    · obtain ⟨y, hy, hy2⟩ := h
      have hyx : y ∈ xs := by
        rcases List.mem_cons.mp hy with rfl | h1
        · exact absurd hy2 hx
        · exact h1
      obtain ⟨pre, last, rest, he, hp, hpre, hlast⟩ := ih ⟨y, hyx, hy2⟩
      refine ⟨x :: pre, last, rest, by rw [he]; rfl, ?_, ?_, hlast⟩
      · simp only [OWBLLWaitForT16]
        rw [if_pos (by omega)]
        exact hp
      · intro z hz
        rcases List.mem_cons.mp hz with rfl | h1
        · omega
        · exact hpre z h1

theorem advancing_append_left (pre post : List Sample) (h : Advancing (pre ++ post)) :
    Advancing pre := by
  simp only [Advancing, List.pairwise_append] at h
  exact h.1

theorem advancing_append_right (pre post : List Sample) (h : Advancing (pre ++ post)) :
    Advancing post := by
  simp only [Advancing, List.pairwise_append] at h
  exact h.2.1

theorem waitRelease_low (env : List Sample) (h : ∀ x ∈ env, x.high = false) :
    waitRelease env = none := by
  induction env with
  | nil => rfl
  | cons x xs ih =>
    have hx := h x (List.mem_cons_self _ _)
    simp only [waitRelease, hx, Bool.not_false, if_true]
    exact ih (fun y hy => h y (List.mem_cons_of_mem _ hy))

theorem waitRelease_high (env : List Sample) (h : ∃ x ∈ env, x.high = true) :
    ∃ pre last rest, env = pre ++ last :: rest ∧ waitRelease env = some rest ∧
      (∀ y ∈ pre, y.high = false) ∧ last.high = true := by
  induction env with
  | nil => simp at h
  | cons x xs ih =>
    by_cases hx : x.high = true
    · exact ⟨[], x, xs, rfl, by simp [waitRelease, hx], by simp, hx⟩
    · obtain ⟨y, hy, hy2⟩ := h
      have hyx : y ∈ xs := by
        rcases List.mem_cons.mp hy with rfl | h1
        · exact absurd hy2 hx
        · exact h1
      have hlow : x.high = false := by simpa using hx
      obtain ⟨pre, last, rest, he, hp, hpre, hlast⟩ := ih ⟨y, hyx, hy2⟩
      refine ⟨x :: pre, last, rest, by rw [he]; rfl, ?_, ?_, hlast⟩
      · simp only [waitRelease, hlow, Bool.not_false, if_true]
        exact hp
      · intro z hz
        rcases List.mem_cons.mp hz with rfl | h1
        · exact hlow
        · exact hpre z h1

theorem advancing_suffix_reaches (pre rest : List Sample) (thr : Nat)
    (h : Advancing (pre ++ rest)) (hne : rest ≠ []) (hlen : thr < (pre ++ rest).length) :
    ∃ x ∈ rest, thr ≤ x.tick := by
  by_contra hno
  push_neg at hno
  obtain ⟨z, zs, rfl⟩ := List.exists_cons_of_ne_nil hne
  have hz := hno z (List.mem_cons_self _ _)
  have hall : ∀ y ∈ pre ++ z :: zs, y.tick < thr := by
    intro y hy
    rcases List.mem_append.mp hy with h1 | h1
    · simp only [Advancing, List.pairwise_append] at h
      have := h.2.2 y h1 z (List.mem_cons_self _ _)
      omega
    · exact hno y h1
  have := advancing_length_le _ 0 thr h (fun _ _ => Nat.zero_le _) hall
  omega

theorem read0_consumes (cfg : Config) (r : Run) (hex : r.exited = true)
    (hadv : Advancing r.env) (hlen : OWB_TIMING_R0_0 cfg < r.env.length) :
    (read0 cfg r).exited = true ∧
    ∃ pre, r.env = pre ++ (read0 cfg r).env ∧ pre.length ≤ OWB_TIMING_R0_0 cfg + 1 := by
  obtain ⟨pre, last, rest, he, hw, hpre, -⟩ :=
    waitForT16_stops (OWB_TIMING_R0_0 cfg) r.env (advancing_reaches _ _ hadv hlen)
  have hl : pre.length ≤ OWB_TIMING_R0_0 cfg := by
    rw [he] at hadv
    simpa using advancing_length_le pre 0 _ (advancing_append_left _ _ hadv)
      (fun _ _ => Nat.zero_le _) hpre
  obtain ⟨-, h2, h3, -, -⟩ := readSlot_run cfg
    { r with bus := r.bus ++ [BusOp.OWBLLSetLow] ++ [BusOp.OWBLLSetInput], env := rest }
  simp only [read0, hw]
  refine ⟨by rw [h2]; exact hex, pre ++ [last], ?_, by simp; omega⟩
  rw [h3, he]; simp

theorem writeSlot_consumes (cfg : Config) (r : Run) (hex : r.exited = true)
    (hadv : Advancing r.env) (hlen : OWB_TIMING_W0_0_MIN cfg < r.env.length) :
    (writeSlot cfg r).exited = true ∧
    ∃ pre, r.env = pre ++ (writeSlot cfg r).env ∧ pre.length ≤ OWB_TIMING_W0_0_MIN cfg + 1 := by
  obtain ⟨x, hx, hx2⟩ := advancing_reaches _ _ hadv hlen
  obtain ⟨pre, last, rest, he, hw, hpre, -⟩ :=
    pollLine_stops (OWB_TIMING_W0_0_MIN cfg) r.env ⟨x, hx, Or.inl hx2⟩
  have hl : pre.length ≤ OWB_TIMING_W0_0_MIN cfg := by
    rw [he] at hadv
    simpa using advancing_length_le pre 0 _ (advancing_append_left _ _ hadv)
      (fun _ _ => Nat.zero_le _) (fun y hy => (hpre y hy).1)
  have henv : r.env = (pre ++ [last]) ++ rest := by rw [he]; simp
  simp only [writeSlot, hw]
  split
  · exact ⟨hex, pre ++ [last], henv, by simp; omega⟩
  · split
    · exact ⟨hex, pre ++ [last], henv, by simp; omega⟩
    · exact ⟨hex, pre ++ [last], henv, by simp; omega⟩

theorem classify_consumes (cfg : Config) (r : Run) (hex : r.exited = true)
    (hadv : Advancing r.env) (hlen : OWB_TIMING_RST_0_MIN cfg + 1 < r.env.length) :
    (classify cfg r).exited = true ∧
    ∃ pre, r.env = pre ++ (classify cfg r).env ∧ pre.length ≤ OWB_TIMING_RST_0_MIN cfg + 2 := by
  have hR0 : OWB_TIMING_R0_0 cfg ≤ OWB_TIMING_RST_0_MIN cfg :=
    ticks_with_latency_mono cfg 30 200 (by decide)
  have hW0 : OWB_TIMING_W0_0_MIN cfg ≤ OWB_TIMING_RST_0_MIN cfg :=
    ticks_with_latency_mono cfg 30 200 (by decide)
  have hsame : (∃ pre : List Sample, r.env = pre ++ r.env ∧
      pre.length ≤ OWB_TIMING_RST_0_MIN cfg + 2) := ⟨[], rfl, by simp⟩
  unfold classify
  split
  · split
    · cases he : r.env with
      | nil => rw [he] at hlen; simp at hlen
      | cons x rest =>
        simp only []
        split
        · exact ⟨hex, [x], rfl, by simp⟩
        · have hadv2 : Advancing rest := by
            rw [he] at hadv
            exact advancing_append_right [x] rest hadv
          obtain ⟨h1, pre, h2, h3⟩ := read0_consumes cfg { r with env := rest } hex hadv2
            (by rw [he] at hlen; simp only [List.length_cons] at hlen ⊢; omega)
          refine ⟨h1, x :: pre, ?_, by simp only [List.length_cons]; omega⟩
          simp only [] at h2
          rw [List.cons_append, ← h2]
    · obtain ⟨h1, pre, h2, h3⟩ := read0_consumes cfg r hex hadv (by omega)
      exact ⟨h1, pre, h2, by omega⟩
  · split
    · split
      · obtain ⟨-, h2, h3, -, -⟩ := readSlot_run cfg r
        exact ⟨by rw [h2]; exact hex, [], by rw [h3]; rfl, by simp⟩
      · obtain ⟨h1, pre, h2, h3⟩ := writeSlot_consumes cfg r hex hadv (by omega)
        exact ⟨h1, pre, h2, by omega⟩
    · exact ⟨hex, hsame⟩

/-- With a timer that advances and samples for `OWB_TIMING_RST_0_MIN + 3` readings, a run
of the handler gets through every timed wait of the classification and of the RST
polling: it returns, or it has called `OWBReset` and is in the reset sequence. -/
theorem interrupt_exits_or_resets (cfg : Config) (s : Vars) (q : Nat) (env : List Sample)
    (hadv : Advancing env) (hlen : OWB_TIMING_RST_0_MIN cfg + 2 < env.length) :
    (interrupt cfg s q env).exited = true ∨ Call.OWBReset ∈ (interrupt cfg s q env).calls := by
  obtain ⟨hex, pre, he, hpre⟩ := classify_consumes cfg (Run.start s q env) rfl hadv (by
    simp only [Run.start]; omega)
  have he2 : env = pre ++ (classify cfg (Run.start s q env)).env := he
  clear he
  simp only [interrupt, hex, if_true]
  generalize classify cfg (Run.start s q env) = c at hex he2
  have hl : env.length = pre.length + c.env.length := by
    rw [he2, List.length_append]
  have hne : c.env ≠ [] := by
    intro h0
    rw [h0, List.length_nil] at hl
    omega
  obtain ⟨x, hx, hx2⟩ := advancing_suffix_reaches pre c.env (OWB_TIMING_RST_0_MIN cfg)
    (by rw [← he2]; exact hadv) hne (by rw [← he2]; omega)
  obtain ⟨p2, last, rest, -, hp, -, -⟩ :=
    pollLine_stops (OWB_TIMING_RST_0_MIN cfg) c.env ⟨x, hx, Or.inl hx2⟩
  by_cases hirq : c.INTRQ &&& cfg.OWB_LOW_DETECT_IRQ_FLAG ≠ 0
  · simp only [finalize, hirq, ne_eq, not_false_eq_true, if_true]
    by_cases hm : c.vars.OWBLLStateFlags.testBit 5 = true
    · simp only [clearIRQ, flag_32, OWB_STATE_FLAG_MIGHT_BE_RST, hm, hp, if_true]
      split
      · right
        split <;> simp [resetSequence_calls]
      · left
        simp [hex]
    · left
      simp [clearIRQ, hm, hex]
  · left
    simp [finalize, hirq, hex]

theorem pollLine_low (thr : Nat) (env : List Sample) (t : Nat) (rest : List Sample)
    (hlow : ∀ x ∈ env, x.high = false) (hp : pollLine thr env = some (t, rest)) :
    thr ≤ t ∧ ∀ x ∈ rest, x.high = false := by
  induction env with
  | nil => simp [pollLine] at hp
  | cons x xs ih =>
    have hx := hlow x (List.mem_cons_self _ _)
    have hxs : ∀ y ∈ xs, y.high = false := fun y hy => hlow y (List.mem_cons_of_mem _ hy)
    simp only [pollLine, hx, Bool.not_false, Bool.true_and, decide_eq_true_eq] at hp
    split at hp
    · exact ih hxs hp
    · simp only [Option.some.injEq, Prod.mk.injEq] at hp
      obtain ⟨rfl, rfl⟩ := hp
      exact ⟨by omega, hxs⟩

/-- Entered in write mode with the request pending, the handler never returns while
every sample reads LOW, however many samples there are. -/
theorem interrupt_stuck_low (cfg : Config) (q : Nat) (env : List Sample)
    (hq : q &&& cfg.OWB_LOW_DETECT_IRQ_FLAG ≠ 0) (hlow : ∀ x ∈ env, x.high = false) :
    (interrupt cfg Vars.init q env).exited = false := by
  have hcl : classify cfg (Run.start Vars.init q env) =
      writeSlot cfg (Run.start Vars.init q env) := by
    simp only [classify, Run.start]
    rw [if_neg (by simp [Vars.init]), if_pos hq, if_neg (by simp [Vars.init, Vars.flag])]
  simp only [interrupt, hcl]
  cases hp : pollLine (OWB_TIMING_W0_0_MIN cfg) env with
  | none => simp [writeSlot, Run.start, hp, Run.spin]
  | some p =>
    obtain ⟨t, rest⟩ := p
    obtain ⟨ht, hrest⟩ := pollLine_low _ _ _ _ hlow hp
    have hw : writeSlot cfg (Run.start Vars.init q env) =
        { vars := (OWBWriteBit cfg { Vars.init with OWBLLCurrentBitValue := 0 }).setFlag
            OWB_STATE_FLAG_MIGHT_BE_RST
          INTRQ := q
          calls := [Call.OWBWriteBit 0]
          bus := []
          env := rest
          exited := true } := by
      simp [writeSlot, Run.start, hp, ht]
    rw [hw]
    simp only [if_true, finalize, hq, ne_eq, not_false_eq_true, clearIRQ]
    have hm : ((OWBWriteBit cfg { Vars.init with OWBLLCurrentBitValue := 0 }).setFlag
        OWB_STATE_FLAG_MIGHT_BE_RST).flag OWB_STATE_FLAG_MIGHT_BE_RST = true := by
      simp [Vars.setFlag]
    simp only [hm, if_true]
    cases hp2 : pollLine (OWB_TIMING_RST_0_MIN cfg) rest with
    | none => simp [Run.spin]
    | some p2 =>
      obtain ⟨t2, rest2⟩ := p2
      obtain ⟨ht2, hrest2⟩ := pollLine_low _ _ _ _ hrest hp2
      have hwr := waitRelease_low rest2 hrest2
      simp [ht2, resetSequence, hwr, Run.spin]

theorem advancing_lineStuckLow (n : Nat) : Advancing (lineStuckLow n) := by
  simp only [Advancing, lineStuckLow]
  apply List.Pairwise.map _ _ (List.pairwise_lt_range n)
  intro a b hab
  simp only
  omega

theorem lineStuckLow_low (n : Nat) : ∀ x ∈ lineStuckLow n, x.high = false := by
  intro x hx
  simp only [lineStuckLow, List.mem_map] at hx
  obtain ⟨i, -, rfl⟩ := hx
  rfl

/-! ## A reset pulse handled to the end -/

theorem waitRelease_append (low : List Sample) (hi : Sample) (rest : List Sample)
    (hlow : ∀ x ∈ low, x.high = false) (hhi : hi.high = true) :
    waitRelease (low ++ hi :: rest) = some rest := by
  induction low with
  | nil => simp [waitRelease, hhi]
  | cons x xs ih =>
    have hx := hlow x (List.mem_cons_self _ _)
    simp only [List.cons_append, waitRelease, hx, Bool.not_false, if_true]
    exact ih (fun y hy => hlow y (List.mem_cons_of_mem _ hy))

theorem waitForT16_append (minValue : Nat) (pre : List Sample) (last : Sample)
    (rest : List Sample) (hpre : ∀ x ∈ pre, x.tick < minValue) (hlast : minValue ≤ last.tick) :
    OWBLLWaitForT16 minValue (pre ++ last :: rest) = some rest := by
  induction pre with
  | nil => simp [OWBLLWaitForT16, Nat.not_lt.mpr hlast]
  | cons x xs ih =>
    have hx := hpre x (List.mem_cons_self _ _)
    simp only [List.cons_append, OWBLLWaitForT16, hx, if_true]
    exact ih (fun y hy => hpre y (List.mem_cons_of_mem _ hy))

/-- The reset sequence on samples that show the line released, then the timer reaching
the idle time, then the timer reaching the presence-pulse time, whatever the line reads
during the two timed waits: it runs to its end. -/
theorem resetSequence_returns (cfg : Config) (r : Run)
    (low : List Sample) (hi : Sample) (w1 : List Sample) (a : Sample)
    (w2 : List Sample) (b : Sample) (rest : List Sample)
    (he : r.env = low ++ hi :: (w1 ++ a :: (w2 ++ b :: rest)))
    (hlow : ∀ x ∈ low, x.high = false) (hhi : hi.high = true)
    (hw1 : ∀ x ∈ w1, x.tick < OWB_TIMING_RST_1 cfg) (ha : OWB_TIMING_RST_1 cfg ≤ a.tick)
    (hw2 : ∀ x ∈ w2, x.tick < OWB_TIMING_RST_PP cfg) (hb : OWB_TIMING_RST_PP cfg ≤ b.tick) :
    resetSequence cfg r =
      { vars := OWBLLSwitchToWriteImmediately (OWBReset r.vars)
        INTRQ := r.INTRQ &&& (0xFF ^^^ cfg.OWB_LOW_DETECT_IRQ_FLAG)
        calls := r.calls ++ [Call.OWBReset]
        bus := r.bus ++ [BusOp.OWBLLSetLow] ++ [BusOp.OWBLLSetInput]
        env := rest
        exited := r.exited } := by
  simp only [resetSequence, he, waitRelease_append low hi _ hlow hhi,
    waitForT16_append _ w1 a _ hw1 ha, waitForT16_append _ w2 b _ hw2 hb, clearIRQ]

/-- The second part of the handler on a pulse that is LOW up to the RST time and on the
samples of a reset sequence that runs to its end. -/
theorem finalize_reset_returns (cfg : Config) (c : Run)
    (pre : List Sample) (last : Sample) (low : List Sample) (hi : Sample)
    (w1 : List Sample) (a : Sample) (w2 : List Sample) (b : Sample) (rest : List Sample)
    (hirq : c.INTRQ &&& cfg.OWB_LOW_DETECT_IRQ_FLAG ≠ 0)
    (hm : c.vars.flag OWB_STATE_FLAG_MIGHT_BE_RST = true) (hex : c.exited = true)
    (he : c.env = pre ++ last :: (low ++ hi :: (w1 ++ a :: (w2 ++ b :: rest))))
    (hpre : ∀ x ∈ pre, x.high = false ∧ x.tick < OWB_TIMING_RST_0_MIN cfg)
    (hlast : OWB_TIMING_RST_0_MIN cfg ≤ last.tick)
    (hlow : ∀ x ∈ low, x.high = false) (hhi : hi.high = true)
    (hw1 : ∀ x ∈ w1, x.tick < OWB_TIMING_RST_1 cfg) (ha : OWB_TIMING_RST_1 cfg ≤ a.tick)
    (hw2 : ∀ x ∈ w2, x.tick < OWB_TIMING_RST_PP cfg) (hb : OWB_TIMING_RST_PP cfg ≤ b.tick) :
    finalize cfg c =
      { vars := (OWBLLSwitchToWriteImmediately (OWBReset c.vars)).clearFlag
          OWB_STATE_FLAG_MIGHT_BE_RST
        INTRQ := (c.INTRQ &&& (0xFF ^^^ cfg.OWB_LOW_DETECT_IRQ_FLAG)) &&&
          (0xFF ^^^ cfg.OWB_LOW_DETECT_IRQ_FLAG)
        calls := c.calls ++ [Call.OWBReset]
        bus := c.bus ++ [BusOp.OWBLLSetLow] ++ [BusOp.OWBLLSetInput]
        env := rest
        exited := true } := by
  have hp := pollLine_append (OWB_TIMING_RST_0_MIN cfg) pre last
    (low ++ hi :: (w1 ++ a :: (w2 ++ b :: rest))) hpre (Or.inr hlast)
  have hrs := resetSequence_returns cfg
    { c with INTRQ := c.INTRQ &&& (0xFF ^^^ cfg.OWB_LOW_DETECT_IRQ_FLAG)
             env := low ++ hi :: (w1 ++ a :: (w2 ++ b :: rest)) }
    low hi w1 a w2 b rest rfl hlow hhi hw1 ha hw2 hb
  simp only [hex] at hrs
  simp only [finalize, hirq, ne_eq, not_false_eq_true, if_true, clearIRQ, hm, he, hp,
    ge_iff_le, hlast, true_or, hrs, hex]

/-- A run of the handler whose classification set `MIGHT_BE_RST`, on a pulse that stays LOW
up to the RST time, is released later, and is followed by the timer reaching the idle
time and the presence-pulse time: the run returns, with the reset finalized. -/
theorem interrupt_reset_returns (cfg : Config) (s : Vars) (q : Nat) (env : List Sample)
    (pre : List Sample) (last : Sample) (low : List Sample) (hi : Sample)
    (w1 : List Sample) (a : Sample) (w2 : List Sample) (b : Sample) (rest : List Sample)
    (hirq : q &&& cfg.OWB_LOW_DETECT_IRQ_FLAG ≠ 0)
    (hm : (classify cfg (Run.start s q env)).vars.flag OWB_STATE_FLAG_MIGHT_BE_RST = true)
    (he : (classify cfg (Run.start s q env)).env =
      pre ++ last :: (low ++ hi :: (w1 ++ a :: (w2 ++ b :: rest))))
    (hpre : ∀ x ∈ pre, x.high = false ∧ x.tick < OWB_TIMING_RST_0_MIN cfg)
    (hlast : OWB_TIMING_RST_0_MIN cfg ≤ last.tick)
    (hlow : ∀ x ∈ low, x.high = false) (hhi : hi.high = true)
    (hw1 : ∀ x ∈ w1, x.tick < OWB_TIMING_RST_1 cfg) (ha : OWB_TIMING_RST_1 cfg ≤ a.tick)
    (hw2 : ∀ x ∈ w2, x.tick < OWB_TIMING_RST_PP cfg) (hb : OWB_TIMING_RST_PP cfg ≤ b.tick) :
    interrupt cfg s q env =
      { vars := (OWBLLSwitchToWriteImmediately
          (OWBReset (classify cfg (Run.start s q env)).vars)).clearFlag
            OWB_STATE_FLAG_MIGHT_BE_RST
        INTRQ := (q &&& (0xFF ^^^ cfg.OWB_LOW_DETECT_IRQ_FLAG)) &&&
          (0xFF ^^^ cfg.OWB_LOW_DETECT_IRQ_FLAG)
        calls := (classify cfg (Run.start s q env)).calls ++ [Call.OWBReset]
        bus := (classify cfg (Run.start s q env)).bus ++ [BusOp.OWBLLSetLow] ++
          [BusOp.OWBLLSetInput]
        env := rest
        exited := true } := by
  obtain ⟨c1, c2, -⟩ := classify_run cfg (Run.start s q env) rfl
  have hex : (classify cfg (Run.start s q env)).exited = true := by
    by_contra hne
    have := c2 (by simpa using hne)
    rw [he] at this
    simp at this
  have hq : (classify cfg (Run.start s q env)).INTRQ = q := c1
  have hf := finalize_reset_returns cfg (classify cfg (Run.start s q env))
    pre last low hi w1 a w2 b rest (by rw [hq]; exact hirq) hm hex he hpre hlast hlow hhi
    hw1 ha hw2 hb
  simp only [interrupt, hex, if_true]
  rw [hf, hq]

/-- The final part of the handler when the polling ends at or above the RST time (or with
`TIMER_OVERFLOW` set) and the samples that follow show the line released and the timer
reaching the idle time and the presence-pulse time: the reset sequence runs to its end. -/
theorem finalize_reset_completes (cfg : Config) (c : Run) (t : Nat)
    (low : List Sample) (hi : Sample)
    (w1 : List Sample) (a : Sample) (w2 : List Sample) (b : Sample) (rest : List Sample)
    (hirq : c.INTRQ &&& cfg.OWB_LOW_DETECT_IRQ_FLAG ≠ 0)
    (hm : c.vars.flag OWB_STATE_FLAG_MIGHT_BE_RST = true) (hex : c.exited = true)
    (hp : pollLine (OWB_TIMING_RST_0_MIN cfg) c.env =
      some (t, low ++ hi :: (w1 ++ a :: (w2 ++ b :: rest))))
    (ht : OWB_TIMING_RST_0_MIN cfg ≤ t ∨ c.vars.flag OWB_STATE_FLAG_TIMER_OVERFLOW = true)
    (hlow : ∀ x ∈ low, x.high = false) (hhi : hi.high = true)
    (hw1 : ∀ x ∈ w1, x.tick < OWB_TIMING_RST_1 cfg) (ha : OWB_TIMING_RST_1 cfg ≤ a.tick)
    (hw2 : ∀ x ∈ w2, x.tick < OWB_TIMING_RST_PP cfg) (hb : OWB_TIMING_RST_PP cfg ≤ b.tick) :
    finalize cfg c =
      { vars := (OWBLLSwitchToWriteImmediately (OWBReset c.vars)).clearFlag
          OWB_STATE_FLAG_MIGHT_BE_RST
        INTRQ := (c.INTRQ &&& (0xFF ^^^ cfg.OWB_LOW_DETECT_IRQ_FLAG)) &&&
          (0xFF ^^^ cfg.OWB_LOW_DETECT_IRQ_FLAG)
        calls := c.calls ++ [Call.OWBReset]
        bus := c.bus ++ [BusOp.OWBLLSetLow] ++ [BusOp.OWBLLSetInput]
        env := rest
        exited := true } := by
  have hrs := resetSequence_returns cfg
    { c with INTRQ := c.INTRQ &&& (0xFF ^^^ cfg.OWB_LOW_DETECT_IRQ_FLAG)
             env := low ++ hi :: (w1 ++ a :: (w2 ++ b :: rest)) }
    low hi w1 a w2 b rest rfl hlow hhi hw1 ha hw2 hb
  simp only [hex] at hrs
  simp only [finalize, hirq, ne_eq, not_false_eq_true, if_true, clearIRQ, hm, hp,
    ge_iff_le, ht, hrs, hex]

/-- A run of the handler that calls `OWBReset`, when the samples after the polling show the
line released and the timer reaching the idle time and the presence-pulse time: the run
returns, with the reset finalized. -/
theorem interrupt_reset_completes (cfg : Config) (s : Vars) (q : Nat) (env : List Sample)
    (t : Nat) (low : List Sample) (hi : Sample)
    (w1 : List Sample) (a : Sample) (w2 : List Sample) (b : Sample) (rest : List Sample)
    (hirq : q &&& cfg.OWB_LOW_DETECT_IRQ_FLAG ≠ 0)
    (hcall : Call.OWBReset ∈ (interrupt cfg s q env).calls)
    (hp : pollLine (OWB_TIMING_RST_0_MIN cfg) (classify cfg (Run.start s q env)).env =
      some (t, low ++ hi :: (w1 ++ a :: (w2 ++ b :: rest))))
    (hlow : ∀ x ∈ low, x.high = false) (hhi : hi.high = true)
    (hw1 : ∀ x ∈ w1, x.tick < OWB_TIMING_RST_1 cfg) (ha : OWB_TIMING_RST_1 cfg ≤ a.tick)
    (hw2 : ∀ x ∈ w2, x.tick < OWB_TIMING_RST_PP cfg) (hb : OWB_TIMING_RST_PP cfg ≤ b.tick) :
    interrupt cfg s q env =
      { vars := (OWBLLSwitchToWriteImmediately
          (OWBReset (classify cfg (Run.start s q env)).vars)).clearFlag
            OWB_STATE_FLAG_MIGHT_BE_RST
        INTRQ := (q &&& (0xFF ^^^ cfg.OWB_LOW_DETECT_IRQ_FLAG)) &&&
          (0xFF ^^^ cfg.OWB_LOW_DETECT_IRQ_FLAG)
        calls := (classify cfg (Run.start s q env)).calls ++ [Call.OWBReset]
        bus := (classify cfg (Run.start s q env)).bus ++ [BusOp.OWBLLSetLow] ++
          [BusOp.OWBLLSetInput]
        env := rest
        exited := true } := by
  obtain ⟨c1, c2, c3⟩ := classify_run cfg (Run.start s q env) rfl
  have hex : (classify cfg (Run.start s q env)).exited = true := by
    by_contra hne
    have := c2 (by simpa using hne)
    rw [this] at hp
    simp [pollLine] at hp
  have hq : (classify cfg (Run.start s q env)).INTRQ = q := c1
  have c3' : Call.OWBReset ∉ (classify cfg (Run.start s q env)).calls := by
    rw [c3]; simp [Run.start]
  have hirq' : (classify cfg (Run.start s q env)).INTRQ &&& cfg.OWB_LOW_DETECT_IRQ_FLAG ≠ 0 := by
    rw [hq]; exact hirq
  have hcall' : Call.OWBReset ∈ (finalize cfg (classify cfg (Run.start s q env))).calls := by
    simpa only [interrupt, hex, if_true] using hcall
  obtain ⟨hm, t', rest', hp', ht⟩ :=
    (finalize_reset cfg (classify cfg (Run.start s q env)) hirq' c3').1.mp hcall'
  rw [hp] at hp'
  have htt : t = t' := by
    have := Option.some.inj hp'
    exact (Prod.mk.inj this).1
  subst htt
  have hf := finalize_reset_completes cfg (classify cfg (Run.start s q env))
    t low hi w1 a w2 b rest hirq' hm hex hp ht hlow hhi hw1 ha hw2 hb
  simp only [interrupt, hex, if_true]
  rw [hf, hq]

/-- C5: entered with the low-detect request pending, the handler calls `OWBReset` if
and only if `MIGHT_BE_RST` is set when the bit-level classification is done and the
polling that follows ends with a tick count at or above the RST time or with
`TIMER_OVERFLOW` set; a run that calls `OWBReset` and returns leaves the state RESET,
`CurrentByte` 0, the mask 1, both byte indices 0, `NEXT_IS_READ` and
`DELAYED_SWITCH_TO_WRITE` clear and the READ0 flag 0, whatever the classification did
before; and a run that calls `OWBReset` does return, with exactly these globals, the
calls of the classification followed by `OWBReset`, and the presence pulse on the bus,
once the samples after that polling show the line released and then the timer reaching
the idle time and the presence-pulse time. -/
theorem C5_reset_finalization (cfg : Config) (s : Vars) (INTRQ : Nat) (env : List Sample)
    (hirq : INTRQ &&& cfg.OWB_LOW_DETECT_IRQ_FLAG ≠ 0) :
    (Call.OWBReset ∈ (interrupt cfg s INTRQ env).calls ↔
      (classify cfg (Run.start s INTRQ env)).vars.flag OWB_STATE_FLAG_MIGHT_BE_RST = true ∧
      ∃ t rest, pollLine (OWB_TIMING_RST_0_MIN cfg) (classify cfg (Run.start s INTRQ env)).env =
          some (t, rest) ∧
        (OWB_TIMING_RST_0_MIN cfg ≤ t ∨
          (classify cfg (Run.start s INTRQ env)).vars.flag OWB_STATE_FLAG_TIMER_OVERFLOW = true)) ∧
    (Call.OWBReset ∈ (interrupt cfg s INTRQ env).calls →
      (interrupt cfg s INTRQ env).exited = true →
      (interrupt cfg s INTRQ env).vars.CurrentState = OWB_STATE_RESET ∧
      (interrupt cfg s INTRQ env).vars.CurrentByte = 0 ∧
      (interrupt cfg s INTRQ env).vars.CurrentBitValue = 1 ∧
      (interrupt cfg s INTRQ env).vars.OWBREADROMByteOffset = 0 ∧
      (interrupt cfg s INTRQ env).vars.OWBSEARCHROMCurrentByteIndex = 0 ∧
      (interrupt cfg s INTRQ env).vars.flag OWB_STATE_FLAG_NEXT_IS_READ = false ∧
      (interrupt cfg s INTRQ env).vars.flag OWB_STATE_FLAG_DELAYED_SWITCH_TO_WRITE = false ∧
      (interrupt cfg s INTRQ env).vars.OWBLLNextRead0INTRQFlag = 0) ∧
    (Call.OWBReset ∈ (interrupt cfg s INTRQ env).calls →
      ∀ (t : Nat) (low : List Sample) (hi : Sample)
        (w1 : List Sample) (a : Sample) (w2 : List Sample) (b : Sample) (rest : List Sample),
      pollLine (OWB_TIMING_RST_0_MIN cfg) (classify cfg (Run.start s INTRQ env)).env =
        some (t, low ++ hi :: (w1 ++ a :: (w2 ++ b :: rest))) →
      (∀ x ∈ low, x.high = false) → hi.high = true →
      (∀ x ∈ w1, x.tick < OWB_TIMING_RST_1 cfg) → OWB_TIMING_RST_1 cfg ≤ a.tick →
      (∀ x ∈ w2, x.tick < OWB_TIMING_RST_PP cfg) → OWB_TIMING_RST_PP cfg ≤ b.tick →
      interrupt cfg s INTRQ env =
        { vars := (OWBLLSwitchToWriteImmediately
            (OWBReset (classify cfg (Run.start s INTRQ env)).vars)).clearFlag
              OWB_STATE_FLAG_MIGHT_BE_RST
          INTRQ := (INTRQ &&& (0xFF ^^^ cfg.OWB_LOW_DETECT_IRQ_FLAG)) &&&
            (0xFF ^^^ cfg.OWB_LOW_DETECT_IRQ_FLAG)
          calls := (classify cfg (Run.start s INTRQ env)).calls ++ [Call.OWBReset]
          bus := (classify cfg (Run.start s INTRQ env)).bus ++ [BusOp.OWBLLSetLow] ++
            [BusOp.OWBLLSetInput]
          env := rest
          exited := true } ∧
      (interrupt cfg s INTRQ env).vars.CurrentState = OWB_STATE_RESET ∧
      (interrupt cfg s INTRQ env).vars.CurrentByte = 0 ∧
      (interrupt cfg s INTRQ env).vars.CurrentBitValue = 1 ∧
      (interrupt cfg s INTRQ env).vars.OWBREADROMByteOffset = 0 ∧
      (interrupt cfg s INTRQ env).vars.OWBSEARCHROMCurrentByteIndex = 0 ∧
      (interrupt cfg s INTRQ env).vars.flag OWB_STATE_FLAG_NEXT_IS_READ = false ∧
      (interrupt cfg s INTRQ env).vars.flag OWB_STATE_FLAG_DELAYED_SWITCH_TO_WRITE = false ∧
      (interrupt cfg s INTRQ env).vars.OWBLLNextRead0INTRQFlag = 0) := by
  refine ⟨?_, ?_, fun hcall t low hi w1 a w2 b rest hp hlow hhi hw1 ha hw2 hb => ?_⟩
  rotate_left 2
  · have hr := interrupt_reset_completes cfg s INTRQ env t low hi w1 a w2 b rest hirq hcall
      hp hlow hhi hw1 ha hw2 hb
    refine ⟨hr, ?_⟩
    rw [hr]
    simp [OWBLLSwitchToWriteImmediately, OWBReset, Vars.clearFlag]
  all_goals
    obtain ⟨c1, c2, c3⟩ := classify_run cfg (Run.start s INTRQ env) rfl
    have c3' : Call.OWBReset ∉ (classify cfg (Run.start s INTRQ env)).calls := by
      rw [c3]; simp [Run.start]
    have c1' : (classify cfg (Run.start s INTRQ env)).INTRQ &&& cfg.OWB_LOW_DETECT_IRQ_FLAG ≠ 0 := by
      rw [c1]; exact hirq
    simp only [interrupt]
    generalize classify cfg (Run.start s INTRQ env) = c at c1 c2 c3 c3' c1'
    by_cases hex : c.exited = true
    · obtain ⟨f1, f2⟩ := finalize_reset cfg c c1' c3'
      simp only [hex, if_true]
      first
        | exact f1
        | intro h1 h2
          rw [f2 h1 h2]
          simp [OWBLLSwitchToWriteImmediately, OWBReset, Vars.clearFlag]
    · have hnil := c2 (by simpa using hex)
      simp [hex, c3', hnil, pollLine]

theorem readSlot_mbr (cfg : Config) (r : Run) :
    (readSlot cfg r).vars.flag OWB_STATE_FLAG_MIGHT_BE_RST = true := by
  by_cases h : r.vars.OWBLLStateFlags.testBit 7 = true <;> simp [readSlot, h, Vars.setFlag]

/-- The timed wait ends within a run of samples that reaches the threshold, whatever
follows them; with an advancing timer it reads at most `minValue` samples below the
threshold. -/
theorem waitForT16_within (minValue : Nat) (xs ys : List Sample)
    (hx : ∃ x ∈ xs, minValue ≤ x.tick) :
    ∃ pre last r, xs = pre ++ last :: r ∧
      OWBLLWaitForT16 minValue (xs ++ ys) = some (r ++ ys) ∧
      (∀ y ∈ pre, y.tick < minValue) ∧ minValue ≤ last.tick ∧
      (Advancing xs → pre.length ≤ minValue) := by
  obtain ⟨pre, last, r, he, -, hpre, hlast⟩ := waitForT16_stops minValue xs hx
  refine ⟨pre, last, r, he, ?_, hpre, hlast, fun hadv => ?_⟩
  · rw [he, List.append_assoc, List.cons_append]
    exact waitForT16_append minValue pre last (r ++ ys) hpre hlast
  · rw [he] at hadv
    simpa using advancing_length_le pre 0 _ (advancing_append_left _ _ hadv)
      (fun _ _ => Nat.zero_le _) hpre

/-- The polling loop on a line that stays LOW ends at the threshold, within a run of
samples that reaches it, whatever follows them. -/
theorem pollLine_within (thr : Nat) (xs ys : List Sample)
    (hlow : ∀ x ∈ xs, x.high = false) (hx : ∃ x ∈ xs, thr ≤ x.tick) :
    ∃ pre last r, xs = pre ++ last :: r ∧
      pollLine thr (xs ++ ys) = some (last.tick, r ++ ys) ∧
      (∀ y ∈ pre, y.high = false ∧ y.tick < thr) ∧ thr ≤ last.tick ∧
      (Advancing xs → pre.length ≤ thr) := by
  obtain ⟨x, hx1, hx2⟩ := hx
  obtain ⟨pre, last, r, he, -, hpre, hlast⟩ := pollLine_stops thr xs ⟨x, hx1, Or.inl hx2⟩
  have hl : last.high = false := hlow last (by rw [he]; simp)
  have ht : thr ≤ last.tick := by
    rcases hlast with h | h
    · exact h
    · rw [hl] at h; cases h
  have hpre2 : ∀ y ∈ pre, y.high = false ∧ y.tick < thr :=
    fun y hy => ⟨(hpre y hy).2, (hpre y hy).1⟩
  refine ⟨pre, last, r, he, ?_, hpre2, ht, fun hadv => ?_⟩
  · rw [he, List.append_assoc, List.cons_append]
    exact pollLine_append thr pre last (r ++ ys) hpre2 (Or.inr ht)
  · rw [he] at hadv
    simpa using advancing_length_le pre 0 _ (advancing_append_left _ _ hadv)
      (fun _ _ => Nat.zero_le _) (fun y hy => (hpre y hy).1)

theorem read0_reset_pulse (cfg : Config) (r : Run) (xs tail : List Sample)
    (hex : r.exited = true) (he : r.env = xs ++ tail) (hadv : Advancing xs)
    (hlen : OWB_TIMING_R0_0 cfg < xs.length) :
    (read0 cfg r).exited = true ∧ (read0 cfg r).INTRQ = r.INTRQ ∧
    (read0 cfg r).vars.flag OWB_STATE_FLAG_MIGHT_BE_RST = true ∧
    ∃ pre r1, xs = pre ++ r1 ∧ (read0 cfg r).env = r1 ++ tail ∧
      pre.length ≤ OWB_TIMING_R0_0 cfg + 1 := by
  obtain ⟨pre, last, r1, hd, hw, -, -, hb⟩ :=
    waitForT16_within (OWB_TIMING_R0_0 cfg) xs tail (advancing_reaches _ _ hadv hlen)
  obtain ⟨q1, q2, q3, -, -⟩ := readSlot_run cfg
    { r with bus := r.bus ++ [BusOp.OWBLLSetLow] ++ [BusOp.OWBLLSetInput], env := r1 ++ tail }
  simp only [read0, he, hw]
  refine ⟨by rw [q2]; exact hex, q1, readSlot_mbr cfg _, pre ++ [last], r1, ?_, q3, ?_⟩
  · rw [hd]; simp
  · have := hb hadv
    simp only [List.length_append, List.length_singleton]
    omega

theorem writeSlot_reset_pulse (cfg : Config) (r : Run) (xs tail : List Sample)
    (hex : r.exited = true) (he : r.env = xs ++ tail) (hadv : Advancing xs)
    (hlow : ∀ x ∈ xs, x.high = false) (hlen : OWB_TIMING_W0_0_MIN cfg < xs.length) :
    (writeSlot cfg r).exited = true ∧ (writeSlot cfg r).INTRQ = r.INTRQ ∧
    (writeSlot cfg r).vars.flag OWB_STATE_FLAG_MIGHT_BE_RST = true ∧
    ∃ pre r1, xs = pre ++ r1 ∧ (writeSlot cfg r).env = r1 ++ tail ∧
      pre.length ≤ OWB_TIMING_W0_0_MIN cfg + 1 := by
  obtain ⟨pre, last, r1, hd, hw, -, ht, hb⟩ :=
    pollLine_within (OWB_TIMING_W0_0_MIN cfg) xs tail hlow (advancing_reaches _ _ hadv hlen)
  simp only [writeSlot, he, hw, ge_iff_le, ht, if_true]
  refine ⟨hex, ?_, by simp [Vars.setFlag], pre ++ [last], r1, ?_, ?_, ?_⟩
  · trivial
  · rw [hd]; simp
  · trivial
  · have := hb hadv
    simp only [List.length_append, List.length_singleton]
    omega

/-- The classification of a reset pulse: the line stays LOW while the timer advances past
the RST time. Whatever the globals, the classification is done within these samples and
leaves `MIGHT_BE_RST` set. -/
theorem classify_reset_pulse (cfg : Config) (s : Vars) (q : Nat) (e1 tail : List Sample)
    (hirq : q &&& cfg.OWB_LOW_DETECT_IRQ_FLAG ≠ 0) (hadv : Advancing e1)
    (hlow : ∀ x ∈ e1, x.high = false) (hlen : OWB_TIMING_RST_0_MIN cfg + 2 < e1.length) :
    (classify cfg (Run.start s q (e1 ++ tail))).vars.flag OWB_STATE_FLAG_MIGHT_BE_RST = true ∧
    ∃ pre r1, e1 = pre ++ r1 ∧ (classify cfg (Run.start s q (e1 ++ tail))).env = r1 ++ tail ∧
      pre.length ≤ OWB_TIMING_RST_0_MIN cfg + 2 := by
  have hR0 : OWB_TIMING_R0_0 cfg ≤ OWB_TIMING_RST_0_MIN cfg :=
    ticks_with_latency_mono cfg 30 200 (by decide)
  have hW0 : OWB_TIMING_W0_0_MIN cfg ≤ OWB_TIMING_RST_0_MIN cfg :=
    ticks_with_latency_mono cfg 30 200 (by decide)
  unfold classify
  split
  · split
    · obtain ⟨x, xs, rfl⟩ := List.exists_cons_of_ne_nil
        (show e1 ≠ [] from fun h => by rw [h] at hlen; simp at hlen)
      have hx : x.high = false := hlow x (List.mem_cons_self _ _)
      have hadv2 : Advancing xs := advancing_append_right [x] xs hadv
      simp only [List.length_cons] at hlen
      obtain ⟨-, -, h3, pre, r1, h4, h5, h6⟩ := read0_reset_pulse cfg
        { Run.start s q (x :: xs ++ tail) with env := xs ++ tail } xs tail rfl rfl hadv2
        (by omega)
      simp only [Run.start, List.cons_append, hx, Bool.false_eq_true, if_false] at h3 h5 ⊢
      exact ⟨h3, x :: pre, r1, by rw [h4]; rfl, h5, by simp only [List.length_cons]; omega⟩
    · obtain ⟨-, -, h3, pre, r1, h4, h5, h6⟩ := read0_reset_pulse cfg
        (Run.start s q (e1 ++ tail)) e1 tail rfl rfl hadv (by omega)
      exact ⟨h3, pre, r1, h4, h5, by omega⟩
  · have hirq2 : (Run.start s q (e1 ++ tail)).INTRQ &&& cfg.OWB_LOW_DETECT_IRQ_FLAG ≠ 0 := hirq
    rw [if_pos hirq2]
    split
    · obtain ⟨-, -, q3, -, -⟩ := readSlot_run cfg (Run.start s q (e1 ++ tail))
      exact ⟨readSlot_mbr cfg _, [], e1, rfl, q3, by simp⟩
    · obtain ⟨-, -, h3, pre, r1, h4, h5, h6⟩ := writeSlot_reset_pulse cfg
        (Run.start s q (e1 ++ tail)) e1 tail rfl rfl hadv hlow (by omega)
      exact ⟨h3, pre, r1, h4, h5, by omega⟩

/-- A reset pulse handled to the end: the line stays LOW while the timer advances past
the RST time and is then released; the timer, restarted, advances past the idle time;
restarted again, it advances past the presence-pulse time. Whatever the globals at entry
and whatever the line reads during the two timed waits, the handler returns, having
called `OWBReset`. -/
theorem interrupt_reset_pulse (cfg : Config) (s : Vars) (q : Nat)
    (e1 : List Sample) (hi : Sample) (e2 e3 : List Sample)
    (hirq : q &&& cfg.OWB_LOW_DETECT_IRQ_FLAG ≠ 0)
    (hadv1 : Advancing e1) (hlow : ∀ x ∈ e1, x.high = false)
    (hlen1 : OWB_TIMING_RST_0_MIN cfg + 2 < e1.length) (hhi : hi.high = true)
    (hadv2 : Advancing e2) (hlen2 : OWB_TIMING_RST_1 cfg < e2.length)
    (hadv3 : Advancing e3) (hlen3 : OWB_TIMING_RST_PP cfg < e3.length) :
    (interrupt cfg s q (e1 ++ hi :: (e2 ++ e3))).exited = true ∧
    Call.OWBReset ∈ (interrupt cfg s q (e1 ++ hi :: (e2 ++ e3))).calls ∧
    (interrupt cfg s q (e1 ++ hi :: (e2 ++ e3))).vars.CurrentState = OWB_STATE_RESET ∧
    BusOp.OWBLLSetInput ∈ (interrupt cfg s q (e1 ++ hi :: (e2 ++ e3))).bus := by
  obtain ⟨hm, pre, r1, hd, henv, hpl⟩ :=
    classify_reset_pulse cfg s q e1 (hi :: (e2 ++ e3)) hirq hadv1 hlow hlen1
  have hne : r1 ≠ [] := by
    intro h0
    rw [h0, List.append_nil] at hd
    rw [hd] at hlen1; omega
  have hlow1 : ∀ x ∈ r1, x.high = false := fun x hx => hlow x (by rw [hd]; simp [hx])
  obtain ⟨p2, last, r2, hd2, -, hp2, hl2, -⟩ :=
    pollLine_within (OWB_TIMING_RST_0_MIN cfg) r1 [] hlow1
      (advancing_suffix_reaches pre r1 _ (by rw [← hd]; exact hadv1) hne
        (by rw [← hd]; omega))
  have hlow2 : ∀ x ∈ r2, x.high = false := fun x hx => hlow1 x (by rw [hd2]; simp [hx])
  obtain ⟨w1, a, r3, hd3, -, hw1, ha, -⟩ :=
    waitForT16_within (OWB_TIMING_RST_1 cfg) e2 [] (advancing_reaches _ _ hadv2 hlen2)
  obtain ⟨y, hy, hy2⟩ := advancing_reaches _ _ hadv3 hlen3
  obtain ⟨w2, b, rest, hd4, -, hw2, hb⟩ :=
    waitForT16_stops (OWB_TIMING_RST_PP cfg) (r3 ++ e3) ⟨y, by simp [hy], hy2⟩
  have hfull : (classify cfg (Run.start s q (e1 ++ hi :: (e2 ++ e3)))).env =
      p2 ++ last :: (r2 ++ hi :: (w1 ++ a :: (w2 ++ b :: rest))) := by
    rw [henv, hd2, hd3, ← hd4]; simp
  have hres := interrupt_reset_returns cfg s q (e1 ++ hi :: (e2 ++ e3)) p2 last r2 hi w1 a
    w2 b rest hirq hm hfull hp2 hl2 hlow2 hhi hw1 ha hw2 hb
  rw [hres]
  simp [OWBLLSwitchToWriteImmediately, OWBReset, Vars.clearFlag]

/-- A run of the handler that calls `OWBReset`, once the line is released: with the timer,
restarted, advancing past the idle time and, restarted again, past the presence-pulse
time, the run returns, whatever the line reads during these two waits. -/
theorem interrupt_reset_waits (cfg : Config) (s : Vars) (q : Nat) (env : List Sample)
    (t : Nat) (low : List Sample) (hi : Sample) (e2 e3 : List Sample)
    (hirq : q &&& cfg.OWB_LOW_DETECT_IRQ_FLAG ≠ 0)
    (hcall : Call.OWBReset ∈ (interrupt cfg s q env).calls)
    (hp : pollLine (OWB_TIMING_RST_0_MIN cfg) (classify cfg (Run.start s q env)).env =
      some (t, low ++ hi :: (e2 ++ e3)))
    (hlow : ∀ x ∈ low, x.high = false) (hhi : hi.high = true)
    (hadv2 : Advancing e2) (hlen2 : OWB_TIMING_RST_1 cfg < e2.length)
    (hadv3 : Advancing e3) (hlen3 : OWB_TIMING_RST_PP cfg < e3.length) :
    (interrupt cfg s q env).exited = true ∧
    (interrupt cfg s q env).vars.CurrentState = OWB_STATE_RESET ∧
    BusOp.OWBLLSetInput ∈ (interrupt cfg s q env).bus ∧
    ∃ used rest, e2 ++ e3 = used ++ rest ∧ (interrupt cfg s q env).env = rest ∧
      used.length ≤ e2.length + OWB_TIMING_RST_PP cfg + 1 := by
  obtain ⟨w1, a, r3, hd3, -, hw1, ha, -⟩ :=
    waitForT16_within (OWB_TIMING_RST_1 cfg) e2 [] (advancing_reaches _ _ hadv2 hlen2)
  obtain ⟨y, hy, hy2⟩ := advancing_reaches _ _ hadv3 hlen3
  obtain ⟨w2, b, rest, hd4, -, hw2, hb⟩ :=
    waitForT16_stops (OWB_TIMING_RST_PP cfg) (r3 ++ e3) ⟨y, by simp [hy], hy2⟩
  have hfull : low ++ hi :: (e2 ++ e3) = low ++ hi :: (w1 ++ a :: (w2 ++ b :: rest)) := by
    rw [hd3, ← hd4]; simp
  rw [hfull] at hp
  have hres := interrupt_reset_completes cfg s q env t low hi w1 a w2 b rest hirq hcall hp
    hlow hhi hw1 ha hw2 hb
  rw [hres]
  refine ⟨rfl, by simp [OWBLLSwitchToWriteImmediately, OWBReset, Vars.clearFlag], by simp,
    w1 ++ a :: (w2 ++ [b]), rest, ?_, rfl, ?_⟩
  · rw [hd3, List.append_assoc, List.cons_append, List.append_assoc, hd4]; simp
  · have hl2 : e2.length = w1.length + 1 + r3.length := by rw [hd3]; simp; omega
    have hw2len : w2.length ≤ r3.length + OWB_TIMING_RST_PP cfg := by
      rcases List.append_eq_append_iff.mp hd4 with ⟨a', h1, h2⟩ | ⟨c', h1, -⟩
      · have hadv' : Advancing a' := advancing_append_left a' (b :: rest) (by rw [← h2]; exact hadv3)
        have hb' := advancing_length_le a' 0 _ hadv' (fun _ _ => Nat.zero_le _)
          (fun x hx => hw2 x (by rw [h1]; simp [hx]))
        rw [h1]; simp only [List.length_append]; omega
      · rw [h1]; simp only [List.length_append]; omega
    simp only [List.length_append, List.length_cons, List.length_singleton, List.length_nil]
    omega

/-- C18, as amended: with a timer that advances while it runs, read more than `thr` times,
the polling loop with threshold `thr` and the macro `OWBLLWaitForT16(thr)` end, after at
most `thr` readings below the threshold and one more; the thresholds the handler waits
for (W0 minimum, R0 time, idle time after a reset, presence pulse) are at most the RST
minimum; a run of the handler given `OWB_TIMING_RST_0_MIN + 3` such readings returns or
has called `OWBReset`; a run that has called `OWBReset` returns once the line is read
released and the timer, restarted, advances past the idle time and, restarted again, past
the presence-pulse time, whatever the line reads during these two waits, and the two
waits together read no more than the samples given for the idle wait and
`OWB_TIMING_RST_PP + 1` after them; and so a run on a reset pulse (the line LOW while the timer advances past the RST time, then released)
returns from every state. The wait for the end of the RST pulse has no threshold: it
ends at the first reading of a HIGH line and not at all while the line reads LOW. -/
theorem C18_timed_waits (cfg : Config) (thr : Nat) (env : List Sample)
    (hadv : Advancing env) (hlen : thr < env.length) :
    (∃ pre last rest, env = pre ++ last :: rest ∧ pollLine thr env = some (last.tick, rest) ∧
      pre.length ≤ thr ∧ ∀ y ∈ pre, y.tick < thr) ∧
    (∃ pre last rest, env = pre ++ last :: rest ∧ OWBLLWaitForT16 thr env = some rest ∧
      pre.length ≤ thr ∧ ∀ y ∈ pre, y.tick < thr) ∧
    (OWB_TIMING_W0_0_MIN cfg ≤ OWB_TIMING_RST_0_MIN cfg ∧
      OWB_TIMING_R0_0 cfg ≤ OWB_TIMING_RST_0_MIN cfg ∧
      OWB_TIMING_RST_1 cfg ≤ OWB_TIMING_RST_0_MIN cfg ∧
      OWB_TIMING_RST_PP cfg ≤ OWB_TIMING_RST_0_MIN cfg) ∧
    (∀ s q, OWB_TIMING_RST_0_MIN cfg + 2 < env.length →
      (interrupt cfg s q env).exited = true ∨
      Call.OWBReset ∈ (interrupt cfg s q env).calls) ∧
    (∀ (s : Vars) (q : Nat) (run : List Sample) (t : Nat) (low : List Sample) (hi : Sample)
        (e2 e3 : List Sample),
      q &&& cfg.OWB_LOW_DETECT_IRQ_FLAG ≠ 0 →
      Call.OWBReset ∈ (interrupt cfg s q run).calls →
      pollLine (OWB_TIMING_RST_0_MIN cfg) (classify cfg (Run.start s q run)).env =
        some (t, low ++ hi :: (e2 ++ e3)) →
      (∀ x ∈ low, x.high = false) → hi.high = true →
      Advancing e2 → OWB_TIMING_RST_1 cfg < e2.length →
      Advancing e3 → OWB_TIMING_RST_PP cfg < e3.length →
      (interrupt cfg s q run).exited = true ∧
      (interrupt cfg s q run).vars.CurrentState = OWB_STATE_RESET ∧
      BusOp.OWBLLSetInput ∈ (interrupt cfg s q run).bus ∧
      ∃ used rest, e2 ++ e3 = used ++ rest ∧ (interrupt cfg s q run).env = rest ∧
        used.length ≤ e2.length + OWB_TIMING_RST_PP cfg + 1) ∧
    (∀ (s : Vars) (q : Nat) (e1 : List Sample) (hi : Sample) (e2 e3 : List Sample),
      q &&& cfg.OWB_LOW_DETECT_IRQ_FLAG ≠ 0 →
      Advancing e1 → (∀ x ∈ e1, x.high = false) →
      OWB_TIMING_RST_0_MIN cfg + 2 < e1.length → hi.high = true →
      Advancing e2 → OWB_TIMING_RST_1 cfg < e2.length →
      Advancing e3 → OWB_TIMING_RST_PP cfg < e3.length →
      (interrupt cfg s q (e1 ++ hi :: (e2 ++ e3))).exited = true ∧
      Call.OWBReset ∈ (interrupt cfg s q (e1 ++ hi :: (e2 ++ e3))).calls ∧
      (interrupt cfg s q (e1 ++ hi :: (e2 ++ e3))).vars.CurrentState = OWB_STATE_RESET ∧
      BusOp.OWBLLSetInput ∈ (interrupt cfg s q (e1 ++ hi :: (e2 ++ e3))).bus) ∧
    ((∃ x ∈ env, x.high = true) → ∃ pre last rest, env = pre ++ last :: rest ∧
      waitRelease env = some rest ∧ (∀ y ∈ pre, y.high = false) ∧ last.high = true) ∧
    ((∀ x ∈ env, x.high = false) → waitRelease env = none) := by
  obtain ⟨x, hx, hx2⟩ := advancing_reaches env thr hadv hlen
  refine ⟨?_, ?_, ⟨?_, ?_, ?_, ?_⟩, fun s q h => interrupt_exits_or_resets cfg s q env hadv h,
    fun s q run t low hi e2 e3 hirq hcall hp hlow hhi a2 n2 a3 n3 =>
      interrupt_reset_waits cfg s q run t low hi e2 e3 hirq hcall hp hlow hhi a2 n2 a3 n3,
    fun s q e1 hi e2 e3 hirq a1 l1 n1 hhi a2 n2 a3 n3 =>
      interrupt_reset_pulse cfg s q e1 hi e2 e3 hirq a1 l1 n1 hhi a2 n2 a3 n3,
    waitRelease_high env, waitRelease_low env⟩
  · obtain ⟨pre, last, rest, he, hp, hpre, -⟩ := pollLine_stops thr env ⟨x, hx, Or.inl hx2⟩
    refine ⟨pre, last, rest, he, hp, ?_, fun y hy => (hpre y hy).1⟩
    rw [he] at hadv
    simpa using advancing_length_le pre 0 _ (advancing_append_left _ _ hadv)
      (fun _ _ => Nat.zero_le _) (fun y hy => (hpre y hy).1)
  · obtain ⟨pre, last, rest, he, hp, hpre, -⟩ := waitForT16_stops thr env ⟨x, hx, hx2⟩
    refine ⟨pre, last, rest, he, hp, ?_, hpre⟩
    rw [he] at hadv
    simpa using advancing_length_le pre 0 _ (advancing_append_left _ _ hadv)
      (fun _ _ => Nat.zero_le _) hpre
  · exact ticks_with_latency_mono cfg 30 200 (by decide)
  · exact ticks_with_latency_mono cfg 30 200 (by decide)
  · exact ticks_with_latency_mono cfg 15 200 (by decide)
  · exact ticks_with_latency_mono cfg 150 200 (by decide)

/-- C18 as stated fails: a line that stays LOW, read by a timer that advances. The
handler entered at the initial state with the request pending does not return however
many samples it is given; with 120 samples it has reported a W0, called `OWBReset` and is
in the wait for the end of the RST pulse, which no number of LOW samples ends. -/
theorem C18_line_stuck_low :
    (∀ n, Advancing (lineStuckLow n)) ∧
    (∀ n, (interrupt demoConfig Vars.init 1 (lineStuckLow n)).exited = false) ∧
    (interrupt demoConfig Vars.init 1 (lineStuckLow 120)).calls =
      [Call.OWBWriteBit 0, Call.OWBReset] ∧
    (∀ n, waitRelease (lineStuckLow n) = none) :=
  ⟨advancing_lineStuckLow,
    fun n => interrupt_stuck_low demoConfig 1 _ (by decide) (lineStuckLow_low n),
    by decide,
    fun n => waitRelease_low _ (lineStuckLow_low n)⟩

/-! ## What no statement of the handler or the engine changes -/

theorem readSlot_kept (cfg : Config) (P : Vars → Prop) (k : Kept cfg P) (r : Run)
    (h : P r.vars) : P (readSlot cfg r).vars := by
  simp only [readSlot]
  split
  · exact k.set _ (k.switch _ h)
  · exact k.set _ (k.next _ h)

theorem read0_kept (cfg : Config) (P : Vars → Prop) (k : Kept cfg P) (r : Run)
    (h : P r.vars) : P (read0 cfg r).vars := by
  cases hw : OWBLLWaitForT16 (OWB_TIMING_R0_0 cfg) r.env with
  | none => simpa [read0, hw, Run.spin] using h
  | some rest =>
    simp only [read0, hw]
    exact readSlot_kept cfg P k
      { r with bus := r.bus ++ [BusOp.OWBLLSetLow] ++ [BusOp.OWBLLSetInput], env := rest } h

theorem writeSlot_kept (cfg : Config) (P : Vars → Prop) (k : Kept cfg P) (r : Run)
    (h : P r.vars) : P (writeSlot cfg r).vars := by
  cases hp : pollLine (OWB_TIMING_W0_0_MIN cfg) r.env with
  | none => simpa [writeSlot, hp, Run.spin] using h
  | some p =>
    obtain ⟨t, rest⟩ := p
    simp only [writeSlot, hp]
    split
    · exact k.set _ (k.write _ false h)
    · split
      · exact k.write _ true h
      · exact h

theorem classify_kept (cfg : Config) (P : Vars → Prop) (k : Kept cfg P) (r : Run)
    (h : P r.vars) : P (classify cfg r).vars := by
  unfold classify
  split
  · split
    · split
      · exact h
      · split
        · exact h
        · rename_i x rest _ _
          exact read0_kept cfg P k { r with env := rest } h
    · exact read0_kept cfg P k r h
  · split
    · split
      · exact readSlot_kept cfg P k r h
      · exact writeSlot_kept cfg P k r h
    · exact h

theorem resetSequence_kept (cfg : Config) (P : Vars → Prop) (k : Kept cfg P) (r : Run)
    (h : P r.vars) : P (resetSequence cfg r).vars := by
  have h1 := k.reset _ h
  simp only [resetSequence]
  cases waitRelease r.env with
  | none => exact h1
  | some rest1 =>
    simp only []
    cases OWBLLWaitForT16 (OWB_TIMING_RST_1 cfg) rest1 with
    | none => exact h1
    | some rest2 =>
      simp only []
      cases OWBLLWaitForT16 (OWB_TIMING_RST_PP cfg) rest2 with
      | none => exact k.switch _ h1
      | some rest3 => exact k.switch _ h1

theorem finalize_kept (cfg : Config) (P : Vars → Prop) (k : Kept cfg P) (c : Run)
    (h : P c.vars) : P (finalize cfg c).vars := by
  simp only [finalize]
  split
  · have key : ∀ r : Run, P r.vars →
        P (if r.exited = true then
            { r with vars := r.vars.clearFlag OWB_STATE_FLAG_MIGHT_BE_RST } else r).vars := by
      intro r hr
      split
      · exact k.clear _ hr
      · exact hr
    apply key
    split
    · cases hp : pollLine (OWB_TIMING_RST_0_MIN cfg) (clearIRQ cfg c).env with
      | none => simpa [Run.spin, clearIRQ] using h
      | some p =>
        obtain ⟨t, rest⟩ := p
        simp only []
        split
        · exact resetSequence_kept cfg P k _ h
        · exact h
    · exact h
  · exact h

theorem interrupt_kept (cfg : Config) (P : Vars → Prop) (k : Kept cfg P) (s : Vars)
    (q : Nat) (env : List Sample) (h : P s) : P (interrupt cfg s q env).vars := by
  have hc := classify_kept cfg P k (Run.start s q env) h
  simp only [interrupt]
  split
  · exact finalize_kept cfg P k _ hc
  · exact hc

theorem operated_kept (cfg : Config) (P : Vars → Prop) (k : Kept cfg P) (h0 : P Vars.init)
    (s : Vars) (h : Operated cfg s) : P s := by
  induction h with
  | init => exact h0
  | event s q env _ ih => exact interrupt_kept cfg P k s q env ih
  | call s c _ ih =>
    cases c with
    | reset => exact k.reset s ih
    | write bit => exact k.write s _ ih
    | read => exact k.read s ih

theorem operated_of_reachable (cfg : Config) (s : Vars) (h : Reachable cfg s) :
    Operated cfg s := by
  induction h with
  | init => exact Operated.init
  | step s q env _ _ ih => exact Operated.event s q env ih

theorem operated_engine (cfg : Config) (calls : List EngineCall) (s : Vars)
    (h : Operated cfg s) : Operated cfg (engine cfg calls s) := by
  induction calls generalizing s with
  | nil => exact h
  | cons c cs ih => exact ih _ (Operated.call s c h)

theorem switchToRead_testBit_6 (cfg : Config) (s : Vars) :
    (OWBLLSwitchToRead cfg s).OWBLLStateFlags.testBit 6 = s.OWBLLStateFlags.testBit 6 := by
  simp only [OWBLLSwitchToRead]
  split
  · rw [setupNextRead_flags, (readBit_testBit_4 cfg _).2.2]; simp [Vars.setFlag]
  · rfl

theorem writeBit_testBit_6 (cfg : Config) (s : Vars) :
    (OWBWriteBit cfg s).OWBLLStateFlags.testBit 6 = s.OWBLLStateFlags.testBit 6 := by
  rcases state_cases s with hst | hst | hst | hst
  · rw [writeBit_idle cfg s (Or.inl hst)]
  · simp only [OWBWriteBit, hst]
    split <;> split <;> (try split) <;> (try split) <;>
      first
        | rfl
        | exact switchToRead_testBit_6 cfg _
  · rw [writeBit_idle cfg s (Or.inr hst)]
  · simp only [OWBWriteBit, hst]
    split
    · rw [switchToRead_testBit_6]
      split <;> (try split) <;> rfl
    · rfl

/-- No statement of the engine or of the handler changes bit 6 of the flags. -/
theorem kept_testBit_6 (cfg : Config) (b : Bool) :
    Kept cfg (fun v => v.OWBLLStateFlags.testBit 6 = b) where
  reset := fun _ h => h
  read := fun s h => by rw [(readBit_testBit_4 cfg s).2.2]; exact h
  write := fun s b h => by rw [writeBit_testBit_6]; exact h
  next := fun s h => by rw [setupNextRead_flags, (readBit_testBit_4 cfg s).2.2]; exact h
  switch := fun s h => by rw [(switchToWriteImmediately_flags s).2.2.2.2]; exact h
  set := fun s h => by simpa [Vars.setFlag] using h
  clear := fun s h => by simpa [Vars.clearFlag] using h

/-- C21: no engine call and no run of the handler changes `OWB_STATE_FLAG_TIMER_OVERFLOW`,
whatever the globals before; so in every state reached from the initial globals by any
mix of handler runs (returning or not) and engine calls the flag is clear, and the
handler entered there with the request pending calls `OWBReset` exactly when
`MIGHT_BE_RST` is set after the classification and the polling ends at or above the RST
time. -/
theorem C21_timer_overflow_never_set (cfg : Config) (s : Vars) (h : Operated cfg s) :
    s.flag OWB_STATE_FLAG_TIMER_OVERFLOW = false ∧
    (∀ (t : Vars) (c : EngineCall),
      (EngineCall.run cfg t c).flag OWB_STATE_FLAG_TIMER_OVERFLOW =
        t.flag OWB_STATE_FLAG_TIMER_OVERFLOW) ∧
    (∀ (t : Vars) q env,
      (interrupt cfg t q env).vars.flag OWB_STATE_FLAG_TIMER_OVERFLOW =
        t.flag OWB_STATE_FLAG_TIMER_OVERFLOW) ∧
    (∀ q env, q &&& cfg.OWB_LOW_DETECT_IRQ_FLAG ≠ 0 →
      (Call.OWBReset ∈ (interrupt cfg s q env).calls ↔
        (classify cfg (Run.start s q env)).vars.flag OWB_STATE_FLAG_MIGHT_BE_RST = true ∧
        ∃ t rest,
          pollLine (OWB_TIMING_RST_0_MIN cfg) (classify cfg (Run.start s q env)).env =
            some (t, rest) ∧
          OWB_TIMING_RST_0_MIN cfg ≤ t)) := by
  have hs : s.OWBLLStateFlags.testBit 6 = false :=
    operated_kept cfg _ (kept_testBit_6 cfg false) (by simp [Vars.init]) s h
  refine ⟨by simpa using hs, fun t c => ?_, fun t q env => ?_, fun q env hirq => ?_⟩
  · have := (kept_testBit_6 cfg (t.OWBLLStateFlags.testBit 6))
    simp only [OWB_STATE_FLAG_TIMER_OVERFLOW, flag_64]
    cases c with
    | reset => rfl
    | write bit => exact this.write t _ rfl
    | read => exact this.read t rfl
  · simp only [OWB_STATE_FLAG_TIMER_OVERFLOW, flag_64]
    exact interrupt_kept cfg _ (kept_testBit_6 cfg (t.OWBLLStateFlags.testBit 6)) t q env rfl
  · obtain ⟨c1, c2, c3⟩ := classify_run cfg (Run.start s q env) rfl
    have c3n : Call.OWBReset ∉ (classify cfg (Run.start s q env)).calls := by
      rw [c3]; simp [Run.start]
    have c1n : (classify cfg (Run.start s q env)).INTRQ &&& cfg.OWB_LOW_DETECT_IRQ_FLAG ≠ 0 := by
      rw [c1]; exact hirq
    have h6 : (classify cfg (Run.start s q env)).vars.flag OWB_STATE_FLAG_TIMER_OVERFLOW =
        false := by
      simp only [OWB_STATE_FLAG_TIMER_OVERFLOW, flag_64]
      exact classify_kept cfg _ (kept_testBit_6 cfg false) (Run.start s q env) hs
    simp only [interrupt]
    generalize classify cfg (Run.start s q env) = c at c1 c2 c3 c3n c1n h6
    by_cases hex : c.exited = true
    · simp only [hex, if_true]
      have h6b : c.vars.OWBLLStateFlags.testBit 6 = false := by simpa using h6
      rw [(finalize_reset cfg c c1n c3n).1]
      simp [h6b]
    · have hnil := c2 (by simpa using hex)
      simp [hex, c3n, hnil, pollLine]

/-! ## The cursor under handler runs and engine calls -/

theorem kept_cursorInv (cfg : Config) : Kept cfg (CursorInv cfg) where
  reset := fun s _ => cursorInv_reset cfg s
  read := cursorInv_readBit cfg
  write := fun s b h => cursorInv_writeBit cfg s b h
  next := fun s h => cursorInv_congr cfg _ _ (by simp) (by simp) (by simp) (by simp) (by simp)
    (cursorInv_readBit cfg s h)
  switch := fun _ h => h
  set := fun _ h => h
  clear := fun _ h => h

/-- C22: the states a sequence of engine calls reaches from the initial globals are among
those reached by any mix of engine calls and handler runs, and in every such state: in
READ ROM and in SEARCH ROM the mask is `2 ^ k` with `k < 8`, the active byte index `i` is
below 8, `CurrentByte` is `OWBROMCode[i]` shifted right by `k`, and `CurrentByte & 1` is
bit `k` of `OWBROMCode[i]`; in RESET the mask is `2 ^ k` with `k < 8` and `CurrentByte`
has no bit set at position `k` or above. -/
theorem C22_cursor_invariant (cfg : Config) :
    (∀ calls, Operated cfg (engine cfg calls Vars.init)) ∧
    ∀ s, Operated cfg s →
      (s.CurrentState = OWB_STATE_READ_ROM →
        ∃ k < 8, s.CurrentBitValue = 2 ^ k ∧ s.OWBREADROMByteOffset < 8 ∧
          s.CurrentByte = cfg.rom s.OWBREADROMByteOffset >>> k ∧
          s.CurrentByte &&& 1 = ((cfg.rom s.OWBREADROMByteOffset).testBit k).toNat) ∧
      (s.CurrentState = OWB_STATE_SEARCH_ROM →
        ∃ k < 8, s.CurrentBitValue = 2 ^ k ∧ s.OWBSEARCHROMCurrentByteIndex < 8 ∧
          s.CurrentByte = cfg.rom s.OWBSEARCHROMCurrentByteIndex >>> k ∧
          s.CurrentByte &&& 1 = ((cfg.rom s.OWBSEARCHROMCurrentByteIndex).testBit k).toNat) ∧
      (s.CurrentState = OWB_STATE_RESET →
        ∃ k < 8, s.CurrentBitValue = 2 ^ k ∧ s.CurrentByte < 2 ^ k ∧
          ∀ j, k ≤ j → s.CurrentByte.testBit j = false) := by
  have hbit : ∀ r k : Nat, (r / 2 ^ k) &&& 1 = (r.testBit k).toNat := by
    intro r k
    rw [Nat.and_one_is_mod, Nat.testBit_to_div_mod]
    rcases Nat.mod_two_eq_zero_or_one (r / 2 ^ k) with h | h <;> simp [h]
  refine ⟨fun calls => operated_engine cfg calls _ Operated.init, fun s hs => ?_⟩
  have h := operated_kept cfg _ (kept_cursorInv cfg) (cursorInv_init cfg) s hs
  refine ⟨fun hst => ?_, fun hst => ?_, fun hst => ?_⟩ <;>
    simp only [CursorInv, hst, AtReadCursor, AtSearchCursor] at h
  · obtain ⟨k, hk, hi, -, hm, hB⟩ := h
    exact ⟨k, hk, hm, hi, by rw [Nat.shiftRight_eq_div_pow]; exact hB, by rw [hB]; exact hbit _ _⟩
  · obtain ⟨k, hk, hi, -, hm, hB⟩ := h
    exact ⟨k, hk, hm, hi, by rw [Nat.shiftRight_eq_div_pow]; exact hB, by rw [hB]; exact hbit _ _⟩
  · obtain ⟨k, hk, hm, hB, -, -⟩ := h
    refine ⟨k, hk, hm, hB, fun j hj => ?_⟩
    exact Nat.testBit_lt_two_pow (Nat.lt_of_lt_of_le hB (Nat.pow_le_pow_right (by decide) hj))

/-! ## The reads of the serial number -/

theorem readBitTraced_fst (cfg : Config) (s : Vars) :
    (OWBReadBitTraced cfg s).1 = OWBReadBit cfg s := by
  rcases state_cases s with h | h | h | h
  · simp [OWBReadBitTraced, OWBReadBit, h]
  · simp [OWBReadBitTraced, OWBReadBit, h]
  · simp only [OWBReadBitTraced, OWBReadBit, h]
    split <;> (try split) <;> rfl
  · simp only [OWBReadBitTraced, OWBReadBit, h]

theorem setupNextReadTraced_fst (cfg : Config) (s : Vars) :
    (OWBLLSetupNextReadTraced cfg s).1 = OWBLLSetupNextRead cfg s := by
  simp only [OWBLLSetupNextReadTraced, OWBLLSetupNextRead, ← readBitTraced_fst]
  split <;> rfl

theorem setupNextReadTraced_snd (cfg : Config) (s : Vars) :
    (OWBLLSetupNextReadTraced cfg s).2 = (OWBReadBitTraced cfg s).2 := by
  simp only [OWBLLSetupNextReadTraced]
  split <;> rfl

theorem switchToReadTraced_fst (cfg : Config) (s : Vars) :
    (OWBLLSwitchToReadTraced cfg s).1 = OWBLLSwitchToRead cfg s := by
  simp only [OWBLLSwitchToReadTraced, OWBLLSwitchToRead]
  split
  · exact setupNextReadTraced_fst cfg _
  · rfl

theorem writeBitTraced_fst (cfg : Config) (s : Vars) :
    (OWBWriteBitTraced cfg s).1 = OWBWriteBit cfg s := by
  rcases state_cases s with h | h | h | h
  · simp [OWBWriteBitTraced, OWBWriteBit, h]
  · simp only [OWBWriteBitTraced, OWBWriteBit, h, ← switchToReadTraced_fst]
    split <;> split <;> (try split) <;> (try split) <;> rfl
  · simp [OWBWriteBitTraced, OWBWriteBit, h]
  · simp only [OWBWriteBitTraced, OWBWriteBit, h, ← switchToReadTraced_fst]
    split
    · split <;> (try split) <;> rfl
    · rfl

theorem indexInv_congr (s t : Vars) (h1 : t.CurrentState = s.CurrentState)
    (h2 : t.OWBREADROMByteOffset = s.OWBREADROMByteOffset)
    (h3 : t.OWBSEARCHROMCurrentByteIndex = s.OWBSEARCHROMCurrentByteIndex)
    (h : IndexInv s) : IndexInv t := by
  simp only [IndexInv, h1, h2, h3] at h ⊢
  exact h

theorem indexInv_readBit (cfg : Config) (s : Vars) (h : IndexInv s) :
    IndexInv (OWBReadBit cfg s) := by
  rcases state_cases s with hst | hst | hst | hst
  · exact indexInv_congr s _ (by simp [OWBReadBit, hst, OWBLLSetReadValue])
      (by simp [OWBReadBit, hst, OWBLLSetReadValue])
      (by simp [OWBReadBit, hst, OWBLLSetReadValue]) h
  · exact indexInv_congr s _ (by simp [OWBReadBit, hst, OWBLLSetReadValue])
      (by simp [OWBReadBit, hst, OWBLLSetReadValue])
      (by simp [OWBReadBit, hst, OWBLLSetReadValue]) h
  · obtain ⟨h1, h2, h3⟩ := h
    have h4 := h3 (by simp [hst])
    simp only [OWBReadBit, hst, OWBLLSetReadValue]
    split
    · split
      · rename_i h8
        simp only [IndexInv] at h8 ⊢
        exact ⟨by omega, h2, fun hne => absurd rfl hne⟩
      · rename_i h8
        simp only [IndexInv] at h8 ⊢
        exact ⟨by omega, h2, fun _ => ⟨by omega, h4.2⟩⟩
    · exact ⟨h1, h2, fun _ => h4⟩
  · have hf := readBit_frame cfg s (by simp [hst])
    exact indexInv_congr s _ hf.1 hf.2.2.2.2 hf.2.2.2.1 h

theorem indexInv_setupNextRead (cfg : Config) (s : Vars) (h : IndexInv s) :
    IndexInv (OWBLLSetupNextRead cfg s) :=
  indexInv_congr (OWBReadBit cfg s) _ (by simp) (by simp) (by simp) (indexInv_readBit cfg s h)

theorem indexInv_switchToRead (cfg : Config) (s : Vars) (h : IndexInv s) :
    IndexInv (OWBLLSwitchToRead cfg s) := by
  simp only [OWBLLSwitchToRead]
  split
  · exact indexInv_setupNextRead cfg _ h
  · exact h

theorem indexInv_writeBit (cfg : Config) (s : Vars) (h : IndexInv s) :
    IndexInv (OWBWriteBit cfg s) := by
  rcases state_cases s with hst | hst | hst | hst
  · rw [writeBit_idle cfg s (Or.inl hst)]; exact h
  · obtain ⟨h1, h2, h3⟩ := h
    have h4 := h3 (by simp [hst])
    simp only [OWBWriteBit, hst]
    split_ifs <;>
      first
        | exact indexInv_switchToRead cfg _ ⟨h1, h2, fun _ => h4⟩
        | exact ⟨h1, h2, fun _ => h4⟩
  · rw [writeBit_idle cfg s (Or.inr hst)]; exact h
  · obtain ⟨h1, h2, h3⟩ := h
    have h4 := h3 (by simp [hst])
    simp only [OWBWriteBit, hst]
    split
    · apply indexInv_switchToRead
      split
      · split
        · rename_i h8
          simp only [IndexInv] at h8 ⊢
          exact ⟨h1, by omega, fun hne => absurd rfl hne⟩
        · rename_i h8
          simp only [IndexInv] at h8 ⊢
          exact ⟨h1, by omega, fun _ => ⟨h4.1, by omega⟩⟩
      · exact ⟨h1, h2, fun _ => h4⟩
    · exact ⟨h1, h2, fun hne => absurd rfl hne⟩

theorem kept_indexInv (cfg : Config) : Kept cfg IndexInv where
  reset := fun s _ => by simp [IndexInv, OWBReset]
  read := indexInv_readBit cfg
  write := fun s b h => indexInv_writeBit cfg _ h
  next := indexInv_setupNextRead cfg
  switch := fun _ h => h
  set := fun _ h => h
  clear := fun _ h => h

theorem readBitTraced_bound (cfg : Config) (s : Vars) (h : IndexInv s) :
    ∀ i ∈ (OWBReadBitTraced cfg s).2, i < 8 := by
  rcases state_cases s with hst | hst | hst | hst
  · simp [OWBReadBitTraced, hst]
  · simp [OWBReadBitTraced, hst]
  · have h4 := h.2.2 (by simp [hst])
    simp only [OWBReadBitTraced, hst, OWBLLSetReadValue]
    split
    · split
      · simp
      · rename_i h8
        simp only [List.mem_singleton, forall_eq] at h8 ⊢
        omega
    · simp
  · simp [OWBReadBitTraced, hst]

theorem switchToReadTraced_bound (cfg : Config) (s : Vars) (h : IndexInv s) :
    ∀ i ∈ (OWBLLSwitchToReadTraced cfg s).2, i < 8 := by
  simp only [OWBLLSwitchToReadTraced]
  split
  · rw [setupNextReadTraced_snd]
    exact readBitTraced_bound cfg _ h
  · simp

theorem writeBitTraced_bound (cfg : Config) (s : Vars) (h : IndexInv s) :
    ∀ i ∈ (OWBWriteBitTraced cfg s).2, i < 8 := by
  obtain ⟨h1, h2, h3⟩ := h
  rcases state_cases s with hst | hst | hst | hst
  · simp [OWBWriteBitTraced, hst]
  · have h4 := h3 (by simp [hst])
    have sw : ∀ t : Vars, t.OWBREADROMByteOffset = s.OWBREADROMByteOffset →
        t.OWBSEARCHROMCurrentByteIndex = s.OWBSEARCHROMCurrentByteIndex →
        ∀ i ∈ 0 :: (OWBLLSwitchToReadTraced cfg t).2, i < 8 := by
      intro t e1 e2 i hi
      rcases List.mem_cons.mp hi with rfl | hi
      · decide
      · exact switchToReadTraced_bound cfg t ⟨by rw [e1]; exact h1, by rw [e2]; exact h2,
          fun _ => by rw [e1, e2]; exact h4⟩ i hi
    simp only [OWBWriteBitTraced, hst]
    split_ifs <;> first | exact sw _ rfl rfl | simp
  · simp [OWBWriteBitTraced, hst]
  · have h4 := h3 (by simp [hst])
    simp only [OWBWriteBitTraced, hst]
    split
    · split
      · split
        · simp only [List.nil_append]
          apply switchToReadTraced_bound
          rename_i h8
          simp only [IndexInv] at h8 ⊢
          exact ⟨h1, by omega, fun hne => absurd rfl hne⟩
        · rename_i h8
          intro i hi
          simp only [List.singleton_append, List.mem_cons] at hi h8
          rcases hi with rfl | hi
          · omega
          · refine switchToReadTraced_bound cfg _ ?_ i hi
            simp only [IndexInv]
            exact ⟨h1, by omega, fun _ => ⟨h4.1, by omega⟩⟩
      · simp only [List.nil_append]
        exact switchToReadTraced_bound cfg _ ⟨h1, h2, fun _ => h4⟩
    · simp

theorem runTraced_fst (cfg : Config) (s : Vars) (c : EngineCall) :
    (EngineCall.runTraced cfg s c).1 = EngineCall.run cfg s c := by
  cases c with
  | reset => rfl
  | write bit => exact writeBitTraced_fst cfg _
  | read => exact readBitTraced_fst cfg s

theorem runTraced_bound (cfg : Config) (s : Vars) (c : EngineCall) (h : IndexInv s) :
    ∀ i ∈ (EngineCall.runTraced cfg s c).2, i < 8 := by
  cases c with
  | reset => simp [EngineCall.runTraced]
  | write bit => exact writeBitTraced_bound cfg _ h
  | read => exact readBitTraced_bound cfg s h

theorem indexInv_run (cfg : Config) (s : Vars) (c : EngineCall) (h : IndexInv s) :
    IndexInv (EngineCall.run cfg s c) := by
  cases c with
  | reset => exact (kept_indexInv cfg).reset s h
  | write bit => exact (kept_indexInv cfg).write s bit h
  | read => exact (kept_indexInv cfg).read s h

theorem engineReads_bound (cfg : Config) (calls : List EngineCall) (s : Vars)
    (h : IndexInv s) : ∀ i ∈ engineReads cfg calls s, i < 8 := by
  induction calls generalizing s with
  | nil => simp [engineReads]
  | cons c cs ih =>
    intro i hi
    simp only [engineReads, List.mem_append] at hi
    rcases hi with hi | hi
    · exact runTraced_bound cfg s c h i hi
    · rw [runTraced_fst] at hi
      exact ih _ (indexInv_run cfg s c h) i hi

theorem indexInv_init : IndexInv Vars.init := by
  simp [IndexInv, Vars.init]

/-- The reads of a complete READ ROM transfer: byte 0 at the dispatch, then bytes 1 to 7. -/
theorem engineReads_read_rom :
    engineReads demoConfig
      (commandCalls [true, true, false, false, true, true, false, false] ++
        List.replicate 63 EngineCall.read) Vars.init = [0, 1, 2, 3, 4, 5, 6, 7] := by
  decide

/-- C23: every index at which a sequence of `OWBReset`, `OWBWriteBit` and `OWBReadBit`
calls from the initial globals reads `OWBROMCode` is below 8 (the traced calls being the
engine's calls, with the reads noted); and in every state reached by any mix of engine
calls and handler runs both byte indices are at most 8, the value 8 is held only in
IDLE, and the reads of whatever call comes next are below 8. -/
theorem C23_rom_reads_in_bounds (cfg : Config) :
    (∀ calls, ∀ i ∈ engineReads cfg calls Vars.init, i < 8) ∧
    (∀ s c, (EngineCall.runTraced cfg s c).1 = EngineCall.run cfg s c) ∧
    (∀ s, Operated cfg s →
      s.OWBREADROMByteOffset ≤ 8 ∧ s.OWBSEARCHROMCurrentByteIndex ≤ 8 ∧
      (s.OWBREADROMByteOffset = 8 ∨ s.OWBSEARCHROMCurrentByteIndex = 8 →
        s.CurrentState = OWB_STATE_IDLE) ∧
      ∀ c, ∀ i ∈ (EngineCall.runTraced cfg s c).2, i < 8) := by
  refine ⟨fun calls => engineReads_bound cfg calls _ indexInv_init, runTraced_fst cfg,
    fun s hs => ?_⟩
  have h := operated_kept cfg _ (kept_indexInv cfg) indexInv_init s hs
  refine ⟨h.1, h.2.1, fun h8 => ?_, fun c => runTraced_bound cfg s c h⟩
  by_contra hne
  have := h.2.2 hne
  omega

/-! ## The order of the thresholds -/

/-- C24: at each of the four clock rates `main.c` accepts, the W1 minimum is below the W0
minimum, which is below the RST minimum and equals the R0 time; all six thresholds are
below 65536, so a 16-bit tick count reaches each of them; and every tick count lies in
exactly one of the ranges below W1, from W1 to below W0, from W0 to below RST, from RST
on (at 1 and 2 MHz the W1 minimum is 0 and the first range is empty). -/
theorem C24_threshold_order (cfg : Config)
    (h : cfg.F_CPU = 1000000 ∨ cfg.F_CPU = 2000000 ∨ cfg.F_CPU = 4000000 ∨
      cfg.F_CPU = 8000000) :
    OWB_TIMING_W1_0_MIN cfg < OWB_TIMING_W0_0_MIN cfg ∧
    OWB_TIMING_W0_0_MIN cfg < OWB_TIMING_RST_0_MIN cfg ∧
    OWB_TIMING_W0_0_MIN cfg = OWB_TIMING_R0_0 cfg ∧
    (∀ t ∈ timingThresholds cfg, t < 65536) ∧
    (cfg.F_CPU / 1000000 ≤ 2 → OWB_TIMING_W1_0_MIN cfg = 0) ∧
    (∀ T16Value : Nat,
      (T16Value < OWB_TIMING_W1_0_MIN cfg ∨
        (OWB_TIMING_W1_0_MIN cfg ≤ T16Value ∧ T16Value < OWB_TIMING_W0_0_MIN cfg) ∨
        (OWB_TIMING_W0_0_MIN cfg ≤ T16Value ∧ T16Value < OWB_TIMING_RST_0_MIN cfg) ∨
        OWB_TIMING_RST_0_MIN cfg ≤ T16Value) ∧
      ¬ (T16Value < OWB_TIMING_W1_0_MIN cfg ∧ OWB_TIMING_W1_0_MIN cfg ≤ T16Value) ∧
      ¬ (T16Value < OWB_TIMING_W0_0_MIN cfg ∧ OWB_TIMING_W0_0_MIN cfg ≤ T16Value) ∧
      ¬ (T16Value < OWB_TIMING_RST_0_MIN cfg ∧ OWB_TIMING_RST_0_MIN cfg ≤ T16Value)) := by
  have hm : cfg.F_CPU / 1000000 = 1 ∨ cfg.F_CPU / 1000000 = 2 ∨ cfg.F_CPU / 1000000 = 4 ∨
      cfg.F_CPU / 1000000 = 8 := by
    rcases h with h | h | h | h <;> rw [h] <;> simp
  have e : ∀ us, OWB_TIMING_US_TO_TICKS_WITH_LATENCY cfg us = us * (cfg.F_CPU / 1000000) - 8 := by
    intro us
    simp only [OWB_TIMING_US_TO_TICKS_WITH_LATENCY, OWB_TIMING_US_TO_TICKS,
      OWB_TIMING_LOW_TO_ISR_LATENCY_TICKS]
    split_ifs <;> omega
  simp only [timingThresholds, OWB_TIMING_W1_0_MIN, OWB_TIMING_W0_0_MIN, OWB_TIMING_R0_0,
    OWB_TIMING_RST_0_MIN, OWB_TIMING_RST_1, OWB_TIMING_RST_PP, e, List.mem_cons,
    List.mem_singleton, List.not_mem_nil, or_false]
  generalize cfg.F_CPU / 1000000 = m at hm
  refine ⟨by omega, by omega, trivial, ?_, by omega,
    fun t => ⟨by omega, by omega, by omega, by omega⟩⟩
  intro t ht
  omega

/-! ## The theorems at concrete inputs -/

/-- The 64th prepared bit of the demo serial number, and the state IDLE after it. -/
theorem C1_witness :
    63 < 64 ∧
    ((OWBReadBit demoConfig)^[63]
      (writeBits demoConfig [true, true, false, false, true, true, false, false]
        (OWBLLSwitchToWriteImmediately (OWBReset Vars.init)))).OWBLLCurrentBitValue =
      demoConfig.bit (63 / 8) (63 % 8) ∧
    ((OWBReadBit demoConfig)^[63]
      (writeBits demoConfig [true, true, false, false, true, true, false, false]
        (OWBLLSwitchToWriteImmediately (OWBReset Vars.init)))).CurrentState =
      (if 63 < 63 then OWB_STATE_READ_ROM else OWB_STATE_IDLE) :=
  ⟨by decide, C1_read_rom_stream demoConfig Vars.init 63 (by decide)⟩

/-- The command 0x33 written after a reset pulse handled from the initial globals. -/
theorem C3_witness :
    (handle demoConfig Vars.init [resetPulse]).CurrentState = OWB_STATE_RESET ∧
    byteOfBits [true, true, false, false, true, true, false, false] = 0x33 ∧
    (writeBits demoConfig [true, true, false, false, true, true, false, false]
      (handle demoConfig Vars.init [resetPulse])).CurrentState = OWB_STATE_READ_ROM :=
  ⟨by decide, by decide,
    ((C3_command_read_rom demoConfig (handle demoConfig Vars.init [resetPulse])
      [true, true, false, false, true, true, false, false] (by decide) (by decide)
      (by decide) (by decide) (by decide) (by decide)).2.2.2 (by decide)).1⟩

/-- A reset pulse in the middle of a SEARCH ROM round is finalized as a reset, and the
run returns. -/
theorem C5_witness :
    1 &&& demoConfig.OWB_LOW_DETECT_IRQ_FLAG ≠ 0 ∧
    Call.OWBReset ∈ (interrupt demoConfig searchWritePhase 1 resetPulse).calls ∧
    (interrupt demoConfig searchWritePhase 1 resetPulse).exited = true ∧
    (interrupt demoConfig searchWritePhase 1 resetPulse).vars.CurrentState = OWB_STATE_RESET :=
  ⟨by decide, by decide,
    congrArg Run.exited
      ((C5_reset_finalization demoConfig searchWritePhase 1 resetPulse (by decide)).2.2
        (by decide) 792 [] ⟨900, true⟩ [] ⟨52, true⟩ [] ⟨592, true⟩ []
        (by decide) (by decide) (by decide) (by decide) (by decide) (by decide)
        (by decide)).1,
    ((C5_reset_finalization demoConfig searchWritePhase 1 resetPulse (by decide)).2.1
      (by decide) (by decide)).1⟩

/-- A pulse that is LOW up to the W0 time, in write mode, is reported as one W0. -/
theorem C7_witness :
    Reachable demoConfig searchWritePhase ∧
    searchWritePhase.flag OWB_STATE_FLAG_NEXT_IS_READ = false ∧
    (classify demoConfig
      (Run.start searchWritePhase 1 ([⟨5, false⟩] ++ ⟨112, false⟩ :: []))).calls =
      [Call.OWBWriteBit 0] :=
  ⟨searchWritePhase_reachable, by decide,
    by
      rw [((C7_write_slot_classification demoConfig searchWritePhase 1 [⟨5, false⟩]
        ⟨112, false⟩ [] searchWritePhase_reachable (by decide) (by decide) (by decide)
        (by decide)).1 (by decide)).1]⟩

/-- A pulse found released at tick 1 in write mode, with the glitch filter, is dropped. -/
theorem skip_short_pulses_write_mode :
    demoConfigSkip.OWB_SKIP_SHORT_PULSES = true ∧
    Reachable demoConfigSkip Vars.init ∧
    interrupt demoConfigSkip Vars.init 1 ([] ++ ⟨1, true⟩ :: []) =
      { vars := Vars.init, INTRQ := 1 &&& (0xFF ^^^ demoConfigSkip.OWB_LOW_DETECT_IRQ_FLAG),
        calls := [], bus := [], env := [], exited := true } :=
  ⟨rfl, Reachable.init,
    (skip_short_pulses_paths demoConfigSkip Vars.init 1 rfl Reachable.init (by decide)).1
      (by decide) [] ⟨1, true⟩ [] (by decide) (by decide) (by decide)⟩

/-- A written 1 against identifier bit 0 of the family code 0x28 ends the round. -/
theorem C9_witness :
    searchWritePhase.CurrentState = OWB_STATE_SEARCH_ROM ∧
    AtSearchCursor demoConfig searchWritePhase 0 0 ∧
    1 ≠ demoConfig.bit 0 0 ∧
    OWBWriteBit demoConfig { searchWritePhase with OWBLLCurrentBitValue := 1 } =
      { searchWritePhase with OWBLLCurrentBitValue := 1, CurrentState := OWB_STATE_IDLE } :=
  ⟨by decide, by decide, by decide,
    (C9_search_rom_write_bit demoConfig searchWritePhase 1 0 0 (by decide) (by decide)
      (by decide) (by decide)).1 (by decide)⟩

/-- With the invert flag clear the identifier bit itself is prepared. -/
theorem C10_witness :
    searchWritePhase.CurrentState = OWB_STATE_SEARCH_ROM ∧
    AtSearchCursor demoConfig searchWritePhase 0 0 ∧
    searchWritePhase.flag OWB_STATE_FLAG_SEARCH_ROM_INVERT = false ∧
    (OWBReadBit demoConfig searchWritePhase).OWBLLCurrentBitValue = demoConfig.bit 0 0 :=
  ⟨by decide, by decide, by decide,
    (C10_search_rom_read_bit demoConfig searchWritePhase 0 0 (by decide) (by decide)).1
      (by decide)⟩

theorem C14_witness :
    (read1Expected.CurrentState = OWB_STATE_IDLE ∨
      read1Expected.CurrentState = OWB_STATE_READ_ROM) ∧
    ∀ b : Nat, OWBWriteBit demoConfigSkip { read1Expected with OWBLLCurrentBitValue := b } =
      { read1Expected with OWBLLCurrentBitValue := b } :=
  ⟨by decide, C14_write_bit_ignored demoConfigSkip read1Expected (by decide)⟩

theorem C15_witness :
    (Vars.init.CurrentState = OWB_STATE_IDLE ∨ Vars.init.CurrentState = OWB_STATE_RESET) ∧
    OWBReadBit demoConfig Vars.init = { Vars.init with OWBLLCurrentBitValue := 1 } :=
  ⟨by decide, (C15_read_bit_idle demoConfig Vars.init (by decide)).1⟩

theorem C11_witness :
    [true, false, true, false, true, false, true, false].length = 8 ∧
    byteOfBits [true, false, true, false, true, false, true, false] = 0x55 ∧
    writeBits demoConfig [true, false, true, false, true, false, true, false]
        (OWBReset Vars.init) =
      { OWBReset Vars.init with
        OWBLLCurrentBitValue := 0
        CurrentByte := 0x55
        CurrentBitValue := 0
        CurrentState := OWB_STATE_IDLE } :=
  ⟨rfl, by decide,
    (C11_unknown_command demoConfig (OWBReset Vars.init)
      [true, false, true, false, true, false, true, false] rfl rfl rfl rfl
      (by decide) (by decide)).2.1⟩

theorem C19_witness :
    Reachable demoConfig searchWritePhase ∧ demoConfig.OWB_LOW_DETECT_IRQ_FLAG ≠ 0 ∧
    (searchWritePhase.OWBLLNextRead0INTRQFlag = demoConfig.OWB_LOW_DETECT_IRQ_FLAG ↔
      searchWritePhase.flag OWB_STATE_FLAG_NEXT_IS_READ = true ∧
      searchWritePhase.OWBLLCurrentBitValue = 0) :=
  ⟨searchWritePhase_reachable, by decide,
    (C19_fast_path_test demoConfig searchWritePhase searchWritePhase_reachable (by decide)).1⟩

theorem C20_witness :
    Reachable demoConfig searchComplementPhase ∧
    1 &&& demoConfig.OWB_LOW_DETECT_IRQ_FLAG ≠ 0 ∧
    searchComplementPhase.flag OWB_STATE_FLAG_NEXT_IS_READ = true ∧
    searchComplementPhase.flag OWB_STATE_FLAG_DELAYED_SWITCH_TO_WRITE = true ∧
    searchComplementPhase.OWBLLCurrentBitValue = 1 ∧
    (interrupt demoConfig searchComplementPhase 1 shortPulse).vars =
      OWBLLSwitchToWriteImmediately searchComplementPhase ∧
    (interrupt demoConfig searchComplementPhase 1 shortPulse).calls = [] :=
  ⟨searchComplementPhase_reachable, by decide, by decide, by decide, by decide,
    ((C20_deferred_switch demoConfig searchComplementPhase 1 shortPulse
      searchComplementPhase_reachable (by decide) (by decide) (by decide)).2.2.2.2.1
      (by decide) (by decide) (fun h => absurd h.1 (by decide))).1,
    by decide⟩

/-- The wait for the idle time at 4 MHz, 52 ticks, on an advancing timer ends within 52
readings and one more, and a
reset pulse of 800 LOW readings followed by a released line is handled to the end. -/
theorem C18_witness :
    Advancing (lineStuckLow 60) ∧ 52 < (lineStuckLow 60).length ∧
    (∃ pre last rest, lineStuckLow 60 = pre ++ last :: rest ∧
      OWBLLWaitForT16 52 (lineStuckLow 60) = some rest ∧
      pre.length ≤ 52 ∧ ∀ y ∈ pre, y.tick < 52) ∧
    (interrupt demoConfig Vars.init 1
      (lineStuckLow 800 ++ ⟨900, true⟩ :: (lineStuckLow 60 ++ lineStuckLow 600))).exited = true :=
  ⟨advancing_lineStuckLow 60, by decide,
    (C18_timed_waits demoConfig 52 (lineStuckLow 60) (advancing_lineStuckLow 60)
      (by decide)).2.1,
    ((C18_timed_waits demoConfig 52 (lineStuckLow 60) (advancing_lineStuckLow 60)
      (by decide)).2.2.2.2.2.1 Vars.init 1 (lineStuckLow 800) ⟨900, true⟩ (lineStuckLow 60)
      (lineStuckLow 600) (by decide) (advancing_lineStuckLow 800) (lineStuckLow_low 800)
      (by simp [lineStuckLow]; decide) rfl (advancing_lineStuckLow 60) (by decide)
      (advancing_lineStuckLow 600) (by simp [lineStuckLow]; decide)).1⟩

theorem C21_witness :
    Operated demoConfig searchWritePhase ∧
    searchWritePhase.flag OWB_STATE_FLAG_TIMER_OVERFLOW = false :=
  ⟨operated_of_reachable _ _ searchWritePhase_reachable,
    (C21_timer_overflow_never_set demoConfig searchWritePhase
      (operated_of_reachable _ _ searchWritePhase_reachable)).1⟩

theorem C24_witness :
    (demoConfig.F_CPU = 1000000 ∨ demoConfig.F_CPU = 2000000 ∨ demoConfig.F_CPU = 4000000 ∨
      demoConfig.F_CPU = 8000000) ∧
    OWB_TIMING_W1_0_MIN demoConfig < OWB_TIMING_W0_0_MIN demoConfig ∧
    OWB_TIMING_W0_0_MIN demoConfig < OWB_TIMING_RST_0_MIN demoConfig :=
  ⟨Or.inr (Or.inr (Or.inl rfl)),
    (C24_threshold_order demoConfig (Or.inr (Or.inr (Or.inl rfl)))).1,
    (C24_threshold_order demoConfig (Or.inr (Or.inr (Or.inl rfl)))).2.1⟩

end OWB
